import Mathlib

/-!
# ygot: schema path resolution, schema walk, constraint validation, binding

A shallow embedding of `ytypes/util_schema.go` and `ygot/unmarshal.go`.  Go
strings are lists of characters, Go maps are association lists (a nil map and
an empty map behave alike under lookup and `range`, the only operations used
here), pointers into the schema tree are unfolded into values, and a record
that is written to is passed in and handed back.
-/

set_option autoImplicit false

/-! ## Part I: definitions -/

/-- Go strings, as lists of characters. -/
abbrev GoString := List Char

namespace strings

/-- Go `strings.Split(s, sep)` for a one-character separator: the substrings
between the separators, `[s]` when the separator does not occur. -/
def Split : GoString → Char → List GoString
  | [], _ => [[]]
  | c :: cs, sep =>
    if c = sep then [] :: Split cs sep
    else match Split cs sep with
      | [] => [[c]]
      | h :: t => (c :: h) :: t

/-- Go `strings.TrimPrefix(s, p)` for a one-character prefix: `s` without one
leading `p`, or `s` unchanged. -/
def TrimPrefix : GoString → Char → GoString
  | [], _ => []
  | c :: cs, p => if c = p then cs else c :: cs

/-- Go `strings.Join(elems, sep)` for a one-character separator. -/
def Join : List GoString → Char → GoString
  | [], _ => []
  | s :: rest, sep =>
    match rest with
    | [] => s
    | _ :: _ => s ++ sep :: Join rest sep

end strings

namespace reflect

/-- Go `reflect.StructField`, reduced to its name and its struct tag; the tag
is the list of its `key:"value"` pairs. -/
structure StructField where
  Name : GoString
  Tag : List (GoString × GoString)
  deriving DecidableEq, Repr

/-- Go `f.Tag.Lookup(key)`: the value of the first pair with that key. -/
def StructField.TagLookup (f : StructField) (key : GoString) : Option GoString :=
  (f.Tag.find? (fun kv => kv.1 = key)).map (fun kv => kv.2)

/-- A Go value as reflection shows it: the invalid (zero) value that a nil
interface gives, scalars, nil and non-nil pointers, structs with their fields in
declaration order, nil and non-nil slices, nil and non-nil maps with their
entries in some iteration order. -/
inductive Value where
  | invalid
  | bool (b : Bool)
  | int (n : Int)
  | string (s : GoString)
  | nilPtr
  | ptr (v : Value)
  | struct (fields : List (StructField × Value))
  | nilSlice
  | slice (elems : List Value)
  | nilMap
  | map (entries : List (Value × Value))

end reflect

namespace yang

/-- The goyang `NumberKind`: how a `Number` is to be read. -/
inductive NumberKind where
  | Positive
  | Negative
  | MinNumber
  | MaxNumber
  deriving DecidableEq, Repr

/-- The goyang `Number`: a kind and an unsigned 64-bit magnitude. -/
structure Number where
  Kind : NumberKind
  Value : Nat
  deriving DecidableEq, Repr

/-- Modelled from the spec: `Number.Less` of the schema library is not among the
sources; it is the strict order of the closed numeric intervals of the
specification, with the "no lower bound" sentinel below and the "no upper
bound" sentinel above every number. -/
def Number.Less (n m : Number) : Bool :=
  if m.Kind = .MinNumber then false
  else if n.Kind = .MinNumber then true
  else if n.Kind = .MaxNumber then false
  else if m.Kind = .MaxNumber then true
  else if n.Kind = .Negative ∧ m.Kind ≠ .Negative then true
  else if n.Kind ≠ .Negative ∧ m.Kind = .Negative then false
  else if n.Kind = .Negative then decide (n.Value > m.Value)
  else decide (n.Value < m.Value)

/-- Modelled from the spec: `Number.Equal` of the schema library, neither number
less than the other. -/
def Number.Equal (n m : Number) : Bool :=
  !n.Less m && !m.Less n

/-- The goyang `YRange`: one closed interval. -/
structure YRange where
  Min : Number
  Max : Number
  deriving DecidableEq, Repr

/-- The goyang `YangRange`: a list of intervals. -/
abbrev YangRange := List YRange

/-- The goyang `TypeKind`, the declared kind of a leaf type. -/
inductive TypeKind where
  | Ynone
  | Yint8
  | Yint16
  | Yint32
  | Yint64
  | Yuint8
  | Yuint16
  | Yuint32
  | Yuint64
  | Ybinary
  | Ybits
  | Ybool
  | Ydecimal64
  | Yempty
  | Yenum
  | Yidentityref
  | YinstanceIdentifier
  | Yleafref
  | Ystring
  | Yunion
  deriving DecidableEq, Repr

/-- The goyang `YangType`, reduced to the fields read here: the kind, the
length restriction and the leaf-ref target path. -/
structure YangType where
  Kind : TypeKind
  Length : YangRange
  Path : GoString
  deriving DecidableEq, Repr

/-- The goyang `ListAttr`; each bound is the text of its declared value, or
absent. -/
structure ListAttr where
  MinElements : Option GoString
  MaxElements : Option GoString
  deriving DecidableEq, Repr

/-- The goyang `EntryKind`. -/
inductive EntryKind where
  | LeafEntry
  | DirectoryEntry
  | AnyXMLEntry
  | CaseEntry
  | ChoiceEntry
  | InputEntry
  | NotificationEntry
  | OutputEntry
  deriving DecidableEq, Repr

/-- The goyang `Entry`, a node of the schema tree.  `Parent` is the chain of
parent pointers (nil-terminated), `Dir` the table of children in some
iteration order, the last field the keys of the annotation table.  Both
directions are unfolded into values: a function that walks down reads `Dir`, a
function that walks up reads `Parent`. -/
inductive Entry where
  | mk (Name : GoString) (Kind : EntryKind) (Parent : Option Entry)
      (Dir : List (GoString × Entry)) (Typ : Option YangType)
      (ListAttr : Option ListAttr) (Annotations : List GoString)

namespace Entry

/-- Field `Name`. -/
def Name : Entry → GoString
  | mk n _ _ _ _ _ _ => n

/-- Field `Kind`. -/
def Kind : Entry → EntryKind
  | mk _ k _ _ _ _ _ => k

/-- Field `Parent`. -/
def Parent : Entry → Option Entry
  | mk _ _ p _ _ _ _ => p

/-- Field `Dir`. -/
def Dir : Entry → List (GoString × Entry)
  | mk _ _ _ d _ _ _ => d

/-- Field `Type` (a reserved word here, hence `Typ`). -/
def Typ : Entry → Option YangType
  | mk _ _ _ _ t _ _ => t

/-- Field `ListAttr`. -/
def ListAttr : Entry → Option ListAttr
  | mk _ _ _ _ _ l _ => l

/-- The keys of the annotation table of the entry. -/
def Annotations : Entry → List GoString
  | mk _ _ _ _ _ _ a => a

/-- Modelled from the spec: `IsChoice` of the schema library is not among the
sources; the node's kind is choice. -/
def IsChoice (e : Entry) : Bool := e.Kind = .ChoiceEntry

/-- Modelled from the spec: `IsCase` of the schema library is not among the
sources; the node's kind is case. -/
def IsCase (e : Entry) : Bool := e.Kind = .CaseEntry

/-- Modelled from the spec: `IsContainer` of the schema library is not among the
sources; a container is a directory node that is not a list, that is, one
without list attributes. -/
def IsContainer (e : Entry) : Bool :=
  e.Kind = .DirectoryEntry && e.ListAttr.isNone

end Entry

end yang

namespace ytypes

open yang reflect

/-- Error values built by the functions of the package; one constructor per
`fmt.Errorf` site, carrying the formatted arguments. -/
inductive Error where
  /-- The message "field %s did not specify a path". -/
  | noPath (field : GoString)
  /-- The message "field %s had path tag %s with |, but no elements of form a/b". -/
  | noDisambiguatingPath (field tag : GoString)
  /-- The message "length Min must be Positive or MinNumber: %v for schema %s". -/
  | lengthMinKind (min : Number) (schema : GoString)
  /-- The message "length Max must be Positive or MaxNumber: %v for schema %s";
  the number printed is the lower bound, as in the source. -/
  | lengthMaxKind (min : Number) (schema : GoString)
  /-- The message "schema has bad length min[%v] > max[%v] for schema %s". -/
  | lengthBadRange (min max : Number) (schema : GoString)
  /-- The message "schema is nil". -/
  | schemaNil
  /-- The message "schema %s ListAttr is nil". -/
  | listAttrNil (schema : GoString)
  /-- The message "value %v type %T must be map or slice type for schema %s". -/
  | notMapOrSlice (schema : GoString)
  /-- The message "list %s has negative min required elements". -/
  | negativeMin (schema : GoString)
  /-- The message "list %s contains fewer than min required elements: %d < %d". -/
  | fewerThanMin (schema : GoString) (size min : Int)
  /-- The message "list %s has negative max required elements". -/
  | negativeMax (schema : GoString)
  /-- The message "list %s contains more than max allowed elements: %d > %d". -/
  | moreThanMax (schema : GoString) (size max : Int)
  /-- The `json.UnmarshalTypeError` with the text of the value, the path tag and
  the field name. -/
  | unmarshalType (value path field : GoString)
  /-- The message "%s: %v" wrapping a child-schema error with the field name. -/
  | inField (field : GoString) (err : Error)
  /-- Any other error (returned by a visitor or by a leaf-ref lookup). -/
  | other (msg : GoString)
  /-- The message "JSON contains unexpected field %s". -/
  | unexpectedField (field : GoString)
  deriving DecidableEq, Repr

end ytypes

namespace util

open reflect

/-- Modelled from the spec: util.IsValueNil is not among the sources; the
is-absent predicate holds for no value and for a typed-nil pointer, ordered list
or keyed mapping, and for nothing else (an empty list or mapping is present). -/
def IsValueNil : Value → Bool
  | .invalid => true
  | .nilPtr => true
  | .nilSlice => true
  | .nilMap => true
  | _ => false

/-- Modelled from the spec: util.IsNilOrInvalidValue is not among the sources;
it reports whether the reflected value is invalid or is-absent. -/
def IsNilOrInvalidValue : Value → Bool
  | .invalid => true
  | v => IsValueNil v

/-- Modelled from the spec: util.IsValueStruct is not among the sources; the
is-record-kind predicate. -/
def IsValueStruct : Value → Bool
  | .struct _ => true
  | _ => false

/-- Modelled from the spec: util.IsValueStructPtr is not among the sources; the
value is a pointer to a record. -/
def IsValueStructPtr : Value → Bool
  | .ptr (.struct _) => true
  | _ => false

/-- Modelled from the spec: util.IsValueSlice is not among the sources; the
is-ordered-list-kind predicate, true of a nil list as well. -/
def IsValueSlice : Value → Bool
  | .slice _ => true
  | .nilSlice => true
  | _ => false

/-- Modelled from the spec: util.IsValueMap is not among the sources; the
is-keyed-mapping-kind predicate, true of a nil mapping as well. -/
def IsValueMap : Value → Bool
  | .map _ => true
  | .nilMap => true
  | _ => false

/-- Modelled from the spec: util.AppendErr is not among the sources; the error
is collected into the aggregate result. -/
def AppendErr (errors : List ytypes.Error) (err : ytypes.Error) : List ytypes.Error :=
  errors ++ [err]

/-- Modelled from the spec: util.AppendErrs is not among the sources; all the
errors returned are collected into the aggregate result. -/
def AppendErrs (errors newErrs : List ytypes.Error) : List ytypes.Error :=
  errors ++ newErrs

end util

namespace ytypes

open yang reflect

/-- stripModulePrefix returns s with any module qualifier up to and including
the last ':' character removed. -/
def stripModulePrefix (s : GoString) : GoString :=
  (strings.Split s ':').getLastD []

/-- stripModulePrefixes returns "in" with each element with the format "A:B"
changed to "B". -/
def stripModulePrefixes (xs : List GoString) : List GoString :=
  xs.map stripModulePrefix

/-- The `for _, pv := range paths` loop of pathToSchema: the split of the first
alternative that has more than one element. -/
def pathToSchemaLoop : List GoString → Option (List GoString)
  | [] => none
  | pv :: rest =>
    let pe := strings.Split (strings.TrimPrefix pv '/') '/'
    if pe.length > 1 then some pe else pathToSchemaLoop rest

/-- pathToSchema returns a path to the schema for the struct field f. -/
def pathToSchema (f : StructField) : Except Error (List GoString) :=
  match f.TagLookup "path".toList with
  | none => .error (.noPath f.Name)
  | some pathAnnotation =>
    let paths := strings.Split pathAnnotation '|'
    if paths.length = 1 then
      .ok (strings.Split (strings.TrimPrefix pathAnnotation '/') '/')
    else
      match pathToSchemaLoop paths with
      | some pe => .ok pe
      | none => .error (.noDisambiguatingPath f.Name pathAnnotation)

/-- A field whose only tag is `path:"tag"`. -/
def pathField (name tag : String) : StructField :=
  { Name := name.toList, Tag := [("path".toList, tag.toList)] }

/-- The segments of one alternative of a path tag, in the words of the
specification: its '/'-separated parts after removing one leading '/'. -/
def segmentsOf (alt : GoString) : List GoString :=
  strings.Split (strings.TrimPrefix alt '/') '/'


/-- Go `m[key]` on a table: the first binding of the key. -/
def mapLookup (m : List (GoString × Entry)) (key : GoString) : Option Entry :=
  (m.find? (fun kv => kv.1 = key)).map (fun kv => kv.2)

/-- Go `m[key] = e` on a table: replaces the binding of the key or adds one. -/
def mapSet : List (GoString × Entry) → GoString → Entry → List (GoString × Entry)
  | [], key, e => [(key, e)]
  | (k, v) :: rest, key, e =>
    if k = key then (key, e) :: rest else (k, v) :: mapSet rest key e

/-- isChoiceOrCase returns true if the entry is either a 'case' or a 'choice'
node within the schema. -/
def isChoiceOrCase (e : Entry) : Bool :=
  e.IsChoice || e.IsCase

/-- isFakeRoot reports whether the supplied entry represents the synthesised
root entity in the generated code. -/
def isFakeRoot (e : Entry) : Bool :=
  decide ("isFakeRoot".toList ∈ e.Annotations)

mutual
/-- findFirstNonChoiceOrCase recursively traverses the schema tree and populates
m with the set of the first nodes in every path that neither case nor choice
nodes; the keys are the names of the matching elements. -/
def findFirstNonChoiceOrCase : Entry → List (GoString × Entry) → List (GoString × Entry)
  | .mk n k p d t l a, m =>
    if !isChoiceOrCase (.mk n k p d t l a) then mapSet m n (.mk n k p d t l a)
    else findFirstNonChoiceOrCaseDir d m
/-- The `for _, ch := range e.Dir` loop of findFirstNonChoiceOrCase. -/
def findFirstNonChoiceOrCaseDir :
    List (GoString × Entry) → List (GoString × Entry) → List (GoString × Entry)
  | [], m => m
  | (_, ch) :: rest, m => findFirstNonChoiceOrCaseDir rest (findFirstNonChoiceOrCase ch m)
end

/-- The direct walk of childSchema, `for ; len(p) > 0; p = p[1:]`: the node
reached, the part of the path left, and foundSchema. -/
def childSchemaWalk : Entry → List GoString → Entry × List GoString × Bool
  | cs, [] => (cs, [], true)
  | cs, seg :: rest =>
    match mapLookup cs.Dir (stripModulePrefix seg) with
    | none => (cs, seg :: rest, false)
    | some ns => childSchemaWalk ns rest

/-- The table `entries` of childSchema: the first non-choice/case nodes below
the choice and case children of the node. -/
def choiceCaseEntries : List (GoString × Entry) → List (GoString × Entry) → List (GoString × Entry)
  | [], m => m
  | (_, ch) :: rest, m =>
    choiceCaseEntries rest (if isChoiceOrCase ch then findFirstNonChoiceOrCase ch m else m)

/-- The leading-name rule of childSchema: a container drops the first element
of a path of more than one element when it is the container's own name. -/
def stripParentName (schema : Entry) (p : List GoString) : List GoString :=
  if schema.IsContainer && decide (p.length > 1) && decide (p.head? = some schema.Name)
  then p.tail else p

/-- The part of childSchema after the path is fixed: the direct walk, then for a
remaining path of one element the match against the choice/case table.  Go
leaves the iteration order of `entries` open; here it is the order of the
table. -/
def childSchemaResolve (schema : Entry) (p : List GoString) : Option Entry × Option Error :=
  match childSchemaWalk schema p with
  | (childSchema, _, true) => (some childSchema, none)
  | (childSchema, p, false) =>
    match p with
    | [x] =>
      match (choiceCaseEntries childSchema.Dir []).find?
          (fun ne => stripModulePrefix ne.1 = x) with
      | some ne => (some ne.2, none)
      | none => (none, none)
    | _ => (none, none)

/-- childSchema returns the schema for the struct field f, if f contains a valid
path tag and the schema path is found in the schema tree. It returns an error
if the struct tag is invalid, or nil if tag is valid but the schema is not
found in the tree at the specified path. -/
def childSchema (schema : Entry) (f : StructField) : Option Entry × Option Error :=
  match pathToSchema f with
  | .error err => (none, some err)
  | .ok p => childSchemaResolve schema (stripParentName schema p)

/-- A leaf entry without parent, type or annotations. -/
def leafEntry (name : String) : Entry :=
  .mk name.toList .LeafEntry none [] none none []

/-- An entry of the given kind with the given children, each stored under its
own name. -/
def dirEntry (name : String) (kind : EntryKind) (children : List Entry) : Entry :=
  .mk name.toList kind none (children.map (fun c => (c.Name, c))) none none []

/-- The relation "N is a first non-choice/case node at or below e": e itself
when e is neither a choice nor a case, otherwise such a node of one of the
children of e.  The nodes between e and N are all choice or case nodes. -/
inductive FirstNonChoiceOrCase : Entry → Entry → Prop where
  | self (e : Entry) : isChoiceOrCase e = false → FirstNonChoiceOrCase e e
  | child (e ch N : Entry) (name : GoString) : isChoiceOrCase e = true →
      (name, ch) ∈ e.Dir → FirstNonChoiceOrCase ch N → FirstNonChoiceOrCase e N

/-- The relation "N is reachable from S through a chain made only of choice/case
nodes": N is a first non-choice/case node below a choice or case child of S. -/
def ReachableThroughChoiceCase (S N : Entry) : Prop :=
  ∃ name ch, (name, ch) ∈ S.Dir ∧ isChoiceOrCase ch = true ∧ FirstNonChoiceOrCase ch N

mutual
/-- The first non-choice/case nodes at or below an entry, as a list. -/
def firstNodes : Entry → List Entry
  | .mk n k p d t l a =>
    if !isChoiceOrCase (.mk n k p d t l a) then [.mk n k p d t l a] else firstNodesDir d
/-- The first non-choice/case nodes at or below the entries of a table. -/
def firstNodesDir : List (GoString × Entry) → List Entry
  | [] => []
  | (_, ch) :: rest => firstNodes ch ++ firstNodesDir rest
end

/-- The first non-choice/case nodes below the choice and case children in a
table. -/
def choiceCaseNodes : List (GoString × Entry) → List Entry
  | [] => []
  | (_, ch) :: rest =>
    (if isChoiceOrCase ch then firstNodes ch else []) ++ choiceCaseNodes rest

/-- A table has a binding for the key. -/
def hasKey (m : List (GoString × Entry)) (k : GoString) : Prop :=
  ∃ v, (k, v) ∈ m

/-- A container "parent" holding choice1/case1/choice2/case2/leaf1 and a direct
leaf "x". -/
def nestedChoiceSchema : Entry :=
  dirEntry "parent" .DirectoryEntry
    [dirEntry "choice1" .ChoiceEntry
      [dirEntry "case1" .CaseEntry
        [dirEntry "choice2" .ChoiceEntry
          [dirEntry "case2" .CaseEntry [leafEntry "leaf1"]]]],
     leafEntry "x"]

/-- A container "parent" whose choice child holds a leaf named "m:y". -/
def prefixedLeafSchema : Entry :=
  dirEntry "parent" .DirectoryEntry
    [dirEntry "choice1" .ChoiceEntry [leafEntry "m:y"]]

/-- A container "system" with a direct leaf "dns". -/
def systemSchema : Entry :=
  dirEntry "system" .DirectoryEntry [leafEntry "dns"]

/-- A list "s" (a directory with list attributes) with a direct leaf "a". -/
def listSchema : Entry :=
  .mk "s".toList .DirectoryEntry none [("a".toList, leafEntry "a")] none
    (some { MinElements := none, MaxElements := none }) []

/-- The loop of absoluteSchemaDataPath, `for s := schema.Parent; s != nil;
s = s.Parent`, started below the given node: it prepends the name of every
proper ancestor that is neither a choice, a case nor the fake root. -/
def absoluteSchemaDataPathLoop : Entry → List GoString → List GoString
  | .mk _ _ none _ _ _ _, out => out
  | .mk _ _ (some s) _ _ _ _, out =>
    absoluteSchemaDataPathLoop s
      (if !isChoiceOrCase s && !isFakeRoot s then s.Name :: out else out)

/-- absoluteSchemaDataPath returns the absolute path of the schema, excluding
any choice or case entries. -/
def absoluteSchemaDataPath (schema : Entry) : GoString :=
  '/' :: strings.Join (absoluteSchemaDataPathLoop schema [schema.Name]) '/'

/-- The proper ancestors of a node along its parent chain, root first. -/
def ancestorsRootFirst : Entry → List Entry
  | .mk _ _ none _ _ _ _ => []
  | .mk _ _ (some s) _ _ _ _ => ancestorsRootFirst s ++ [s]

/-- A node contributes a path segment in the words of the specification: it is
neither a choice, a case nor the synthetic root. -/
def isDataNode (e : Entry) : Bool :=
  !isChoiceOrCase e && !isFakeRoot e

/-- A choice node "c" whose parent is the container "a". -/
def choiceUnderContainer : Entry :=
  .mk "c".toList .ChoiceEntry (some (dirEntry "a" .DirectoryEntry [])) [] none none []

/-- A leaf "x" below case "k", choice "c", container "a" and the fake root
"device". -/
def leafUnderChoice : Entry :=
  .mk "x".toList .LeafEntry
    (some (.mk "k".toList .CaseEntry
      (some (.mk "c".toList .ChoiceEntry
        (some (.mk "a".toList .DirectoryEntry
          (some (.mk "device".toList .DirectoryEntry none [] none none
            ["isFakeRoot".toList]))
          [] none none []))
        [] none none []))
      [] none none []))
    [] none none []

/-- How a call ends: it returns a value, it panics on a nil dereference, or the
fuel given to its loop runs out while the loop is still running. -/
inductive Exec (α : Type) where
  | done (a : α)
  | panic
  | outOfFuel
  deriving DecidableEq, Repr

/-- The loop of resolveLeafRef, `for ykind := s.Type.Kind; ykind == yang.Yleafref`.
One unit of fuel is spent per target lookup.  The lookup findLeafRefSchema is
not among the sources and is a parameter. -/
def resolveLeafRefLoop (findLeafRefSchema : Entry → GoString → Except Error Entry)
    (schema : Entry) : Nat → Entry → Exec (Option Entry × Option Error)
  | fuel, s =>
    match s.Typ with
    | none => .panic
    | some t =>
      if t.Kind = .Yleafref then
        match fuel with
        | 0 => .outOfFuel
        | fuel + 1 =>
          match findLeafRefSchema s t.Path with
          | .error err => .done (some schema, some err)
          | .ok ns => resolveLeafRefLoop findLeafRefSchema schema fuel ns
      else .done (some s, none)

/-- resolveLeafRef returns a ptr to the schema pointed to by the provided
leaf-ref schema. It returns schema itself if schema is not a leaf-ref. -/
def resolveLeafRef (findLeafRefSchema : Entry → GoString → Except Error Entry)
    (fuel : Nat) (schema : Option Entry) : Exec (Option Entry × Option Error) :=
  match schema with
  | none => .done (none, none)
  | some schema =>
    match schema.Typ with
    | none => .done (some schema, none)
    | some _ => resolveLeafRefLoop findLeafRefSchema schema fuel schema

/-- A leaf with the given type. -/
def typedLeaf (name : String) (kind : TypeKind) (path : String) : Entry :=
  .mk name.toList .LeafEntry none [] (some { Kind := kind, Length := [], Path := path.toList })
    none []

/-- A lookup for a small schema: "/a" and "/b" are leaf-refs to each other,
"/r1" is a leaf-ref to "/r2", "/r2" a leaf-ref to the string leaf "/s", and any
other path is not found. -/
def sampleLookup (_ : Entry) (path : GoString) : Except Error Entry :=
  if path = "/a".toList then .ok (typedLeaf "a" .Yleafref "/b")
  else if path = "/b".toList then .ok (typedLeaf "b" .Yleafref "/a")
  else if path = "/r2".toList then .ok (typedLeaf "r2" .Yleafref "/s")
  else if path = "/s".toList then .ok (typedLeaf "s" .Ystring "")
  else .error (.other path)

/-- The check of one length interval in validateLengthSchema. -/
def validateLengthRange (name : GoString) (r : YRange) : Option Error :=
  if r.Min.Kind ≠ .MinNumber ∧ r.Min.Kind ≠ .Positive then
    some (.lengthMinKind r.Min name)
  else if r.Max.Kind ≠ .MaxNumber ∧ r.Max.Kind ≠ .Positive then
    some (.lengthMaxKind r.Min name)
  else if r.Max.Less r.Min then
    some (.lengthBadRange r.Min r.Max name)
  else none

/-- The loop `for _, r := range schema.Type.Length` of validateLengthSchema. -/
def validateLengthSchemaLoop (name : GoString) : List YRange → Option Error
  | [] => none
  | r :: rest =>
    match validateLengthRange name r with
    | some err => some err
    | none => validateLengthSchemaLoop name rest

/-- validateLengthSchema validates whether the given schema has a valid length
specification; a schema without a type makes `schema.Type.Length` panic. -/
def validateLengthSchema (schema : Entry) : Exec (Option Error) :=
  match schema.Typ with
  | none => .panic
  | some t =>
    if t.Length.length = 0 then .done none
    else .done (validateLengthSchemaLoop schema.Name t.Length)

/-- A length interval is well formed, in the words of the specification: the
lower bound is the minimum sentinel or a non-negative number, the upper bound
is the maximum sentinel or a non-negative number, and the upper bound is not
less than the lower bound (two numbers compare by value; a sentinel bound is
never on the wrong side). -/
def LengthIntervalOk (r : YRange) : Prop :=
  (r.Min.Kind = .MinNumber ∨ r.Min.Kind = .Positive) ∧
  (r.Max.Kind = .MaxNumber ∨ r.Max.Kind = .Positive) ∧
  ¬ (r.Min.Kind = .Positive ∧ r.Max.Kind = .Positive ∧ r.Max.Value < r.Min.Value)

instance (r : YRange) : Decidable (LengthIntervalOk r) := by
  unfold LengthIntervalOk
  infer_instance

/-- A string type with the given length intervals. -/
def lengthType (ranges : YangRange) : YangType :=
  { Kind := .Ystring, Length := ranges, Path := [] }

/-- A string leaf "name" with the given length intervals. -/
def lengthLeaf (ranges : YangRange) : Entry :=
  .mk "name".toList .LeafEntry none [] (some (lengthType ranges)) none []

/-- The intervals [min, 10] and [20, max]. -/
def goodLengths : YangRange :=
  [⟨⟨.MinNumber, 0⟩, ⟨.Positive, 10⟩⟩, ⟨⟨.Positive, 20⟩, ⟨.MaxNumber, 0⟩⟩]

/-- The intervals [min, 10], [5, 3] and [7, 1]. -/
def badLengths : YangRange :=
  [⟨⟨.MinNumber, 0⟩, ⟨.Positive, 10⟩⟩, ⟨⟨.Positive, 5⟩, ⟨.Positive, 3⟩⟩,
    ⟨⟨.Positive, 7⟩, ⟨.Positive, 1⟩⟩]

/-- The sample chain r1, r2, s, s, ...: the leaf-ref "/r1" and what its targets
resolve to under sampleLookup. -/
def sampleChain : Nat → Entry
  | 0 => typedLeaf "r1" .Yleafref "/r2"
  | 1 => typedLeaf "r2" .Yleafref "/s"
  | _ => typedLeaf "s" .Ystring ""

/-- The chain of leaf-ref targets from a node comes to an end: the node is not
a leaf-ref (it has another kind, or no type at all), or its target lookup
fails, or the lookup succeeds and the chain from the target comes to an end. -/
inductive LeafRefChainEnds (findLeafRefSchema : Entry → GoString → Except Error Entry) :
    Entry → Prop where
  | stop (s : Entry) : (∀ t, s.Typ = some t → t.Kind ≠ .Yleafref) →
      LeafRefChainEnds findLeafRefSchema s
  | fail (s : Entry) (t : YangType) (err : Error) : s.Typ = some t → t.Kind = .Yleafref →
      findLeafRefSchema s t.Path = .error err → LeafRefChainEnds findLeafRefSchema s
  | step (s ns : Entry) (t : YangType) : s.Typ = some t → t.Kind = .Yleafref →
      findLeafRefSchema s t.Path = .ok ns → LeafRefChainEnds findLeafRefSchema ns →
      LeafRefChainEnds findLeafRefSchema s

/-- derefIfStructPtr returns the dereferenced value if it is a struct ptr, or
the value itself if it is not. -/
def derefIfStructPtr : Value → Value
  | .ptr (.struct fields) => .struct fields
  | v => v

/-- SchemaNodeInfo describes a node in a YANG schema tree being traversed; the
fields of the embedded util.NodeInfo come first. -/
structure SchemaNodeInfo where
  ParentStruct : Value
  FieldType : StructField
  FieldValue : Value
  FieldKeys : List Value
  FieldKey : Value
  Path : List GoString
  Schema : Entry

/-- SchemaNodeIteratorFunc is an iteration function for traversing YANG schema
trees.  The state stands for what the function reaches through `in` and `out`;
it returns the errors met while processing the field and the new state. -/
abbrev SchemaNodeIteratorFunc (σ : Type) := SchemaNodeInfo → σ → List Error × σ

mutual
/-- forEachSchemaNodeInternal recursively iterates through the nodes in
ni.schema and executes iterFunction on each field.  The value walked is
ni.FieldValue, passed on its own, one equation per arm of the `switch`; the
result is the returned error slice and the state left by the calls of
iterFunction.  The function ends in `return nil`. -/
def forEachSchemaNodeInternal {σ : Type} (iterFunction : SchemaNodeIteratorFunc σ) :
    Value → SchemaNodeInfo → σ → List Error × σ
  | .struct fields, ni0, st =>
    if util.IsNilOrInvalidValue (.struct fields) then ([], st)
    else
      let ni : SchemaNodeInfo := { ni0 with FieldValue := .struct fields }
      let r := iterFunction ni st
      let errs := util.AppendErrs [] r.1
      ([], (forEachStructField iterFunction fields ni errs r.2).2)
  | .ptr (.struct fields), ni0, st =>
    if util.IsNilOrInvalidValue (.ptr (.struct fields)) then ([], st)
    else
      let ni : SchemaNodeInfo := { ni0 with FieldValue := .ptr (.struct fields) }
      let r := iterFunction ni st
      let errs := util.AppendErrs [] r.1
      ([], (forEachStructField iterFunction fields ni errs r.2).2)
  | .slice elems, ni0, st =>
    if util.IsNilOrInvalidValue (.slice elems) then ([], st)
    else
      let ni : SchemaNodeInfo := { ni0 with FieldValue := .slice elems }
      let r := iterFunction ni st
      let errs := util.AppendErrs [] r.1
      ([], (forEachSliceElem iterFunction elems ni errs r.2).2)
  | .map entries, ni0, st =>
    if util.IsNilOrInvalidValue (.map entries) then ([], st)
    else
      let ni : SchemaNodeInfo := { ni0 with FieldValue := .map entries }
      let r := iterFunction ni st
      let errs := util.AppendErrs [] r.1
      ([], (forEachMapEntry iterFunction entries (entries.map (fun kv => kv.1)) ni
        errs r.2).2)
  | v, ni0, st =>
    if util.IsNilOrInvalidValue v then ([], st)
    else
      let ni : SchemaNodeInfo := { ni0 with FieldValue := v }
      let r := iterFunction ni st
      ([], r.2)
/-- The loop over the fields of a struct, `for i := 0; i < structElems.NumField()`. -/
def forEachStructField {σ : Type} (iterFunction : SchemaNodeIteratorFunc σ) :
    List (StructField × Value) → SchemaNodeInfo → List Error → σ → List Error × σ
  | [], _, errs, st => (errs, st)
  | (f, fv) :: rest, ni, errs, st =>
    match childSchema ni.Schema f with
    | (_, some err) =>
      forEachStructField iterFunction rest ni
        (util.AppendErr errs (.inField f.Name err)) st
    | (none, none) => forEachStructField iterFunction rest ni errs st
    | (some cschema, none) =>
      let nn : SchemaNodeInfo :=
        { ni with Schema := cschema, Path := ni.Path ++ [cschema.Name],
                  ParentStruct := ni.FieldValue, FieldType := f, FieldValue := fv }
      let r := forEachSchemaNodeInternal iterFunction fv nn st
      forEachStructField iterFunction rest ni (util.AppendErrs errs r.1) r.2
/-- The loop over the elements of a slice, `for i := 0; i < ni.FieldValue.Len()`. -/
def forEachSliceElem {σ : Type} (iterFunction : SchemaNodeIteratorFunc σ) :
    List Value → SchemaNodeInfo → List Error → σ → List Error × σ
  | [], _, errs, st => (errs, st)
  | elem :: rest, ni, errs, st =>
    let nn : SchemaNodeInfo := { ni with FieldValue := elem }
    let r := forEachSchemaNodeInternal iterFunction elem nn st
    forEachSliceElem iterFunction rest ni (util.AppendErrs errs r.1) r.2
/-- The loop over the keys of a map, `for _, key := range ni.FieldValue.MapKeys()`. -/
def forEachMapEntry {σ : Type} (iterFunction : SchemaNodeIteratorFunc σ) :
    List (Value × Value) → List Value → SchemaNodeInfo → List Error → σ → List Error × σ
  | [], _, _, errs, st => (errs, st)
  | (key, val) :: rest, keys, ni, errs, st =>
    let nn : SchemaNodeInfo :=
      { ni with FieldValue := val, FieldKey := key, FieldKeys := keys }
    let r := forEachSchemaNodeInternal iterFunction val nn st
    forEachMapEntry iterFunction rest keys ni (util.AppendErrs errs r.1) r.2
end

/-- ForEachSchemaNode recursively iterates through the nodes in schema and
executes iterFunction on each field. It returns a slice of errors encountered
while processing the struct. -/
def ForEachSchemaNode {σ : Type} (schema : Entry) (value : Value)
    (iterFunction : SchemaNodeIteratorFunc σ) (st : σ) : List Error × σ :=
  if util.IsValueNil value then ([], st)
  else
    forEachSchemaNodeInternal iterFunction value
      { ParentStruct := .invalid, FieldType := { Name := [], Tag := [] },
        FieldValue := value, FieldKeys := [], FieldKey := .invalid, Path := [],
        Schema := schema } st

/-- A visitor that fails at every node: it returns one error and counts the
visit. -/
def failingVisitor : SchemaNodeIteratorFunc Nat :=
  fun _ n => ([.other "visitor failed".toList], n + 1)

/-- A visitor that returns no error and counts the visit. -/
def countingVisitor : SchemaNodeIteratorFunc Nat :=
  fun _ n => ([], n + 1)

/-- A record with an untagged field A and a field B with path tag "dns". -/
def sampleRecord : Value :=
  .struct [({ Name := "A".toList, Tag := [] }, .int 1), (pathField "B" "dns", .int 2)]

end ytypes

namespace yang

/-- Modelled from the spec: `yang.FromUint` of the schema library is not among
the sources; the non-negative number of the given magnitude. -/
def FromUint (val : Nat) : Number :=
  { Kind := .Positive, Value := val }

/-- A number is an integer, not a sentinel. -/
def Number.IsFinite (n : Number) : Prop :=
  n.Kind = .Positive ∨ n.Kind = .Negative

/-- The integer a finite number stands for: the magnitude, negated for the
negative kind. -/
def Number.toInt (n : Number) : Int :=
  if n.Kind = .Negative then -(n.Value : Int) else (n.Value : Int)

/-- The number order of the specification, both ends inclusive: the minimum
sentinel is below and the maximum sentinel above everything, and two integers
compare by value. -/
def NumberLE (a b : Number) : Prop :=
  a.Kind = .MinNumber ∨ b.Kind = .MaxNumber ∨ (a.IsFinite ∧ b.IsFinite ∧ a.toInt ≤ b.toInt)

/-- A number is in normal form: the negative kind carries a non-zero
magnitude (zero is of the positive kind). -/
def Number.Normal (n : Number) : Prop :=
  n.Kind = .Negative → n.Value ≠ 0

instance (a b : Number) : Decidable (NumberLE a b) := by
  unfold NumberLE Number.IsFinite
  infer_instance

instance (n : Number) : Decidable n.Normal := by
  unfold Number.Normal
  infer_instance

end yang

namespace ytypes

open yang reflect

/-- isInRange reports whether the given value falls within the range allowed by
yr. -/
def isInRange (yr : YRange) (val : Number) : Bool :=
  (val.Less yr.Max || val.Equal yr.Max) && (yr.Min.Less val || yr.Min.Equal val)

/-- The loop `for _, yr := range yrs` of isInRanges. -/
def isInRangesLoop : List YRange → Number → Bool
  | [], _ => false
  | yr :: rest, val => if isInRange yr val then true else isInRangesLoop rest val

/-- isInRanges reports whether the given value falls within the ranges allowed
by yrs. Always returns true is yrs is empty. -/
def isInRanges (yrs : YangRange) (val : Number) : Bool :=
  if yrs.length = 0 then true else isInRangesLoop yrs val

/-- lengthOk reports whether the given value of length falls within the ranges
allowed by yrs. Always returns true is yrs is empty. -/
def lengthOk (yrs : YangRange) (val : Nat) : Bool :=
  isInRanges yrs (FromUint val)

/-- The interval [10, 20]. -/
def tenToTwenty : YRange :=
  { Min := FromUint 10, Max := FromUint 20 }

/-- What the `if value == nil` and the `switch` on the kind of validateListAttr
give: size 0 for no value, the length for a slice or a map (nil ones
included), and nothing for any other kind. -/
def listSize : Value → Option Nat
  | .invalid => some 0
  | .nilSlice => some 0
  | .slice elems => some elems.length
  | .nilMap => some 0
  | .map entries => some entries.length
  | _ => none

/-- The check of MinElements in validateListAttr; ParseNumber and Number.Int
belong to the schema library and are parameters. -/
def validateMinElements (ParseNumber : GoString → Except Error Number)
    (NumberInt : Number → Except Error Int) (name : GoString) (size : Nat)
    (errors : List Error) : Option GoString → List Error
  | none => errors
  | some v =>
    match ParseNumber v with
    | .error err => util.AppendErr errors err
    | .ok minN =>
      match NumberInt minN with
      | .error err => util.AppendErr errors err
      | .ok min =>
        if min < 0 then util.AppendErr errors (.negativeMin name)
        else if (size : Int) < min then
          util.AppendErr errors (.fewerThanMin name size min)
        else errors

/-- The check of MaxElements in validateListAttr. -/
def validateMaxElements (ParseNumber : GoString → Except Error Number)
    (NumberInt : Number → Except Error Int) (name : GoString) (size : Nat)
    (errors : List Error) : Option GoString → List Error
  | none => errors
  | some v =>
    match ParseNumber v with
    | .error err => util.AppendErr errors err
    | .ok maxN =>
      match NumberInt maxN with
      | .error err => util.AppendErr errors err
      | .ok max =>
        if max < 0 then util.AppendErr errors (.negativeMax name)
        else if (size : Int) > max then
          util.AppendErr errors (.moreThanMax name size max)
        else errors

/-- validateListAttr validates any attributes of value present in the schema,
such as min/max elements. The schema and value can be a container, list, or
leaf-list type. -/
def validateListAttr (ParseNumber : GoString → Except Error Number)
    (NumberInt : Number → Except Error Int) (schema : Option Entry) (value : Value) :
    List Error :=
  match schema with
  | none => util.AppendErr [] .schemaNil
  | some schema =>
    match schema.ListAttr with
    | none => util.AppendErr [] (.listAttrNil schema.Name)
    | some la =>
      match listSize value with
      | none => util.AppendErr [] (.notMapOrSlice schema.Name)
      | some size =>
        validateMaxElements ParseNumber NumberInt schema.Name size
          (validateMinElements ParseNumber NumberInt schema.Name size [] la.MinElements)
          la.MaxElements

/-- A sample number parser: "-1", "0", "1", "2", "5" and "max" are understood,
anything else is an error. -/
def sampleParseNumber (s : GoString) : Except Error Number :=
  if s = "-1".toList then .ok { Kind := .Negative, Value := 1 }
  else if s = "0".toList then .ok (FromUint 0)
  else if s = "1".toList then .ok (FromUint 1)
  else if s = "2".toList then .ok (FromUint 2)
  else if s = "5".toList then .ok (FromUint 5)
  else if s = "max".toList then .ok { Kind := .MaxNumber, Value := 0 }
  else .error (.other s)

/-- A sample `Number.Int`: the integer of a finite number, the largest 64-bit
integer for the maximum sentinel and the smallest for the minimum one. -/
def sampleNumberInt (n : Number) : Except Error Int :=
  match n.Kind with
  | .Positive => .ok n.Value
  | .Negative => .ok (-(n.Value : Int))
  | .MaxNumber => .ok 9223372036854775807
  | .MinNumber => .ok (-9223372036854775808)

/-- A list schema "l" with the given texts of min-elements and max-elements. -/
def boundedList (min max : Option String) : Entry :=
  .mk "l".toList .DirectoryEntry none [] none
    (some { MinElements := min.map String.toList, MaxElements := max.map String.toList }) []

end ytypes

namespace reflect

/-- The Go types of the fields of a generated record: booleans, strings, the
integer and floating kinds with their width, pointers, slices, maps, and
structs with their declared fields (each a `StructField` with its type). -/
inductive GoType where
  | Bool
  | String
  | Int (bits : Nat)
  | Uint (bits : Nat)
  | Float (bits : Nat)
  | Ptr (elem : GoType)
  | Slice (elem : GoType)
  | Map (key elem : GoType)
  | Struct (fields : List (StructField × GoType))

mutual
/-- The zero value of a type, what `reflect.New` points to. -/
def Zero : GoType → Value
  | .Bool => .bool false
  | .String => .string []
  | .Int _ => .int 0
  | .Uint _ => .int 0
  | .Float _ => .int 0
  | .Ptr _ => .nilPtr
  | .Slice _ => .nilSlice
  | .Map _ _ => .nilMap
  | .Struct fields => .struct (ZeroFields fields)
/-- The fields of the zero value of a struct type. -/
def ZeroFields : List (StructField × GoType) → List (StructField × Value)
  | [] => []
  | (f, t) :: rest => (f, Zero t) :: ZeroFields rest
end

end reflect

/-- What `json.Unmarshal` delivers into an `interface{}`: nil for null, a
boolean, a number (a float64; the model holds integer values, each exactly), a
string, a slice for an array, and a `map[string]interface{}` for an object. -/
inductive JSONValue where
  | null
  | bool (b : Bool)
  | number (n : Int)
  | string (s : GoString)
  | array (elems : List JSONValue)
  | object (entries : List (GoString × JSONValue))

/-- A value is a nested mapping. -/
def JSONValue.isObject : JSONValue → Bool
  | .object _ => true
  | _ => false

/-- The Go type `map[string]interface{}` of a decoded JSON object. -/
abbrev JSONObject := List (GoString × JSONValue)

namespace ygot

open reflect

/-- The JSON formats UnmarshalJSON is called with. -/
inductive JSONFormat where
  | Internal
  | RFC7951
  deriving DecidableEq, Repr

/-- Go `d[p]` on a decoded object: the value bound to the key, nil when the key
is missing. -/
def mapIndex : JSONObject → GoString → JSONValue
  | [], _ => .null
  | (k, v) :: rest, p => if k = p then v else mapIndex rest p

/-- How the inner loop of extractInterfaceByPath ends: the function has
returned, or the loop is done and the outer loop goes on. -/
inductive InnerLoop where
  | returned (iface : JSONValue)
  | next (d : JSONObject) (iface : JSONValue)

/-- The inner loop `for _, p := range strings.Split(el, "/")` of
extractInterfaceByPath. -/
def extractInnerLoop : List GoString → JSONObject → JSONValue → InnerLoop
  | [], d, iface => .next d iface
  | p :: ps, d, _ =>
    match mapIndex d p with
    | .object d2 => extractInnerLoop ps d2 (.object d2)
    | iface => .returned iface

/-- The outer loop `for _, el := range strings.Split(path, "|")` of
extractInterfaceByPath. -/
def extractOuterLoop : List GoString → JSONObject → JSONValue → JSONValue
  | [], _, iface => iface
  | el :: els, d, iface =>
    match extractInnerLoop (strings.Split el '/') d iface with
    | .returned r => r
    | .next d2 iface2 => extractOuterLoop els d2 iface2

/-- The function extractInterfaceByPath of unmarshal.go. -/
def extractInterfaceByPath (data : JSONObject) (path : GoString) : JSONValue :=
  extractOuterLoop (strings.Split path '|') data .null

/-- Modelled from the spec: structTagToLibPaths is not among the sources; every
field with a path tag goes on to the extraction, so the call fails only for a
field without a path tag, and otherwise gives the non-empty segments of each
alternative of the tag. -/
def structTagToLibPaths (f : StructField) : Except ytypes.Error (List (List GoString)) :=
  match f.TagLookup "path".toList with
  | none => .error (.noPath f.Name)
  | some pathAnnotation =>
    .ok ((strings.Split pathAnnotation '|').map
      (fun p => (strings.Split p '/').filter (fun pp => !pp.isEmpty)))

/-- The fields of a record with their current values. -/
abbrev Fields := List (StructField × Value)

/-- What binding a document onto a freshly allocated record of a fixed struct
type gives, as a function of the module name and the document: the call
`constructGoStruct(x.Interface().(GoStruct), pmod, j)` on a new record. -/
abbrev Binder := GoString → JSONObject → ytypes.Exec (Fields × Option ytypes.Error)

/-- Go `cVal.Convert(vType)` on a document number: the number in the integer or
floating kind (a value out of the range of the kind is implementation-dependent
in Go and wraps here), nothing when the type is not numeric and Convert
panics. -/
def convertNumber : GoType → Int → Option Int
  | .Int bits, n => some (Int.bmod n (2 ^ bits))
  | .Uint bits, n => some (n % 2 ^ bits)
  | .Float _, n => some n
  | _, _ => none

/-- Go `field.SetMapIndex(k, mapVal)` for a string key on the entries of a map. -/
def setMapIndex : List (Value × Value) → GoString → Value → List (Value × Value)
  | [], k, v => [(.string k, v)]
  | (.string k2, v2) :: rest, k, v =>
    if k2 = k then (.string k, v) :: rest else (.string k2, v2) :: setMapIndex rest k v
  | kv :: rest, k, v => kv :: setMapIndex rest k v

/-- The value a map holds under a string key. -/
def mapValueIndex : List (Value × Value) → GoString → Option Value
  | [], _ => none
  | (.string k2, v2) :: rest, k => if k2 = k then some v2 else mapValueIndex rest k
  | _ :: rest, k => mapValueIndex rest k

/-- Whether `field.SetMapIndex(k, mapVal)` is allowed for a string key k and a
pointer mapVal: the key type is string and the element type is a pointer. -/
def mapSettable : GoType → GoType → Bool
  | .String, .Ptr _ => true
  | _, _ => false

/-- The loop `for _, k := range cVal.MapKeys()` of constructGoStructValue on
the entries of the new map.  The binder is that of the record type of the
elements; without one the assertion `mapVal.Interface().(GoStruct)` panics, as
does `mVal.Interface().(map[string]interface{})` on a value that is not an
object. -/
def constructMapEntries (recur : Option Binder) (settable : Bool) (pmod : GoString)
    (m : JSONObject) : List GoString → List (Value × Value) →
    ytypes.Exec (Value × Option ytypes.Error)
  | [], acc => .done (.map acc, none)
  | k :: ks, acc =>
    match recur, mapIndex m k with
    | some bind, .object o =>
      match bind pmod o with
      | .done (vals, err) =>
        if settable then
          match err with
          | some e => .done (.map (setMapIndex acc k (.ptr (.struct vals))), some e)
          | none =>
            constructMapEntries recur settable pmod m ks
              (setMapIndex acc k (.ptr (.struct vals)))
        else .panic
      | .panic => .panic
      | .outOfFuel => .outOfFuel
    | _, _ => .panic

/-- The function constructGoStructValue of unmarshal.go, on a field of type t
with declaration fType and value field; it gives the new value of the field
and the error returned.  The recursive call of constructGoStruct on a newly
allocated record is the binder `recur`; without one the assertion
`field.Interface().(GoStruct)` panics.  The debugging output is left out. -/
def constructGoStructValue (recur : Option Binder) (t : GoType) (fType : StructField)
    (field : Value) (pmod : GoString) (j : JSONObject) :
    ytypes.Exec (Value × Option ytypes.Error) :=
  match fType.TagLookup "path".toList with
  | none => .done (field, none)
  | some path =>
    match structTagToLibPaths fType with
    | .error err => .done (field, some err)
    | .ok _ =>
      match extractInterfaceByPath j path with
      | .null => .done (field, none)
      | .object m =>
        match t with
        | .Ptr _ =>
          match recur with
          | none => .panic
          | some bind =>
            match bind pmod m with
            | .done (vals, err) => .done (.ptr (.struct vals), err)
            | .panic => .panic
            | .outOfFuel => .outOfFuel
        | .Map key elem =>
          constructMapEntries recur (mapSettable key elem) pmod m (m.map (fun kv => kv.1)) []
        | _ => .done (field, none)
      | .array _ => .done (field, none)
      | .string s =>
        match t with
        | .Ptr elem =>
          match elem with
          | .String => .done (.ptr (.string s), none)
          | _ => .panic
        | .String => .done (.string s, none)
        | _ => .done (field, some (.unmarshalType s path fType.Name))
      | .number n =>
        match t with
        | .Ptr elem =>
          match convertNumber elem n with
          | some v => .done (.ptr (.int v), none)
          | none => .panic
        | _ => .panic
      | .bool _ => .done (field, none)

mutual
/-- The function constructGoStruct of unmarshal.go, on a record with declared
fields and current values; it gives the new values and the error returned.
The value constructGoStructValue returns is dropped, and `errs` is never
added to. -/
def constructGoStruct : List (StructField × GoType) → Fields → GoString → JSONObject →
    ytypes.Exec (Fields × Option ytypes.Error)
  | [], vals, _, _ => .done (vals, none)
  | _ :: _, [], _, _ => .done ([], none)
  | (fType, t) :: rest, (name, field) :: vals, parentMod, j =>
    let pmod :=
      match fType.TagLookup "module".toList with
      | some chMod => chMod
      | none => parentMod
    match constructGoStructValue (newGoStruct t) t fType field pmod j with
    | .done (field2, _) =>
      match constructGoStruct rest vals parentMod j with
      | .done (vals2, err) => .done ((name, field2) :: vals2, err)
      | .panic => .panic
      | .outOfFuel => .outOfFuel
    | .panic => .panic
    | .outOfFuel => .outOfFuel
/-- The binder of the record type a field of the given type allocates: the
struct a pointer field points to, the struct (or pointed-to struct) of the
elements of a map field; none when that type is not a struct. -/
def newGoStruct : GoType → Option Binder
  | .Ptr (.Struct fs) => some (fun pmod j => constructGoStruct fs (ZeroFields fs) pmod j)
  | .Map _ (.Ptr (.Struct fs)) =>
    some (fun pmod j => constructGoStruct fs (ZeroFields fs) pmod j)
  | .Map _ (.Struct fs) => some (fun pmod j => constructGoStruct fs (ZeroFields fs) pmod j)
  | _ => none
end

/-- The function UnmarshalJSON of unmarshal.go on a record given by its declared
fields and current values; `json.Unmarshal` is a parameter. -/
def UnmarshalJSON (jsonUnmarshal : GoString → Except ytypes.Error JSONObject)
    (b : GoString) (decl : List (StructField × GoType)) (s : Fields) (_ : JSONFormat) :
    ytypes.Exec (Fields × Option ytypes.Error) :=
  match jsonUnmarshal b with
  | .error err => .done (s, some err)
  | .ok j => constructGoStruct decl s [] j

/-- The segments of a path tag as extractInterfaceByPath walks them: the
'/'-separated parts of each '|'-separated element, in order. -/
def pathSegments : List GoString → List GoString
  | [] => []
  | el :: els => strings.Split el '/' ++ pathSegments els

/-- Following segments through nested mappings only: the mapping reached when
every segment looked up is itself a mapping. -/
def descend : JSONObject → List GoString → Option JSONObject
  | d, [] => some d
  | d, seg :: rest =>
    match mapIndex d seg with
    | .object d2 => descend d2 rest
    | _ => none

/-- The walk of a list of segments: the first looked-up value that is not a
mapping, or the mapping reached by the last segment. -/
def walkSegments : List GoString → JSONObject → JSONValue → JSONValue
  | [], _, iface => iface
  | p :: ps, d, _ =>
    match mapIndex d p with
    | .object d2 => walkSegments ps d2 (.object d2)
    | iface => iface

/-- The test record type of the nested fields FieldOne and FieldTwo. -/
def testOneChildDecl : List (StructField × GoType) :=
  [(ytypes.pathField "FieldOne" "field-one", .Ptr .String),
   (ytypes.pathField "FieldTwo" "field-two", .Ptr (.Uint 32))]

/-- The test record type with the field Child. -/
def testOneDecl : List (StructField × GoType) :=
  [(ytypes.pathField "Child" "child", .Ptr (.Struct testOneChildDecl))]

/-- The document {"child": {"field-one": s, "field-two": n}}. -/
def testOneDoc (s : GoString) (n : Int) : JSONObject :=
  [("child".toList, .object
    [("field-one".toList, .string s), ("field-two".toList, .number n)])]

/-- The record with Child present, FieldOne = s and FieldTwo = n. -/
def testOneBound (s : GoString) (n : Int) : Fields :=
  [(ytypes.pathField "Child" "child", .ptr (.struct
    [(ytypes.pathField "FieldOne" "field-one", .ptr (.string s)),
     (ytypes.pathField "FieldTwo" "field-two", .ptr (.int n))]))]

/-- A record type with the plain unsigned field FieldTwo. -/
def plainNumericDecl : List (StructField × GoType) :=
  [(ytypes.pathField "FieldTwo" "field-two", .Uint 32)]

/-- A record type with the optional unsigned field FieldTwo. -/
def optionalNumericDecl : List (StructField × GoType) :=
  [(ytypes.pathField "FieldTwo" "field-two", .Ptr (.Uint 32))]

/-- A record type whose field Child is a record with the plain unsigned field
FieldTwo. -/
def nestedNumericDecl : List (StructField × GoType) :=
  [(ytypes.pathField "Child" "child", .Ptr (.Struct plainNumericDecl))]

/-- The document {"field-two": "forty two"}. -/
def textDoc : JSONObject :=
  [("field-two".toList, .string "forty two".toList)]

/-- The document {"child": {"field-two": "forty two"}}. -/
def nestedTextDoc : JSONObject :=
  [("child".toList, .object textDoc)]

/-- The test record type of the list elements, with the fields Name and
SecondValue. -/
def aclSetDecl : List (StructField × GoType) :=
  [(ytypes.pathField "Name" "name", .Ptr .String),
   (ytypes.pathField "SecondValue" "second-value", .Ptr .String)]

/-- The field ACLSet, a map from string to list elements. -/
def aclSetField : StructField :=
  ytypes.pathField "ACLSet" "acl-set"

/-- The type of the field ACLSet. -/
def aclSetType : GoType :=
  .Map .String (.Ptr (.Struct aclSetDecl))

/-- The document {"acl-set": {"n42": {"name": "n42", "second-value": "val"}}}. -/
def aclSetDoc : JSONObject :=
  [("acl-set".toList, .object
    [("n42".toList, .object
      [("name".toList, .string "n42".toList),
       ("second-value".toList, .string "val".toList)])])]

end ygot

namespace ygot

open reflect

/-- The type of an ordered-list field of list elements. -/
def aclListType : GoType :=
  .Slice (.Ptr (.Struct aclSetDecl))

/-- The document {"acl-set": [{"name": "n42", "second-value": "val"}]}. -/
def aclListDoc : JSONObject :=
  [("acl-set".toList, .array
    [.object
      [("name".toList, .string "n42".toList),
       ("second-value".toList, .string "val".toList)]])]

/-- The document {"field-two": 42}. -/
def numberDoc : JSONObject :=
  [("field-two".toList, .number 42)]

end ygot

namespace ytypes

open yang reflect

/-- A container "parent" whose child container "a" holds the leaf "b" inside the
choice "c". -/
def leafInChoiceBelowChild : Entry :=
  dirEntry "parent" .DirectoryEntry
    [dirEntry "a" .DirectoryEntry [dirEntry "c" .ChoiceEntry [leafEntry "b"]]]

end ytypes

namespace ytypes

open yang reflect

/-- The `switch` of forEachSchemaNodeInternal, which follows the call of
iterFunction: the state left by the descent below a node that has been
visited. -/
def forEachSchemaNodeSwitch {σ : Type} (iterFunction : SchemaNodeIteratorFunc σ) :
    Value → SchemaNodeInfo → σ → σ
  | .struct fields, ni, st => (forEachStructField iterFunction fields ni [] st).2
  | .ptr (.struct fields), ni, st => (forEachStructField iterFunction fields ni [] st).2
  | .slice elems, ni, st => (forEachSliceElem iterFunction elems ni [] st).2
  | .map entries, ni, st =>
    (forEachMapEntry iterFunction entries (entries.map (fun kv => kv.1)) ni [] st).2
  | _, _, st => st

/-- What a visit shows of its context: the ancestor path, the schema node and
the value. -/
structure Visit where
  Path : List GoString
  Schema : Entry
  FieldValue : Value

/-- The visitor that does what iterFunction does and notes each visit at the
end of a log. -/
def loggingVisitor {σ : Type} (iterFunction : SchemaNodeIteratorFunc σ) :
    SchemaNodeIteratorFunc (σ × List Visit) :=
  fun ni st =>
    ((iterFunction ni st.1).1,
      ((iterFunction ni st.1).2,
        st.2 ++ [{ Path := ni.Path, Schema := ni.Schema, FieldValue := ni.FieldValue }]))

/-- The visitor that returns no error and does nothing. -/
def noopVisitor : SchemaNodeIteratorFunc Unit :=
  fun _ _ => ([], ())

/-- A visitor that returns no error and notes the path, the name of the schema
node, the key and the key set of each context it is called with. -/
def keyVisitor : SchemaNodeIteratorFunc (List (List GoString × GoString × Value × List Value)) :=
  fun ni st => ([], st ++ [(ni.Path, ni.Schema.Name, ni.FieldKey, ni.FieldKeys)])

mutual
/-- The visits of a schema-tree walk in the words of the specification: nothing
for an absent value; otherwise the value itself and then, for a record, the
visits of the fields whose path tag childSchema resolves to a schema node, each
below the resolved node and the path extended by its name, in declared order;
for a list or mapping, the visits of its elements under the same schema node
and path. -/
def specVisits : Value → List GoString → Entry → List Visit
  | .struct fields, path, schema =>
    { Path := path, Schema := schema, FieldValue := .struct fields } ::
      specFieldVisits fields path schema
  | .ptr (.struct fields), path, schema =>
    { Path := path, Schema := schema, FieldValue := .ptr (.struct fields) } ::
      specFieldVisits fields path schema
  | .slice elems, path, schema =>
    { Path := path, Schema := schema, FieldValue := .slice elems } ::
      specElemVisits elems path schema
  | .map entries, path, schema =>
    { Path := path, Schema := schema, FieldValue := .map entries } ::
      specEntryVisits entries path schema
  | v, path, schema =>
    if util.IsValueNil v then [] else [{ Path := path, Schema := schema, FieldValue := v }]
/-- The visits of the fields of a record, in declared order. -/
def specFieldVisits : List (StructField × Value) → List GoString → Entry → List Visit
  | [], _, _ => []
  | (f, fv) :: rest, path, schema =>
    (match childSchema schema f with
      | (some cschema, none) => specVisits fv (path ++ [cschema.Name]) cschema
      | _ => []) ++ specFieldVisits rest path schema
/-- The visits of the elements of a list. -/
def specElemVisits : List Value → List GoString → Entry → List Visit
  | [], _, _ => []
  | elem :: rest, path, schema => specVisits elem path schema ++ specElemVisits rest path schema
/-- The visits of the entries of a mapping. -/
def specEntryVisits : List (Value × Value) → List GoString → Entry → List Visit
  | [], _, _ => []
  | (_, val) :: rest, path, schema =>
    specVisits val path schema ++ specEntryVisits rest path schema
end

/-- A container "device" with the list "acl", whose entries have a leaf "name",
and the leaf-list "tags". -/
def deviceSchema : Entry :=
  dirEntry "device" .DirectoryEntry
    [dirEntry "acl" .DirectoryEntry [leafEntry "name"], leafEntry "tags"]

/-- An entry of the list "acl" with the given name. -/
def aclEntry (name : String) : Value :=
  .ptr (.struct [(pathField "Name" "name", .ptr (.string name.toList))])

/-- A device whose field Acl maps "k1" to an entry and "k2" to nil, and whose
field Tags is the list of "x" and "y". -/
def deviceRecord : Value :=
  .ptr (.struct
    [(pathField "Acl" "acl",
        .map [(.string "k1".toList, aclEntry "k1"), (.string "k2".toList, .nilPtr)]),
     (pathField "Tags" "tags", .slice [.string "x".toList, .string "y".toList])])

/-- A device with an entry in the field Acl, a field without path tag, a field
whose tag names no schema node, an absent field and the field Tags. -/
def patchyRecord : Value :=
  .struct
    [(pathField "Acl" "acl", aclEntry "k1"),
     ({ Name := "Untagged".toList, Tag := [] }, .int 1),
     (pathField "Unknown" "nosuch", .int 2),
     (pathField "Absent" "acl", .nilPtr),
     (pathField "Tags" "tags", .slice [.string "x".toList])]

end ytypes

namespace reflect

mutual
/-- Go `==` on the values a map key can take, compared by structure: scalars by
value, structs field by field. -/
def Value.beq : Value → Value → Bool
  | .invalid, w => match w with
    | .invalid => true
    | _ => false
  | .bool a, w => match w with
    | .bool b => decide (a = b)
    | _ => false
  | .int a, w => match w with
    | .int b => decide (a = b)
    | _ => false
  | .string a, w => match w with
    | .string b => decide (a = b)
    | _ => false
  | .nilPtr, w => match w with
    | .nilPtr => true
    | _ => false
  | .ptr a, w => match w with
    | .ptr b => Value.beq a b
    | _ => false
  | .struct a, w => match w with
    | .struct b => Value.beqFields a b
    | _ => false
  | .nilSlice, w => match w with
    | .nilSlice => true
    | _ => false
  | .slice a, w => match w with
    | .slice b => Value.beqList a b
    | _ => false
  | .nilMap, w => match w with
    | .nilMap => true
    | _ => false
  | .map a, w => match w with
    | .map b => Value.beqEntries a b
    | _ => false
termination_by structural a => a
/-- Equality of two field lists. -/
def Value.beqFields : List (StructField × Value) → List (StructField × Value) → Bool
  | [], w => match w with
    | [] => true
    | _ :: _ => false
  | (f, a) :: rest, w => match w with
    | [] => false
    | (g, b) :: rest2 => decide (f = g) && Value.beq a b && Value.beqFields rest rest2
termination_by structural a => a
/-- Equality of two element lists. -/
def Value.beqList : List Value → List Value → Bool
  | [], w => match w with
    | [] => true
    | _ :: _ => false
  | a :: rest, w => match w with
    | [] => false
    | b :: rest2 => Value.beq a b && Value.beqList rest rest2
termination_by structural a => a
/-- Equality of two entry lists. -/
def Value.beqEntries : List (Value × Value) → List (Value × Value) → Bool
  | [], w => match w with
    | [] => true
    | _ :: _ => false
  | (k, a) :: rest, w => match w with
    | [] => false
    | (k2, b) :: rest2 => Value.beq k k2 && Value.beq a b && Value.beqEntries rest rest2
termination_by structural a => a
end

/-- Go `m[key]` on the entries of a map: the value under the key, if any. -/
def MapIndex : List (Value × Value) → Value → Option Value
  | [], _ => none
  | (k, v) :: rest, key => if Value.beq k key then some v else MapIndex rest key

/-- Go `m[key] = value` on the entries of a map: the value under the key is
replaced, or the entry is added. -/
def SetMapIndex : List (Value × Value) → Value → Value → List (Value × Value)
  | [], key, value => [(key, value)]
  | (k, v) :: rest, key, value =>
    if Value.beq k key then (k, value) :: rest else (k, v) :: SetMapIndex rest key value

end reflect

namespace util

open reflect

/-- Modelled from the spec: the errors of the mutation primitives of util are not
among the sources; NilParent for an absent parent, a parent that is not a
reference to a record, NotFound for a field name the parent type does not have,
TypeMismatch for a value or field of the wrong kind. -/
inductive EditError where
  | nilParent (fieldName : GoString)
  | notStructPtr
  | notFound (fieldName : GoString)
  | typeMismatch (fieldName : GoString)
  deriving DecidableEq, Repr

mutual
/-- Modelled from the spec: the kind test of the mutation primitives is not among
the sources; the kind of a value is compatible with a declared kind when a
scalar meets the matching scalar, an optional an optional of a compatible kind,
a record the matching record kind, a list or mapping one of compatible
elements.  An integer is held without its width and meets every numeric kind;
no value at all meets no kind. -/
def kindMatches : GoType → Value → Bool
  | _, .invalid => false
  | t, .bool _ => match t with
    | .Bool => true
    | _ => false
  | t, .int _ => match t with
    | .Int _ => true
    | .Uint _ => true
    | .Float _ => true
    | _ => false
  | t, .string _ => match t with
    | .String => true
    | _ => false
  | t, .nilPtr => match t with
    | .Ptr _ => true
    | _ => false
  | t, .ptr v => match t with
    | .Ptr elem => kindMatches elem v
    | _ => false
  | t, .struct fields => match t with
    | .Struct decl => fieldsMatch decl fields
    | _ => false
  | t, .nilSlice => match t with
    | .Slice _ => true
    | _ => false
  | t, .slice elems => match t with
    | .Slice elem => elemsMatch elem elems
    | _ => false
  | t, .nilMap => match t with
    | .Map _ _ => true
    | _ => false
  | t, .map entries => match t with
    | .Map key elem => entriesMatch key elem entries
    | _ => false
termination_by structural _ v => v
/-- Modelled from the spec: the fields of a record value against the declared
fields, one by one. -/
def fieldsMatch : List (StructField × GoType) → List (StructField × Value) → Bool
  | decl, [] => match decl with
    | [] => true
    | _ :: _ => false
  | decl, (g, v) :: fields => match decl with
    | [] => false
    | (f, t) :: rest => decide (f.Name = g.Name) && kindMatches t v && fieldsMatch rest fields
termination_by structural _ fields => fields
/-- Modelled from the spec: the elements of a list against the declared element
kind. -/
def elemsMatch : GoType → List Value → Bool
  | _, [] => true
  | t, v :: rest => kindMatches t v && elemsMatch t rest
termination_by structural _ elems => elems
/-- Modelled from the spec: the entries of a mapping against the declared key
and element kinds. -/
def entriesMatch : GoType → GoType → List (Value × Value) → Bool
  | _, _, [] => true
  | key, elem, (k, v) :: rest =>
    kindMatches key k && kindMatches elem v && entriesMatch key elem rest
termination_by structural _ _ entries => entries
end

/-- Modelled from the spec: the value that assigning to a place of the declared
kind stores: an absent value (no value) clears an optional place to absent and
fits no other place; any other value is stored as it is when its kind is
compatible. -/
def assignValue (declared : GoType) (value : Value) : Option Value :=
  match value with
  | .invalid =>
    match declared with
    | .Ptr _ => some .nilPtr
    | _ => none
  | v => if kindMatches declared v then some v else none

/-- Go `t.FieldByName(name)` on the declared fields of a struct type. -/
def fieldType : List (StructField × GoType) → GoString → Option GoType
  | [], _ => none
  | (f, t) :: rest, name => if f.Name = name then some t else fieldType rest name

/-- Go `v.FieldByName(name)` on the fields of a struct value. -/
def getField : List (StructField × Value) → GoString → Option Value
  | [], _ => none
  | (f, v) :: rest, name => if f.Name = name then some v else getField rest name

/-- Go `v.FieldByName(name).Set(value)` on the fields of a struct value. -/
def setField : List (StructField × Value) → GoString → Value → List (StructField × Value)
  | [], _, _ => []
  | (f, v) :: rest, name, value =>
    if f.Name = name then (f, value) :: rest else (f, v) :: setField rest name value

/-- Modelled from the spec: what the three field primitives of util share, which
are not among the sources: the parent must be present and be a reference to a
record, the field name must exist on its type; then the one field is replaced by
what the edit gives, and on any error the parent is left as it was. -/
def editField (parentType : GoType) (parentStruct : Value) (fieldName : GoString)
    (edit : GoType → Value → Except EditError Value) : Value × Option EditError :=
  if IsValueNil parentStruct then (parentStruct, some (.nilParent fieldName))
  else
    match parentType, parentStruct with
    | .Ptr (.Struct decl), .ptr (.struct fields) =>
      match fieldType decl fieldName, getField fields fieldName with
      | some ft, some cur =>
        match edit ft cur with
        | .ok value => (.ptr (.struct (setField fields fieldName value)), none)
        | .error err => (parentStruct, some err)
      | _, _ => (parentStruct, some (.notFound fieldName))
    | _, _ => (parentStruct, some .notStructPtr)

/-- Modelled from the spec: util.UpdateField is not among the sources; it
requires the parent be present and be a record, the field name exist on its type
and the kind of the value be compatible with the declared kind of the field, and
then sets the field; an absent value clears an optional field to absent.  The
result is the parent afterwards and the error. -/
def UpdateField (parentType : GoType) (parentStruct : Value) (fieldName : GoString)
    (fieldValue : Value) : Value × Option EditError :=
  editField parentType parentStruct fieldName (fun ft _ =>
    match assignValue ft fieldValue with
    | some value => .ok value
    | none => .error (.typeMismatch fieldName))

/-- The elements of a list value, none for an absent list. -/
def sliceElems : Value → Option (List Value)
  | .nilSlice => some []
  | .slice elems => some elems
  | _ => none

/-- The entries of a mapping value, none for an absent mapping. -/
def mapEntries : Value → Option (List (Value × Value))
  | .nilMap => some []
  | .map entries => some entries
  | _ => none

/-- Modelled from the spec: appending to a list of the declared element kind, an
absent list counting as empty; a value of another kind is a TypeMismatch. -/
def appendValue (elem : GoType) (cur value : Value) (fieldName : GoString) :
    Except EditError Value :=
  match sliceElems cur, assignValue elem value with
  | some elems, some v => .ok (.slice (elems ++ [v]))
  | _, _ => .error (.typeMismatch fieldName)

/-- Modelled from the spec: util.InsertIntoSliceStructField is not among the
sources; it appends to the end of the named ordered-list field, creating an
empty list first if the field is absent, and fails with TypeMismatch if the
field is not of ordered-list kind or the kind of the value is not that of the
elements. -/
def InsertIntoSliceStructField (parentType : GoType) (parentStruct : Value)
    (fieldName : GoString) (fieldValue : Value) : Value × Option EditError :=
  editField parentType parentStruct fieldName (fun ft cur =>
    match ft with
    | .Slice elem => appendValue elem cur fieldValue fieldName
    | _ => .error (.typeMismatch fieldName))

/-- Modelled from the spec: util.InsertIntoSlice is not among the sources; the
same contract applied to a reference to a list instead of a named field. -/
def InsertIntoSlice (parentType : GoType) (parentSlice : Value) (value : Value) :
    Value × Option EditError :=
  match parentType, parentSlice with
  | .Ptr (.Slice elem), .ptr cur =>
    match appendValue elem cur value [] with
    | .ok list => (.ptr list, none)
    | .error err => (parentSlice, some err)
  | _, _ => (parentSlice, some (.typeMismatch []))

/-- Modelled from the spec: util.InsertIntoMapStructField is not among the
sources; it upserts the value at the key in the named keyed-mapping field,
creating an empty mapping first if the field is absent; the last write wins on
a key collision; it fails with TypeMismatch if the field is not of
keyed-mapping kind, and a key or value of another kind than declared is taken
as a TypeMismatch too. -/
def InsertIntoMapStructField (parentType : GoType) (parentStruct : Value)
    (fieldName : GoString) (key fieldValue : Value) : Value × Option EditError :=
  editField parentType parentStruct fieldName (fun ft cur =>
    match ft with
    | .Map keyType elem =>
      match mapEntries cur, kindMatches keyType key, assignValue elem fieldValue with
      | some entries, true, some value => .ok (.map (SetMapIndex entries key value))
      | _, _, _ => .error (.typeMismatch fieldName)
    | _ => .error (.typeMismatch fieldName))

/-- A field without tags. -/
def plainField (name : String) : StructField :=
  { Name := name.toList, Tag := [] }

/-- The type BasicStruct of TestUpdateField. -/
def basicStructDecl : List (StructField × GoType) :=
  [(plainField "IntField", .Int 64), (plainField "StringField", .String),
   (plainField "IntPtrField", .Ptr (.Int 8)), (plainField "StringPtrField", .Ptr .String)]

/-- The fields of `BasicStruct{}` with the field IntPtrField set to the given
value. -/
def basicFields (intPtrField : Value) : List (StructField × Value) :=
  [(plainField "IntField", .int 0), (plainField "StringField", .string []),
   (plainField "IntPtrField", intPtrField), (plainField "StringPtrField", .nilPtr)]

/-- The value `&BasicStruct{}` with the field IntPtrField set to the given value. -/
def basicStruct (intPtrField : Value) : Value :=
  .ptr (.struct (basicFields intPtrField))

/-- The type BasicStruct of the insertion tests, in one: two list fields, two
mapping fields and a field that is neither. -/
def collectionsDecl : List (StructField × GoType) :=
  [(plainField "IntSliceField", .Slice (.Int 64)),
   (plainField "IntPtrSliceField", .Slice (.Ptr (.Int 8))),
   (plainField "StringToIntMapField", .Map .String (.Int 64)),
   (plainField "StructToIntMapField",
     .Map (.Struct [(plainField "IntField", .Int 64)]) (.Int 64)),
   (plainField "NonSliceField", .Int 64)]

/-- The value `&BasicStruct{}` of the insertion tests. -/
def collections : Value :=
  .ptr (.struct (ZeroFields collectionsDecl))

end util

namespace ytypes

open yang reflect

/-- removeRootPrefix removes the root prefix from root schema entities e.g.
Bgp_Global has path "/bgp/global" == {"", "bgp", "global"} -> {"global"}. -/
def removeRootPrefix (path : List GoString) : List GoString :=
  if decide (path.length < 2) || decide (path.head? ≠ some []) then path else path.drop 2

/-- schemaPaths returns all the paths in the path tag. -/
def schemaPaths (_ : Entry) (f : StructField) : Except Error (List (List GoString)) :=
  match f.TagLookup "path".toList with
  | none => .error (.noPath f.Name)
  | some pathTag =>
    if pathTag = [] then .error (.noPath f.Name)
    else
      .ok ((strings.Split pathTag '|').map (fun p =>
        stripModulePrefixes (removeRootPrefix (strings.Split p '/'))))

/-- The loop `for _, pe := range path` of removeNonDataPathElements: s is the
schema node reached, path the slice ranged over, po the output so far; an
element not found gives the whole of path. -/
def removeNonDataLoop (path : List GoString) : Entry → List GoString → List GoString →
    List GoString
  | _, [], po => po
  | s, pe :: rest, po =>
    match mapLookup s.Dir pe with
    | none => path
    | some ns => removeNonDataLoop path ns rest (if !isChoiceOrCase ns then po ++ [pe] else po)

/-- The body of the loop `for _, path := range paths` of
removeNonDataPathElements: the output path for one input path.  The access
`path[0]` panics on an empty path. -/
def removeNonDataPath (parentSchema : Entry) : List GoString → Exec (List GoString)
  | [] => .panic
  | p0 :: rest =>
    if p0 = parentSchema.Name then .done (removeNonDataLoop rest parentSchema rest [p0])
    else .done (removeNonDataLoop (p0 :: rest) parentSchema (p0 :: rest) [])

/-- removeNonDataPathElements removes any path elements in paths not found in
the data tree given the terminal node schema and the schema of its parent. -/
def removeNonDataPathElements (parentSchema : Entry) (schema : Entry) :
    List (List GoString) → Exec (List (List GoString) × Option Error)
  | [] => .done ([], none)
  | path :: paths =>
    match removeNonDataPath parentSchema path with
    | .done po =>
      match removeNonDataPathElements parentSchema schema paths with
      | .done (out, err) => .done (po :: out, err)
      | .panic => .panic
      | .outOfFuel => .outOfFuel
    | .panic => .panic
    | .outOfFuel => .outOfFuel

/-- dataTreePaths returns all the data tree paths corresponding to schemaPaths.
Any intermediate nodes not found in the data tree (i.e. choice/case) are
removed from the paths. -/
def dataTreePaths (parentSchema schema : Entry) (f : StructField) :
    Exec (List (List GoString) × Option Error) :=
  match schemaPaths schema f with
  | .error err => .done ([], some err)
  | .ok out => removeNonDataPathElements parentSchema schema out

/-- The first loop of checkDataTreeAgainstPaths, `for _, sp := range dataPaths`:
the keys of the table pm.  The access `sp[0]` panics on an empty path. -/
def dataPathHeads : List (List GoString) → Exec (List GoString)
  | [] => .done []
  | [] :: _ => .panic
  | (sp0 :: _) :: rest =>
    match dataPathHeads rest with
    | .done pm => .done (stripModulePrefix sp0 :: pm)
    | .panic => .panic
    | .outOfFuel => .outOfFuel

/-- The second loop of checkDataTreeAgainstPaths, `for jf := range jsonTree`, on
the keys of the document: the error for the first key not in pm.  Go leaves the
order of the keys open; here it is the order of the list. -/
def checkDataTreeKeys (pm : List GoString) : List GoString → Option Error
  | [] => none
  | jf :: rest =>
    if decide (stripModulePrefix jf ∈ pm) then checkDataTreeKeys pm rest
    else some (.unexpectedField jf)

/-- checkDataTreeAgainstPaths checks each of dataPaths against the first level
of the data tree. It returns an error with the first element in the data tree
first level that is not found in dataPaths. -/
def checkDataTreeAgainstPaths (jsonTree : JSONObject) (dataPaths : List (List GoString)) :
    Exec (Option Error) :=
  match dataPathHeads dataPaths with
  | .done pm => .done (checkDataTreeKeys pm (jsonTree.map (fun kv => kv.1)))
  | .panic => .panic
  | .outOfFuel => .outOfFuel

/-- findSchemaAtPath returns the schema at the given path, ignoring module
prefixes in the path. It returns nil if no schema is found. -/
def findSchemaAtPath : Entry → List GoString → Option Entry
  | s, [] => some s
  | s, pe :: rest =>
    match mapLookup s.Dir (stripModulePrefix pe) with
    | none => none
    | some ns => findSchemaAtPath ns rest

/-- A container "top" holding the leaf "x", and the choice "pick" with the case
"one" that holds the leaf "y". -/
def choiceSchema : Entry :=
  dirEntry "top" .DirectoryEntry
    [leafEntry "x",
     dirEntry "pick" .ChoiceEntry [dirEntry "one" .CaseEntry [leafEntry "y"]]]

end ytypes

namespace ygot

open reflect

/-- The segments of a path tag split at '|' and at '/' alike. -/
def splitSegments : GoString → List GoString
  | [] => [[]]
  | c :: cs =>
    if c = '|' ∨ c = '/' then [] :: splitSegments cs
    else match splitSegments cs with
      | [] => [[c]]
      | h :: t => (c :: h) :: t

/-- A record type with the boolean field Enabled and the optional boolean field
Flag. -/
def boolDecl : List (StructField × GoType) :=
  [(ytypes.pathField "Enabled" "enabled", .Bool),
   (ytypes.pathField "Flag" "flag", .Ptr .Bool)]

/-- The document {"enabled": true, "flag": false}. -/
def boolDoc : JSONObject :=
  [("enabled".toList, .bool true), ("flag".toList, .bool false)]

end ygot

namespace ytypes

open yang reflect

/-- The schema nodes a path leads through: the child named by each element,
looked up in the node before it; none when some element is not found. -/
def schemaNodesAlong : Entry → List GoString → Option (List Entry)
  | _, [] => some []
  | s, pe :: rest =>
    match mapLookup s.Dir pe with
    | none => none
    | some ns => (schemaNodesAlong ns rest).map (fun nodes => ns :: nodes)

/-- The elements of a path whose schema node is neither a choice nor a case, in
order. -/
def dataElements : List GoString → List Entry → List GoString
  | pe :: rest, node :: nodes =>
    if isChoiceOrCase node then dataElements rest nodes else pe :: dataElements rest nodes
  | _, _ => []

end ytypes

namespace ytypes

open yang reflect

/-! ## Part II: theorems -/

theorem Split_ne_nil (s : GoString) (sep : Char) : strings.Split s sep ≠ [] := by
  induction s with
  | nil => simp [strings.Split]
  | cons c cs ih =>
    unfold strings.Split
    split
    · simp
    · split
      · simp
      · simp

theorem Split_length (s : GoString) (sep : Char) :
    (strings.Split s sep).length = s.count sep + 1 := by
  induction s with
  | nil => simp [strings.Split]
  | cons c cs ih =>
    unfold strings.Split
    by_cases h : c = sep
    · subst h
      simp [ih]
    · have hc : (c == sep) = false := by simpa using h
      rw [if_neg h, List.count_cons, hc]
      cases hs : strings.Split cs sep with
      | nil => exact absurd hs (Split_ne_nil cs sep)
      | cons h t =>
        rw [hs] at ih
        simpa using ih

theorem Split_length_eq_one (s : GoString) (sep : Char) :
    (strings.Split s sep).length = 1 ↔ sep ∉ s := by
  rw [Split_length]
  constructor
  · intro h
    have : s.count sep = 0 := by omega
    exact List.count_eq_zero.mp this
  · intro h
    rw [List.count_eq_zero.mpr h]

theorem pathToSchemaLoop_eq (paths : List GoString) :
    pathToSchemaLoop paths =
      (paths.find? (fun a => decide (1 < (segmentsOf a).length))).map segmentsOf := by
  induction paths with
  | nil => rfl
  | cons pv rest ih =>
    unfold pathToSchemaLoop
    by_cases h : 1 < (segmentsOf pv).length
    · have h2 : (strings.Split (strings.TrimPrefix pv '/') '/').length > 1 := h
      simp [h2, List.find?, h, segmentsOf]
    · have h2 : ¬ (strings.Split (strings.TrimPrefix pv '/') '/').length > 1 := h
      simp only [h2, if_false, List.find?, h, decide_False]
      exact ih

theorem pathToSchema_of_none (f : StructField)
    (h : f.TagLookup "path".toList = none) :
    pathToSchema f = .error (.noPath f.Name) := by
  unfold pathToSchema
  rw [h]

theorem pathToSchema_of_some (f : StructField) (tag : GoString)
    (h : f.TagLookup "path".toList = some tag) :
    pathToSchema f =
      if (strings.Split tag '|').length = 1 then .ok (segmentsOf tag)
      else match (strings.Split tag '|').find?
          (fun a => decide (1 < (segmentsOf a).length)) with
        | some a => .ok (segmentsOf a)
        | none => .error (.noDisambiguatingPath f.Name tag) := by
  unfold pathToSchema
  rw [h]
  simp only [pathToSchemaLoop_eq, segmentsOf]
  split
  · rfl
  · cases (strings.Split tag '|').find?
      (fun a => decide (1 < (strings.Split (strings.TrimPrefix a '/') '/').length)) <;> rfl

/-- C3: pathToSchema on a tagged field returns, for a tag without '|', the
'/'-separated segments of the tag after removing one leading '/'; for a tag with
several '|'-separated alternatives, the segments of the first alternative in tag
order that has more than one segment; it fails exactly when the tag is missing
or there are several alternatives none of which has more than one segment; and
"config/a|a" gives ["config", "a"]. -/
theorem pathToSchema_spec (f : StructField) :
    (∀ tag, f.TagLookup "path".toList = some tag →
        ('|' ∉ tag → pathToSchema f = .ok (segmentsOf tag)) ∧
        ('|' ∈ tag → pathToSchema f =
            match (strings.Split tag '|').find?
                (fun a => decide (1 < (segmentsOf a).length)) with
            | some a => .ok (segmentsOf a)
            | none => .error (.noDisambiguatingPath f.Name tag))) ∧
    ((∃ e, pathToSchema f = .error e) ↔
        (f.TagLookup "path".toList = none ∨
         ∃ tag, f.TagLookup "path".toList = some tag ∧ '|' ∈ tag ∧
           ∀ a ∈ strings.Split tag '|', (segmentsOf a).length ≤ 1)) ∧
    pathToSchema (pathField "A" "config/a|a") = .ok ["config".toList, "a".toList] := by
  refine ⟨?_, ?_, rfl⟩
  · intro tag htag
    constructor
    · intro hno
      rw [pathToSchema_of_some f tag htag, if_pos ((Split_length_eq_one tag '|').mpr hno)]
    · intro hin
      rw [pathToSchema_of_some f tag htag,
        if_neg (fun h => (Split_length_eq_one tag '|').mp h hin)]
  · cases htag : f.TagLookup "path".toList with
    | none =>
      rw [pathToSchema_of_none f htag]
      exact ⟨fun _ => Or.inl rfl, fun _ => ⟨_, rfl⟩⟩
    | some tag =>
      rw [pathToSchema_of_some f tag htag]
      by_cases hin : '|' ∈ tag
      · rw [if_neg (fun h => (Split_length_eq_one tag '|').mp h hin)]
        cases hf : (strings.Split tag '|').find?
            (fun a => decide (1 < (segmentsOf a).length)) with
        | none =>
          constructor
          · intro _
            refine Or.inr ⟨tag, rfl, hin, ?_⟩
            intro a ha
            have := List.find?_eq_none.mp hf a ha
            simpa using this
          · intro _
            exact ⟨_, rfl⟩
        | some a =>
          constructor
          · rintro ⟨e, he⟩
            cases he
          · rintro (h | ⟨t, ht, _, hall⟩)
            · cases h
            · cases ht
              have hmem := List.mem_of_find?_eq_some hf
              have hp := List.find?_some hf
              have := hall a hmem
              simp at hp
              omega
      · rw [if_pos ((Split_length_eq_one tag '|').mpr hin)]
        constructor
        · rintro ⟨e, he⟩
          cases he
        · rintro (h | ⟨t, ht, hin2, _⟩)
          · cases h
          · cases ht
            exact absurd hin2 hin

/-- Witness for C3 at the single-alternative tag "/a/b". -/
theorem pathToSchema_spec_witness :
    pathToSchema (pathField "F" "/a/b") = .ok ["a".toList, "b".toList] :=
  ((pathToSchema_spec (pathField "F" "/a/b")).1 "/a/b".toList rfl).1 (by decide)

theorem Split_of_not_mem (s : GoString) (sep : Char) (h : sep ∉ s) :
    strings.Split s sep = [s] := by
  induction s with
  | nil => rfl
  | cons c cs ih =>
    have hc : ¬ c = sep := fun e => h (e ▸ List.mem_cons_self _ _)
    have hcs : sep ∉ cs := fun e => h (List.mem_cons_of_mem _ e)
    unfold strings.Split
    rw [if_neg hc, ih hcs]

theorem TrimPrefix_of_not_mem (s : GoString) (p : Char) (h : p ∉ s) :
    strings.TrimPrefix s p = s := by
  cases s with
  | nil => rfl
  | cons c cs =>
    have hc : ¬ c = p := fun e => h (e ▸ List.mem_cons_self _ _)
    simp [strings.TrimPrefix, hc]

theorem stripModulePrefix_of_not_mem (s : GoString) (h : ':' ∉ s) :
    stripModulePrefix s = s := by
  unfold stripModulePrefix
  rw [Split_of_not_mem s ':' h]
  rfl

theorem pathToSchema_single (f : StructField) (x : GoString)
    (htag : f.TagLookup "path".toList = some x) (hslash : '/' ∉ x) (hbar : '|' ∉ x) :
    pathToSchema f = .ok [x] := by
  rw [pathToSchema_of_some f x htag, if_pos ((Split_length_eq_one x '|').mpr hbar)]
  unfold segmentsOf
  rw [TrimPrefix_of_not_mem x '/' hslash, Split_of_not_mem x '/' hslash]

theorem mem_mapSet (m : List (GoString × Entry)) (key : GoString) (e : Entry)
    (k : GoString) (v : Entry) (h : (k, v) ∈ mapSet m key e) :
    (k, v) ∈ m ∨ (k = key ∧ v = e) := by
  induction m with
  | nil =>
    simp [mapSet] at h
    exact Or.inr h
  | cons kv rest ih =>
    obtain ⟨k0, v0⟩ := kv
    unfold mapSet at h
    split at h
    · rcases List.mem_cons.mp h with h1 | h1
      · right
        simpa using h1
      · left
        exact List.mem_cons_of_mem _ h1
    · rcases List.mem_cons.mp h with h1 | h1
      · left
        rw [h1]
        exact List.mem_cons_self _ _
      · rcases ih h1 with h2 | h2
        · left
          exact List.mem_cons_of_mem _ h2
        · right
          exact h2

theorem hasKey_mapSet_self (m : List (GoString × Entry)) (key : GoString) (e : Entry) :
    hasKey (mapSet m key e) key := by
  induction m with
  | nil => exact ⟨e, by simp [mapSet]⟩
  | cons kv rest ih =>
    obtain ⟨k0, v0⟩ := kv
    unfold mapSet
    split
    · exact ⟨e, List.mem_cons_self _ _⟩
    · obtain ⟨v, hv⟩ := ih
      exact ⟨v, List.mem_cons_of_mem _ hv⟩

theorem hasKey_mapSet_of_hasKey (m : List (GoString × Entry)) (key : GoString) (e : Entry)
    (k : GoString) (h : hasKey m k) : hasKey (mapSet m key e) k := by
  induction m with
  | nil =>
    obtain ⟨v, hv⟩ := h
    cases hv
  | cons kv rest ih =>
    obtain ⟨k0, v0⟩ := kv
    obtain ⟨v, hv⟩ := h
    unfold mapSet
    split
    · rename_i hk
      rcases List.mem_cons.mp hv with h1 | h1
      · have : k = k0 := by simpa using (congrArg Prod.fst h1)
        exact ⟨e, by rw [this, hk]; exact List.mem_cons_self _ _⟩
      · exact ⟨v, List.mem_cons_of_mem _ h1⟩
    · rcases List.mem_cons.mp hv with h1 | h1
      · exact ⟨v, by rw [h1]; exact List.mem_cons_self _ _⟩
      · obtain ⟨w, hw⟩ := ih ⟨v, h1⟩
        exact ⟨w, List.mem_cons_of_mem _ hw⟩

mutual
theorem mem_findFirstNonChoiceOrCase :
    ∀ (e : Entry) (m : List (GoString × Entry)) (k : GoString) (v : Entry),
      (k, v) ∈ findFirstNonChoiceOrCase e m →
      (k, v) ∈ m ∨ (FirstNonChoiceOrCase e v ∧ k = v.Name)
  | .mk n kd p d t l a, m, k, v, h => by
    unfold findFirstNonChoiceOrCase at h
    by_cases hc : isChoiceOrCase (.mk n kd p d t l a) = true
    · simp only [hc, Bool.not_true, Bool.false_eq_true, if_false] at h
      rcases mem_findFirstNonChoiceOrCaseDir d m k v h with h1 | ⟨name, ch, hmem, hf, hk⟩
      · exact Or.inl h1
      · exact Or.inr ⟨FirstNonChoiceOrCase.child _ ch v name hc hmem hf, hk⟩
    · have hc2 : isChoiceOrCase (.mk n kd p d t l a) = false := by simpa using hc
      simp only [hc2, Bool.not_false, if_true] at h
      rcases mem_mapSet m n _ k v h with h1 | ⟨hk, hv⟩
      · exact Or.inl h1
      · right
        subst hv
        exact ⟨FirstNonChoiceOrCase.self _ hc2, hk⟩
theorem mem_findFirstNonChoiceOrCaseDir :
    ∀ (d m : List (GoString × Entry)) (k : GoString) (v : Entry),
      (k, v) ∈ findFirstNonChoiceOrCaseDir d m →
      (k, v) ∈ m ∨ ∃ name ch, (name, ch) ∈ d ∧ FirstNonChoiceOrCase ch v ∧ k = v.Name
  | [], m, k, v, h => by
    unfold findFirstNonChoiceOrCaseDir at h
    exact Or.inl h
  | (name, ch) :: rest, m, k, v, h => by
    unfold findFirstNonChoiceOrCaseDir at h
    rcases mem_findFirstNonChoiceOrCaseDir rest _ k v h with h1 | ⟨name2, ch2, hmem, hf, hk⟩
    · rcases mem_findFirstNonChoiceOrCase ch m k v h1 with h2 | ⟨hf, hk⟩
      · exact Or.inl h2
      · exact Or.inr ⟨name, ch, List.mem_cons_self _ _, hf, hk⟩
    · exact Or.inr ⟨name2, ch2, List.mem_cons_of_mem _ hmem, hf, hk⟩
end

theorem findFirstNonChoiceOrCase_eq (e : Entry) (m : List (GoString × Entry)) :
    findFirstNonChoiceOrCase e m =
      if !isChoiceOrCase e then mapSet m e.Name e else findFirstNonChoiceOrCaseDir e.Dir m := by
  cases e
  unfold findFirstNonChoiceOrCase
  rfl

mutual
theorem hasKey_findFirstNonChoiceOrCase :
    ∀ (e : Entry) (m : List (GoString × Entry)) (k : GoString),
      hasKey m k → hasKey (findFirstNonChoiceOrCase e m) k
  | .mk n kd p d t l a, m, k, h => by
    unfold findFirstNonChoiceOrCase
    split
    · exact hasKey_mapSet_of_hasKey m n _ k h
    · exact hasKey_findFirstNonChoiceOrCaseDir d m k h
theorem hasKey_findFirstNonChoiceOrCaseDir :
    ∀ (d m : List (GoString × Entry)) (k : GoString),
      hasKey m k → hasKey (findFirstNonChoiceOrCaseDir d m) k
  | [], m, k, h => by
    unfold findFirstNonChoiceOrCaseDir
    exact h
  | (_, ch) :: rest, m, k, h => by
    unfold findFirstNonChoiceOrCaseDir
    exact hasKey_findFirstNonChoiceOrCaseDir rest _ k
      (hasKey_findFirstNonChoiceOrCase ch m k h)
end

theorem hasKey_findFirstNonChoiceOrCaseDir_of_mem (k : GoString) :
    ∀ (d m : List (GoString × Entry)) (name : GoString) (ch : Entry),
      (name, ch) ∈ d → (∀ m0, hasKey (findFirstNonChoiceOrCase ch m0) k) →
      hasKey (findFirstNonChoiceOrCaseDir d m) k := by
  intro d
  induction d with
  | nil =>
    intro m name ch hmem
    cases hmem
  | cons kv rest ih =>
    intro m name ch hmem hch
    obtain ⟨k0, c0⟩ := kv
    unfold findFirstNonChoiceOrCaseDir
    rcases List.mem_cons.mp hmem with h1 | h1
    · have hc : ch = c0 := by simpa using (congrArg Prod.snd h1)
      subst hc
      exact hasKey_findFirstNonChoiceOrCaseDir rest _ k (hch m)
    · exact ih _ name ch h1 hch

theorem hasKey_of_FirstNonChoiceOrCase (e N : Entry) (h : FirstNonChoiceOrCase e N) :
    ∀ m, hasKey (findFirstNonChoiceOrCase e m) N.Name := by
  induction h with
  | self e hc =>
    intro m
    rw [findFirstNonChoiceOrCase_eq, hc]
    exact hasKey_mapSet_self m e.Name e
  | child e ch N name hc hmem _ ih =>
    intro m
    rw [findFirstNonChoiceOrCase_eq, hc]
    exact hasKey_findFirstNonChoiceOrCaseDir_of_mem N.Name e.Dir m name ch hmem ih

theorem mem_choiceCaseEntries :
    ∀ (d m : List (GoString × Entry)) (k : GoString) (v : Entry),
      (k, v) ∈ choiceCaseEntries d m →
      (k, v) ∈ m ∨ ∃ name ch, (name, ch) ∈ d ∧ isChoiceOrCase ch = true ∧
        FirstNonChoiceOrCase ch v ∧ k = v.Name := by
  intro d
  induction d with
  | nil =>
    intro m k v h
    exact Or.inl h
  | cons kv rest ih =>
    intro m k v h
    obtain ⟨k0, c0⟩ := kv
    unfold choiceCaseEntries at h
    rcases ih _ k v h with h1 | ⟨name, ch, hmem, hcc, hf, hk⟩
    · by_cases hc : isChoiceOrCase c0 = true
      · rw [if_pos hc] at h1
        rcases mem_findFirstNonChoiceOrCase c0 m k v h1 with h2 | ⟨hf, hk⟩
        · exact Or.inl h2
        · exact Or.inr ⟨k0, c0, List.mem_cons_self _ _, hc, hf, hk⟩
      · rw [if_neg hc] at h1
        exact Or.inl h1
    · exact Or.inr ⟨name, ch, List.mem_cons_of_mem _ hmem, hcc, hf, hk⟩

theorem hasKey_choiceCaseEntries :
    ∀ (d m : List (GoString × Entry)) (k : GoString),
      hasKey m k → hasKey (choiceCaseEntries d m) k := by
  intro d
  induction d with
  | nil =>
    intro m k h
    exact h
  | cons kv rest ih =>
    intro m k h
    obtain ⟨k0, c0⟩ := kv
    unfold choiceCaseEntries
    apply ih
    split
    · exact hasKey_findFirstNonChoiceOrCase c0 m k h
    · exact h

theorem hasKey_choiceCaseEntries_of_mem (N : Entry) :
    ∀ (d m : List (GoString × Entry)) (name : GoString) (ch : Entry),
      (name, ch) ∈ d → isChoiceOrCase ch = true → FirstNonChoiceOrCase ch N →
      hasKey (choiceCaseEntries d m) N.Name := by
  intro d
  induction d with
  | nil =>
    intro m name ch hmem
    cases hmem
  | cons kv rest ih =>
    intro m name ch hmem hcc hf
    obtain ⟨k0, c0⟩ := kv
    unfold choiceCaseEntries
    rcases List.mem_cons.mp hmem with h1 | h1
    · have hc : ch = c0 := by simpa using (congrArg Prod.snd h1)
      subst hc
      rw [if_pos hcc]
      exact hasKey_choiceCaseEntries rest _ N.Name (hasKey_of_FirstNonChoiceOrCase ch N hf m)
    · exact ih _ name ch h1 hcc hf

/-- The table of the choice/case fallback holds exactly the nodes reachable
through choice/case chains, each under its own name. -/
theorem choiceCaseEntries_spec (S : Entry) :
    (∀ k v, (k, v) ∈ choiceCaseEntries S.Dir [] →
        ReachableThroughChoiceCase S v ∧ k = v.Name) ∧
    (∀ N, ReachableThroughChoiceCase S N → hasKey (choiceCaseEntries S.Dir []) N.Name) := by
  constructor
  · intro k v h
    rcases mem_choiceCaseEntries S.Dir [] k v h with h1 | ⟨name, ch, hmem, hcc, hf, hk⟩
    · cases h1
    · exact ⟨⟨name, ch, hmem, hcc, hf⟩, hk⟩
  · rintro N ⟨name, ch, hmem, hcc, hf⟩
    exact hasKey_choiceCaseEntries_of_mem N S.Dir [] name ch hmem hcc hf

theorem firstNodes_eq (e : Entry) :
    firstNodes e = if !isChoiceOrCase e then [e] else firstNodesDir e.Dir := by
  cases e
  unfold firstNodes
  rfl

theorem mem_firstNodes_of_FirstNonChoiceOrCase (e N : Entry)
    (h : FirstNonChoiceOrCase e N) : N ∈ firstNodes e := by
  induction h with
  | self e hc =>
    rw [firstNodes_eq, hc]
    simp
  | child e ch N name hc hmem _ ih =>
    rw [firstNodes_eq, hc]
    simp only [Bool.not_true, Bool.false_eq_true, if_false]
    generalize e.Dir = d at hmem
    induction d with
    | nil => cases hmem
    | cons kv rest ihd =>
      obtain ⟨k0, c0⟩ := kv
      unfold firstNodesDir
      rcases List.mem_cons.mp hmem with h1 | h1
      · have hc : ch = c0 := by simpa using (congrArg Prod.snd h1)
        subst hc
        exact List.mem_append_left _ ih
      · exact List.mem_append_right _ (ihd h1)

theorem mem_choiceCaseNodes_of_reachable (S N : Entry)
    (h : ReachableThroughChoiceCase S N) : N ∈ choiceCaseNodes S.Dir := by
  obtain ⟨name, ch, hmem, hcc, hf⟩ := h
  generalize S.Dir = d at hmem
  induction d with
  | nil => cases hmem
  | cons kv rest ihd =>
    obtain ⟨k0, c0⟩ := kv
    unfold choiceCaseNodes
    rcases List.mem_cons.mp hmem with h1 | h1
    · have hc : ch = c0 := by simpa using (congrArg Prod.snd h1)
      subst hc
      rw [if_pos hcc]
      exact List.mem_append_left _ (mem_firstNodes_of_FirstNonChoiceOrCase ch N hf)
    · exact List.mem_append_right _ (ihd h1)

theorem childSchema_of_path (S : Entry) (f : StructField) (p : List GoString)
    (h : pathToSchema f = .ok p) :
    childSchema S f = childSchemaResolve S (stripParentName S p) := by
  unfold childSchema
  rw [h]

theorem stripParentName_single (S : Entry) (x : GoString) :
    stripParentName S [x] = [x] := by
  simp [stripParentName]

/-- C2 (amended): for a field whose path tag is the single segment x, if S has no
direct child named x, a non-choice/non-case node N named x is reachable from S
through a chain made only of choice/case nodes (of any depth), and the names of
the nodes so reachable are unique and carry no module qualifier (no ':'),
then childSchema returns N with no error. -/
theorem childSchema_choice_case_fallback (S N : Entry) (f : StructField) (x : GoString)
    (htag : f.TagLookup "path".toList = some x) (hslash : '/' ∉ x) (hbar : '|' ∉ x)
    (hdirect : mapLookup S.Dir x = none)
    (hreach : ReachableThroughChoiceCase S N) (hname : N.Name = x)
    (huniq : ∀ N1 N2, ReachableThroughChoiceCase S N1 → ReachableThroughChoiceCase S N2 →
      N1.Name = N2.Name → N1 = N2)
    (hcolon : ∀ M, ReachableThroughChoiceCase S M → ':' ∉ M.Name) :
    childSchema S f = (some N, none) := by
  have hx : stripModulePrefix x = x :=
    stripModulePrefix_of_not_mem x (hname ▸ hcolon N hreach)
  rw [childSchema_of_path S f [x] (pathToSchema_single f x htag hslash hbar),
    stripParentName_single]
  have hwalk : childSchemaWalk S [x] = (S, [x], false) := by
    simp [childSchemaWalk, hx, hdirect]
  unfold childSchemaResolve
  rw [hwalk]
  simp only
  obtain ⟨hsound, hcomplete⟩ := choiceCaseEntries_spec S
  cases hfind : (choiceCaseEntries S.Dir []).find?
      (fun ne => decide (stripModulePrefix ne.1 = x)) with
  | none =>
    exfalso
    obtain ⟨v, hv⟩ := hcomplete N hreach
    have := List.find?_eq_none.mp hfind (N.Name, v) hv
    obtain ⟨hr, hk⟩ := hsound _ _ hv
    simp only [decide_eq_true_eq] at this
    apply this
    rw [hname]
    exact hx
  | some ne =>
    obtain ⟨k, v⟩ := ne
    have hmem := List.mem_of_find?_eq_some hfind
    have hp := List.find?_some hfind
    simp only [decide_eq_true_eq] at hp
    obtain ⟨hr, hk⟩ := hsound k v hmem
    have hkx : k = x := by
      rw [← hp, hk]
      exact (stripModulePrefix_of_not_mem _ (hcolon v hr)).symm
    have : v = N := huniq v N hr hreach (by rw [← hk, hkx, hname])
    simp [this]

theorem nestedChoiceSchema_reachable :
    ReachableThroughChoiceCase nestedChoiceSchema (leafEntry "leaf1") :=
  ⟨"choice1".toList, _, List.Mem.head _, rfl,
    .child _ _ _ "case1".toList rfl (List.Mem.head _)
      (.child _ _ _ "choice2".toList rfl (List.Mem.head _)
        (.child _ _ _ "case2".toList rfl (List.Mem.head _)
          (.child _ _ _ "leaf1".toList rfl (List.Mem.head _) (.self _ rfl))))⟩

theorem nestedChoiceSchema_nodes (M : Entry)
    (h : ReachableThroughChoiceCase nestedChoiceSchema M) : M = leafEntry "leaf1" := by
  have h1 := mem_choiceCaseNodes_of_reachable _ _ h
  have h2 : choiceCaseNodes nestedChoiceSchema.Dir = [leafEntry "leaf1"] := rfl
  rw [h2] at h1
  exact List.mem_singleton.mp h1

/-- Witness for C2 (amended): the tag "leaf1" resolved against a container
holding choice1/case1/choice2/case2/leaf1. -/
theorem childSchema_choice_case_fallback_witness :
    childSchema nestedChoiceSchema (pathField "F" "leaf1") =
      (some (leafEntry "leaf1"), none) :=
  childSchema_choice_case_fallback nestedChoiceSchema (leafEntry "leaf1")
    (pathField "F" "leaf1") "leaf1".toList rfl (by decide) (by decide) rfl
    nestedChoiceSchema_reachable rfl
    (fun N1 N2 h1 h2 _ => by
      rw [nestedChoiceSchema_nodes N1 h1, nestedChoiceSchema_nodes N2 h2])
    (fun M hM => by
      rw [nestedChoiceSchema_nodes M hM]
      decide)

/-- C2 as stated fails: the tag "m:y" is a single segment, the parent has no
direct child of that name, the only node reachable through choice/case nodes is
the leaf named "m:y", and childSchema returns no node. -/
theorem childSchema_choice_case_counterexample :
    (pathField "F" "m:y").TagLookup "path".toList = some "m:y".toList ∧
    mapLookup prefixedLeafSchema.Dir "m:y".toList = none ∧
    ReachableThroughChoiceCase prefixedLeafSchema (leafEntry "m:y") ∧
    (leafEntry "m:y").Name = "m:y".toList ∧
    (∀ N1 N2, ReachableThroughChoiceCase prefixedLeafSchema N1 →
      ReachableThroughChoiceCase prefixedLeafSchema N2 → N1.Name = N2.Name → N1 = N2) ∧
    childSchema prefixedLeafSchema (pathField "F" "m:y") = (none, none) := by
  refine ⟨rfl, rfl, ?_, rfl, ?_, rfl⟩
  · exact ⟨"choice1".toList, _, List.Mem.head _, rfl,
      .child _ _ _ "m:y".toList rfl (List.Mem.head _) (.self _ rfl)⟩
  · intro N1 N2 h1 h2 _
    have e1 := mem_choiceCaseNodes_of_reachable _ _ h1
    have e2 := mem_choiceCaseNodes_of_reachable _ _ h2
    have hn : choiceCaseNodes prefixedLeafSchema.Dir = [leafEntry "m:y"] := rfl
    rw [hn] at e1 e2
    rw [List.mem_singleton.mp e1, List.mem_singleton.mp e2]

theorem childSchemaResolve_snd (S : Entry) (p : List GoString) :
    (childSchemaResolve S p).2 = none := by
  unfold childSchemaResolve
  split
  · rfl
  · split
    · split <;> rfl
    · rfl

theorem fallback_find_isSome_iff (stop : Entry) (x : GoString) :
    (∃ ne, (choiceCaseEntries stop.Dir []).find?
        (fun ne => decide (stripModulePrefix ne.1 = x)) = some ne) ↔
      ∃ N, ReachableThroughChoiceCase stop N ∧ stripModulePrefix N.Name = x := by
  obtain ⟨hsound, hcomplete⟩ := choiceCaseEntries_spec stop
  constructor
  · rintro ⟨⟨k, v⟩, hfind⟩
    have hmem := List.mem_of_find?_eq_some hfind
    have hp := List.find?_some hfind
    simp only [decide_eq_true_eq] at hp
    obtain ⟨hr, hk⟩ := hsound k v hmem
    exact ⟨v, hr, hk ▸ hp⟩
  · rintro ⟨N, hr, hN⟩
    obtain ⟨v, hv⟩ := hcomplete N hr
    cases hfind : (choiceCaseEntries stop.Dir []).find?
        (fun ne => decide (stripModulePrefix ne.1 = x)) with
    | none =>
      have := List.find?_eq_none.mp hfind (N.Name, v) hv
      simp only [decide_eq_true_eq] at this
      exact absurd hN this
    | some ne => exact ⟨ne, rfl⟩

theorem childSchemaResolve_fst_eq_none_iff (S : Entry) (p : List GoString) :
    (childSchemaResolve S p).1 = none ↔
      ∃ stop rem, childSchemaWalk S p = (stop, rem, false) ∧
        ¬ ∃ x N, rem = [x] ∧ ReachableThroughChoiceCase stop N ∧
          stripModulePrefix N.Name = x := by
  unfold childSchemaResolve
  rcases hw : childSchemaWalk S p with ⟨stop, rem, found⟩
  cases found with
  | true => simp
  | false =>
    simp only [Prod.mk.injEq, and_true]
    constructor
    · intro h
      refine ⟨stop, rem, ⟨rfl, rfl⟩, ?_⟩
      rintro ⟨x, N, hrem, hr, hN⟩
      subst hrem
      obtain ⟨ne, hne⟩ := (fallback_find_isSome_iff stop x).mpr ⟨N, hr, hN⟩
      simp only [hne] at h
      cases h
    · rintro ⟨stop2, rem2, ⟨h1, h2⟩, hno⟩
      subst h1
      subst h2
      split
      · rename_i x
        split
        · rename_i ne hne
          exfalso
          obtain ⟨N, hr, hN⟩ := (fallback_find_isSome_iff stop x).mp ⟨ne, hne⟩
          exact hno ⟨x, N, rfl, hr, hN⟩
        · rfl
      · rfl

/-- C4: childSchema returns an error if and only if pathToSchema fails on the
field's tag, and then it returns that error and no node; for every valid tag
it returns no error, and it returns no node exactly when the direct walk
through the children stops short and the choice/case fallback finds no node
for the remaining path (the remaining path is not a single segment, or no node
reachable through choice/case nodes from the stopping node matches it). -/
theorem childSchema_error_iff (S : Entry) (f : StructField) :
    ((∃ e, (childSchema S f).2 = some e) ↔ ∃ e, pathToSchema f = .error e) ∧
    (∀ e, pathToSchema f = .error e → childSchema S f = (none, some e)) ∧
    (∀ p, pathToSchema f = .ok p →
      (childSchema S f).2 = none ∧
      ((childSchema S f).1 = none ↔
        ∃ stop rem, childSchemaWalk S (stripParentName S p) = (stop, rem, false) ∧
          ¬ ∃ x N, rem = [x] ∧ ReachableThroughChoiceCase stop N ∧
            stripModulePrefix N.Name = x)) := by
  refine ⟨?_, ?_, ?_⟩
  · cases hp : pathToSchema f with
    | error err =>
      unfold childSchema
      rw [hp]
      exact ⟨fun _ => ⟨err, rfl⟩, fun _ => ⟨err, rfl⟩⟩
    | ok p =>
      rw [childSchema_of_path S f p hp, childSchemaResolve_snd]
      constructor
      · rintro ⟨e, he⟩
        cases he
      · rintro ⟨e, he⟩
        cases he
  · intro e he
    unfold childSchema
    rw [he]
  · intro p hp
    rw [childSchema_of_path S f p hp]
    exact ⟨childSchemaResolve_snd _ _, childSchemaResolve_fst_eq_none_iff _ _⟩

/-- Witness for C4: the tag "nope" is valid and matches nothing below the nested
choice/case schema, so no node and no error come back. -/
theorem childSchema_error_iff_witness :
    childSchema nestedChoiceSchema (pathField "F" "nope") = (none, none) := by
  have h := (childSchema_error_iff nestedChoiceSchema (pathField "F" "nope")).2.2
    ["nope".toList] rfl
  have h1 : (childSchema nestedChoiceSchema (pathField "F" "nope")).1 = none := by
    apply h.2.mpr
    refine ⟨nestedChoiceSchema, ["nope".toList], rfl, ?_⟩
    rintro ⟨x, N, hx, hr, hN⟩
    rw [nestedChoiceSchema_nodes N hr] at hN
    have hx2 : x = "nope".toList := by simpa using hx.symm
    rw [hx2] at hN
    revert hN
    decide
  exact Prod.ext h1 h.1

theorem not_mem_of_mem_Split (sep : Char) :
    ∀ (s seg : GoString), seg ∈ strings.Split s sep → sep ∉ seg := by
  intro s
  induction s with
  | nil =>
    intro seg h
    simp [strings.Split] at h
    simp [h]
  | cons c cs ih =>
    intro seg h
    unfold strings.Split at h
    by_cases hc : c = sep
    · rw [if_pos hc] at h
      rcases List.mem_cons.mp h with h1 | h1
      · simp [h1]
      · exact ih seg h1
    · rw [if_neg hc] at h
      cases hs : strings.Split cs sep with
      | nil => exact absurd hs (Split_ne_nil cs sep)
      | cons hd tl =>
        rw [hs] at h ih
        rcases List.mem_cons.mp h with h1 | h1
        · rw [h1]
          intro hmem
          rcases List.mem_cons.mp hmem with h2 | h2
          · exact hc h2.symm
          · exact ih hd (List.mem_cons_self _ _) h2
        · exact ih seg (List.mem_cons_of_mem _ h1)

theorem getLastD_mem_cons :
    ∀ (tl : List GoString) (hd : GoString), tl.getLastD hd ∈ hd :: tl := by
  intro tl
  induction tl with
  | nil =>
    intro hd
    simp
  | cons a t ih =>
    intro hd
    rw [List.getLastD_cons]
    exact List.mem_cons_of_mem _ (ih a)

theorem stripModulePrefix_no_colon (s : GoString) : ':' ∉ stripModulePrefix s := by
  unfold stripModulePrefix
  cases hs : strings.Split s ':' with
  | nil => exact absurd hs (Split_ne_nil s ':')
  | cons hd tl =>
    apply not_mem_of_mem_Split ':' s
    rw [hs, List.getLastD_cons]
    exact getLastD_mem_cons tl hd

theorem stripModulePrefix_idem (s : GoString) :
    stripModulePrefix (stripModulePrefix s) = stripModulePrefix s :=
  stripModulePrefix_of_not_mem _ (stripModulePrefix_no_colon s)

/-- The direct walk of childSchema reads each segment only through
stripModulePrefix: walking the stripped path reaches the same node with the same
outcome. -/
theorem childSchemaWalk_stripModulePrefixes :
    ∀ (p : List GoString) (S : Entry),
      (childSchemaWalk S (stripModulePrefixes p)).1 = (childSchemaWalk S p).1 ∧
      (childSchemaWalk S (stripModulePrefixes p)).2.2 = (childSchemaWalk S p).2.2 := by
  intro p
  induction p with
  | nil =>
    intro S
    exact ⟨rfl, rfl⟩
  | cons seg rest ih =>
    intro S
    simp only [stripModulePrefixes, List.map_cons, childSchemaWalk, stripModulePrefix_idem]
    cases mapLookup S.Dir (stripModulePrefix seg) with
    | none => exact ⟨rfl, rfl⟩
    | some ns => exact ih ns

/-- C5 at its failing inputs: the choice/case fallback finds "leaf1" for the tag
"leaf1" and nothing for "m:leaf1"; the leading "system" of "system/dns" is
dropped against the container "system" while "oc:system/dns" resolves to
nothing; the direct walk does resolve the qualified segment "m:x". -/
theorem childSchema_module_prefix_divergence :
    childSchema nestedChoiceSchema (pathField "F" "leaf1") =
      (some (leafEntry "leaf1"), none) ∧
    childSchema nestedChoiceSchema (pathField "F" "m:leaf1") = (none, none) ∧
    childSchema systemSchema (pathField "F" "system/dns") =
      (some (leafEntry "dns"), none) ∧
    childSchema systemSchema (pathField "F" "oc:system/dns") = (none, none) ∧
    childSchema nestedChoiceSchema (pathField "F" "m:x") = (some (leafEntry "x"), none) :=
  ⟨rfl, rfl, rfl, rfl, rfl⟩

theorem stripParentName_cons (S : Entry) (rest : List GoString)
    (hS : S.IsContainer = true) (hrest : rest ≠ []) :
    stripParentName S (S.Name :: rest) = rest := by
  cases rest with
  | nil => exact absurd rfl hrest
  | cons a t => simp [stripParentName, hS]

theorem stripParentName_of_not_head (S : Entry) (rest : List GoString)
    (h : rest.length = 1 ∨ rest.head? ≠ some S.Name) :
    stripParentName S rest = rest := by
  unfold stripParentName
  rcases h with h | h
  · simp [h]
  · simp [h]

/-- C6 (amended): for a container S and a field whose path is S's own name
followed by at least one further segment, childSchema drops the leading name and
resolves the remaining segments against S; the result is that of a field whose
path is the remaining segments, provided that path is not itself S's name
followed by further segments. -/
theorem childSchema_strips_container_name (S : Entry) (f g : StructField)
    (rest : List GoString) (hS : S.IsContainer = true)
    (hf : pathToSchema f = .ok (S.Name :: rest)) (hrest : rest ≠ [])
    (hg : pathToSchema g = .ok rest)
    (hno : rest.length = 1 ∨ rest.head? ≠ some S.Name) :
    childSchema S f = childSchemaResolve S rest ∧ childSchema S f = childSchema S g := by
  rw [childSchema_of_path S f _ hf, childSchema_of_path S g _ hg,
    stripParentName_cons S rest hS hrest, stripParentName_of_not_head S rest hno]
  exact ⟨rfl, rfl⟩

/-- Witness for C6 (amended): "system/dns" and "dns" against the container
"system". -/
theorem childSchema_strips_container_name_witness :
    childSchema systemSchema (pathField "F" "system/dns") =
      childSchema systemSchema (pathField "G" "dns") :=
  (childSchema_strips_container_name systemSchema (pathField "F" "system/dns")
    (pathField "G" "dns") ["dns".toList] rfl rfl (by decide) rfl (Or.inl rfl)).2

/-- C6 as stated fails for a parent that is not a container: against the list
"s" the path of the tag "s/a" starts with the parent's name, the tag resolves
to no node, and the tag "a" resolves to the child "a". -/
theorem childSchema_strips_name_counterexample :
    pathToSchema (pathField "F" "s/a") = .ok [listSchema.Name, "a".toList] ∧
    childSchema listSchema (pathField "F" "s/a") = (none, none) ∧
    childSchema listSchema (pathField "G" "a") = (some (leafEntry "a"), none) :=
  ⟨rfl, rfl, rfl⟩

theorem absoluteSchemaDataPathLoop_eq :
    ∀ (e : Entry) (out : List GoString),
      absoluteSchemaDataPathLoop e out =
        ((ancestorsRootFirst e).filter isDataNode).map Entry.Name ++ out
  | .mk _ _ none _ _ _ _, out => by
    simp [absoluteSchemaDataPathLoop, ancestorsRootFirst]
  | .mk _ _ (some s) _ _ _ _, out => by
    unfold absoluteSchemaDataPathLoop ancestorsRootFirst
    rw [absoluteSchemaDataPathLoop_eq s _]
    by_cases h : isDataNode s = true
    · have h2 : (!isChoiceOrCase s && !isFakeRoot s) = true := h
      simp [h2, h, List.filter_append]
    · have h3 : isDataNode s = false := by simpa using h
      have h2 : (!isChoiceOrCase s && !isFakeRoot s) = false := h3
      simp [h2, h3, List.filter_append]

/-- C7 on the code: the filter of absoluteSchemaDataPath is applied to the proper
ancestors only and the name of the node itself always goes into the path.  The
choice "c" below the container "a" is not a data node, the names of the data
nodes on its chain, the node included, give "/a", and absoluteSchemaDataPath
returns "/a/c".  For every node the result is "/" followed by the "/"-joined
names, root first, of the proper ancestors that are neither choice nor case
nodes nor the fake root, followed by the name of the node; a leaf below fake
root, container, choice and case gets the path of the container and the
leaf. -/
theorem absoluteSchemaDataPath_spec (schema : Entry) :
    absoluteSchemaDataPath schema =
      '/' :: strings.Join
        (((ancestorsRootFirst schema).filter isDataNode).map Entry.Name
          ++ [schema.Name]) '/' ∧
    absoluteSchemaDataPath leafUnderChoice = "/a/x".toList ∧
    isChoiceOrCase choiceUnderContainer = true ∧
    '/' :: strings.Join
      (((ancestorsRootFirst choiceUnderContainer ++ [choiceUnderContainer]).filter
        isDataNode).map Entry.Name) '/' = "/a".toList ∧
    absoluteSchemaDataPath choiceUnderContainer = "/a/c".toList := by
  refine ⟨?_, rfl, rfl, rfl, rfl⟩
  unfold absoluteSchemaDataPath
  rw [absoluteSchemaDataPathLoop_eq]

theorem resolveLeafRefLoop_zero (findLeafRefSchema : Entry → GoString → Except Error Entry)
    (schema s : Entry) :
    resolveLeafRefLoop findLeafRefSchema schema 0 s =
      match s.Typ with
      | none => .panic
      | some t => if t.Kind = .Yleafref then .outOfFuel else .done (some s, none) := by
  unfold resolveLeafRefLoop
  rfl

theorem resolveLeafRefLoop_succ (findLeafRefSchema : Entry → GoString → Except Error Entry)
    (schema s : Entry) (fuel : Nat) :
    resolveLeafRefLoop findLeafRefSchema schema (fuel + 1) s =
      match s.Typ with
      | none => .panic
      | some t =>
        if t.Kind = .Yleafref then
          match findLeafRefSchema s t.Path with
          | .error err => .done (some schema, some err)
          | .ok ns => resolveLeafRefLoop findLeafRefSchema schema fuel ns
        else .done (some s, none) := by
  conv => lhs; unfold resolveLeafRefLoop

theorem resolveLeafRefLoop_stop (findLeafRefSchema : Entry → GoString → Except Error Entry)
    (schema s : Entry) (t : YangType) (fuel : Nat) (ht : s.Typ = some t)
    (hk : t.Kind ≠ .Yleafref) :
    resolveLeafRefLoop findLeafRefSchema schema fuel s = .done (some s, none) := by
  cases fuel with
  | zero => rw [resolveLeafRefLoop_zero, ht]; simp [hk]
  | succ n => rw [resolveLeafRefLoop_succ, ht]; simp [hk]

theorem resolveLeafRefLoop_step (findLeafRefSchema : Entry → GoString → Except Error Entry)
    (schema s ns : Entry) (t : YangType) (fuel : Nat) (ht : s.Typ = some t)
    (hk : t.Kind = .Yleafref) (hf : findLeafRefSchema s t.Path = .ok ns) :
    resolveLeafRefLoop findLeafRefSchema schema (fuel + 1) s =
      resolveLeafRefLoop findLeafRefSchema schema fuel ns := by
  rw [resolveLeafRefLoop_succ, ht]
  simp [hk, hf]

theorem resolveLeafRefLoop_fail (findLeafRefSchema : Entry → GoString → Except Error Entry)
    (schema s : Entry) (t : YangType) (err : Error) (fuel : Nat) (ht : s.Typ = some t)
    (hk : t.Kind = .Yleafref) (hf : findLeafRefSchema s t.Path = .error err) :
    resolveLeafRefLoop findLeafRefSchema schema (fuel + 1) s =
      .done (some schema, some err) := by
  rw [resolveLeafRefLoop_succ, ht]
  simp [hk, hf]

theorem resolveLeafRefLoop_chain (findLeafRefSchema : Entry → GoString → Except Error Entry)
    (schema : Entry) :
    ∀ (n : Nat) (c : Nat → Entry) (fuel : Nat),
      (∀ i, i < n → ∃ t, (c i).Typ = some t ∧ t.Kind = .Yleafref ∧
        findLeafRefSchema (c i) t.Path = .ok (c (i + 1))) →
      resolveLeafRefLoop findLeafRefSchema schema (fuel + n) (c 0) =
        resolveLeafRefLoop findLeafRefSchema schema fuel (c n) := by
  intro n
  induction n with
  | zero =>
    intro c fuel _
    rfl
  | succ n ih =>
    intro c fuel h
    obtain ⟨t, ht, hk, hf⟩ := h 0 (Nat.succ_pos n)
    rw [← Nat.add_assoc, resolveLeafRefLoop_step findLeafRefSchema schema (c 0) (c 1) t
      (fuel + n) ht hk hf]
    exact ih (fun i => c (i + 1)) fuel (fun i hi => h (i + 1) (Nat.succ_lt_succ hi))

theorem resolveLeafRef_of_typed (findLeafRefSchema : Entry → GoString → Except Error Entry)
    (schema : Entry) (t : YangType) (fuel : Nat) (ht : schema.Typ = some t) :
    resolveLeafRef findLeafRefSchema fuel (some schema) =
      resolveLeafRefLoop findLeafRefSchema schema fuel schema := by
  unfold resolveLeafRef
  simp only [ht]

/-- C8: resolveLeafRef returns nil for a nil schema, and the schema itself with
no error when the schema has no type or its kind is not leaf-ref; along a chain
c 0, c 1, ..., c n in which every node before c n is a leaf-ref whose target
lookup succeeds with the next node, it returns c n when the kind of c n is not
leaf-ref (the first such node of the chain), and it returns the supplied schema
c 0 together with the error when the lookup at the leaf-ref c n fails. -/
theorem resolveLeafRef_spec (findLeafRefSchema : Entry → GoString → Except Error Entry) :
    (∀ fuel, resolveLeafRef findLeafRefSchema fuel none = .done (none, none)) ∧
    (∀ fuel schema, (schema.Typ = none ∨ ∃ t, schema.Typ = some t ∧ t.Kind ≠ .Yleafref) →
      resolveLeafRef findLeafRefSchema fuel (some schema) = .done (some schema, none)) ∧
    (∀ (c : Nat → Entry) (n : Nat),
      (∀ i, i < n → ∃ t, (c i).Typ = some t ∧ t.Kind = .Yleafref ∧
        findLeafRefSchema (c i) t.Path = .ok (c (i + 1))) →
      (∃ t, (c n).Typ = some t ∧ t.Kind ≠ .Yleafref) →
      ∀ fuel, n ≤ fuel →
        resolveLeafRef findLeafRefSchema fuel (some (c 0)) = .done (some (c n), none)) ∧
    (∀ (c : Nat → Entry) (n : Nat) (err : Error),
      (∀ i, i < n → ∃ t, (c i).Typ = some t ∧ t.Kind = .Yleafref ∧
        findLeafRefSchema (c i) t.Path = .ok (c (i + 1))) →
      (∃ t, (c n).Typ = some t ∧ t.Kind = .Yleafref ∧
        findLeafRefSchema (c n) t.Path = .error err) →
      ∀ fuel, n < fuel →
        resolveLeafRef findLeafRefSchema fuel (some (c 0)) =
          .done (some (c 0), some err)) := by
  refine ⟨fun _ => rfl, ?_, ?_, ?_⟩
  · rintro fuel schema (h | ⟨t, ht, hk⟩)
    · unfold resolveLeafRef
      simp only [h]
    · rw [resolveLeafRef_of_typed _ _ t _ ht]
      exact resolveLeafRefLoop_stop _ _ _ t _ ht hk
  · intro c n hchain hend fuel hfuel
    obtain ⟨t, ht, hk⟩ := hend
    have h0 : ∃ t0, (c 0).Typ = some t0 := by
      cases n with
      | zero => exact ⟨t, ht⟩
      | succ m =>
        obtain ⟨t0, ht0, _⟩ := hchain 0 (Nat.succ_pos m)
        exact ⟨t0, ht0⟩
    obtain ⟨t0, ht0⟩ := h0
    rw [resolveLeafRef_of_typed _ _ t0 _ ht0]
    obtain ⟨k, rfl⟩ := Nat.exists_eq_add_of_le hfuel
    rw [Nat.add_comm n k, resolveLeafRefLoop_chain _ _ n c k hchain]
    exact resolveLeafRefLoop_stop _ _ _ t _ ht hk
  · intro c n err hchain hend fuel hfuel
    obtain ⟨t, ht, hk, hf⟩ := hend
    have h0 : ∃ t0, (c 0).Typ = some t0 := by
      cases n with
      | zero => exact ⟨t, ht⟩
      | succ m =>
        obtain ⟨t0, ht0, _⟩ := hchain 0 (Nat.succ_pos m)
        exact ⟨t0, ht0⟩
    obtain ⟨t0, ht0⟩ := h0
    rw [resolveLeafRef_of_typed _ _ t0 _ ht0]
    obtain ⟨k, rfl⟩ := Nat.exists_eq_add_of_le (Nat.succ_le_of_lt hfuel)
    rw [Nat.add_comm (n + 1) k, ← Nat.add_assoc, Nat.add_right_comm,
      resolveLeafRefLoop_chain _ _ n c (k + 1) hchain]
    exact resolveLeafRefLoop_fail _ _ _ t err k ht hk hf

/-- Witness for C8: under the sample lookup the leaf-ref "/r1" resolves through
"/r2" to the string leaf "/s". -/
theorem resolveLeafRef_spec_witness :
    resolveLeafRef sampleLookup 2 (some (typedLeaf "r1" .Yleafref "/r2")) =
      .done (some (typedLeaf "s" .Ystring ""), none) :=
  (resolveLeafRef_spec sampleLookup).2.2.1 sampleChain 2
    (fun i hi => by
      have hcases : i = 0 ∨ i = 1 := by omega
      rcases hcases with h | h
      · subst h
        exact ⟨_, rfl, rfl, rfl⟩
      · subst h
        exact ⟨_, rfl, rfl, rfl⟩)
    ⟨_, rfl, by decide⟩ 2 (Nat.le_refl 2)

theorem resolveLeafRefLoop_mono (findLeafRefSchema : Entry → GoString → Except Error Entry)
    (schema : Entry) :
    ∀ (fuel : Nat) (s : Entry),
      resolveLeafRefLoop findLeafRefSchema schema fuel s ≠ .outOfFuel →
      resolveLeafRefLoop findLeafRefSchema schema (fuel + 1) s =
        resolveLeafRefLoop findLeafRefSchema schema fuel s := by
  intro fuel
  induction fuel with
  | zero =>
    intro s h
    rw [resolveLeafRefLoop_zero] at h
    rw [resolveLeafRefLoop_succ, resolveLeafRefLoop_zero]
    cases ht : s.Typ with
    | none => rfl
    | some t =>
      rw [ht] at h
      by_cases hk : t.Kind = .Yleafref
      · simp [hk] at h
      · simp [hk]
  | succ n ih =>
    intro s h
    rw [resolveLeafRefLoop_succ] at h
    rw [resolveLeafRefLoop_succ findLeafRefSchema schema s (n + 1),
      resolveLeafRefLoop_succ findLeafRefSchema schema s n]
    cases ht : s.Typ with
    | none => rfl
    | some t =>
      rw [ht] at h
      by_cases hk : t.Kind = .Yleafref
      · simp only [hk, if_true] at h ⊢
        cases hf : findLeafRefSchema s t.Path with
        | error err => rfl
        | ok ns =>
          rw [hf] at h
          exact ih ns h
      · simp [hk]

theorem resolveLeafRefLoop_ends (findLeafRefSchema : Entry → GoString → Except Error Entry)
    (schema s : Entry) (h : LeafRefChainEnds findLeafRefSchema s) :
    ∃ fuel, resolveLeafRefLoop findLeafRefSchema schema fuel s ≠ .outOfFuel := by
  induction h with
  | stop s hs =>
    refine ⟨0, ?_⟩
    rw [resolveLeafRefLoop_zero]
    cases ht : s.Typ with
    | none => simp
    | some t => simp [hs t ht]
  | fail s t err ht hk hf =>
    refine ⟨1, ?_⟩
    rw [resolveLeafRefLoop_fail _ _ _ t err 0 ht hk hf]
    simp
  | step s ns t ht hk hf _ ih =>
    obtain ⟨fuel, hfuel⟩ := ih
    exact ⟨fuel + 1, by rw [resolveLeafRefLoop_step _ _ _ ns t fuel ht hk hf]; exact hfuel⟩

theorem LeafRefChainEnds_of_loop (findLeafRefSchema : Entry → GoString → Except Error Entry)
    (schema : Entry) :
    ∀ (fuel : Nat) (s : Entry),
      resolveLeafRefLoop findLeafRefSchema schema fuel s ≠ .outOfFuel →
      LeafRefChainEnds findLeafRefSchema s := by
  intro fuel
  induction fuel with
  | zero =>
    intro s h
    rw [resolveLeafRefLoop_zero] at h
    apply LeafRefChainEnds.stop
    intro t ht hk
    rw [ht] at h
    simp [hk] at h
  | succ n ih =>
    intro s h
    rw [resolveLeafRefLoop_succ] at h
    cases ht : s.Typ with
    | none =>
      apply LeafRefChainEnds.stop
      intro t ht2
      rw [ht] at ht2
      cases ht2
    | some t =>
      rw [ht] at h
      by_cases hk : t.Kind = .Yleafref
      · simp only [hk, if_true] at h
        cases hf : findLeafRefSchema s t.Path with
        | error err => exact LeafRefChainEnds.fail s t err ht hk hf
        | ok ns =>
          rw [hf] at h
          exact LeafRefChainEnds.step s ns t ht hk hf (ih ns h)
      · apply LeafRefChainEnds.stop
        intro t2 ht2
        rw [ht] at ht2
        cases ht2
        exact hk

theorem resolveLeafRefLoop_stable (findLeafRefSchema : Entry → GoString → Except Error Entry)
    (schema s : Entry) (fuel : Nat)
    (h : resolveLeafRefLoop findLeafRefSchema schema fuel s ≠ .outOfFuel) :
    ∀ k, resolveLeafRefLoop findLeafRefSchema schema (fuel + k) s =
      resolveLeafRefLoop findLeafRefSchema schema fuel s := by
  intro k
  induction k with
  | zero => rfl
  | succ k ih =>
    rw [← Nat.add_assoc, resolveLeafRefLoop_mono _ _ _ _ (by rw [ih]; exact h), ih]

/-- C9 (amended): resolveLeafRef has no cycle protection.  A call on a nil schema
returns at once; a call on a schema stops (it returns, or panics on a target
without a type) for some amount of fuel exactly when the chain of leaf-ref
targets from the schema comes to an end, at a node that is not a leaf-ref or
at a lookup that fails, and then every larger amount of fuel gives the same
outcome; on a chain that never ends it runs forever. -/
theorem resolveLeafRef_terminates_iff
    (findLeafRefSchema : Entry → GoString → Except Error Entry) (schema : Entry) :
    (∀ fuel, resolveLeafRef findLeafRefSchema fuel none = .done (none, none)) ∧
    ((∃ fuel, resolveLeafRef findLeafRefSchema fuel (some schema) ≠ .outOfFuel) ↔
      LeafRefChainEnds findLeafRefSchema schema) ∧
    (∀ fuel, resolveLeafRef findLeafRefSchema fuel (some schema) ≠ .outOfFuel →
      ∀ k, resolveLeafRef findLeafRefSchema (fuel + k) (some schema) =
        resolveLeafRef findLeafRefSchema fuel (some schema)) := by
  refine ⟨fun _ => rfl, ?_, ?_⟩
  · cases ht : schema.Typ with
    | none =>
      constructor
      · intro _
        apply LeafRefChainEnds.stop
        intro t ht2
        rw [ht] at ht2
        cases ht2
      · intro _
        refine ⟨0, ?_⟩
        unfold resolveLeafRef
        simp [ht]
    | some t =>
      constructor
      · rintro ⟨fuel, h⟩
        rw [resolveLeafRef_of_typed _ _ t _ ht] at h
        exact LeafRefChainEnds_of_loop _ _ fuel schema h
      · intro h
        obtain ⟨fuel, hfuel⟩ := resolveLeafRefLoop_ends findLeafRefSchema schema schema h
        exact ⟨fuel, by rw [resolveLeafRef_of_typed _ _ t _ ht]; exact hfuel⟩
  · intro fuel h k
    cases ht : schema.Typ with
    | none =>
      unfold resolveLeafRef
      simp [ht]
    | some t =>
      rw [resolveLeafRef_of_typed _ _ t _ ht] at h ⊢
      rw [resolveLeafRef_of_typed _ _ t _ ht]
      exact resolveLeafRefLoop_stable _ _ _ fuel h k

theorem resolveLeafRefLoop_cycle :
    ∀ (fuel : Nat) (schema : Entry),
      resolveLeafRefLoop sampleLookup schema fuel (typedLeaf "a" .Yleafref "/b") =
        .outOfFuel ∧
      resolveLeafRefLoop sampleLookup schema fuel (typedLeaf "b" .Yleafref "/a") =
        .outOfFuel := by
  intro fuel
  induction fuel with
  | zero =>
    intro schema
    exact ⟨rfl, rfl⟩
  | succ n ih =>
    intro schema
    constructor
    · rw [resolveLeafRefLoop_step sampleLookup schema (typedLeaf "a" .Yleafref "/b")
        (typedLeaf "b" .Yleafref "/a")
        { Kind := .Yleafref, Length := [], Path := "/b".toList } n rfl rfl rfl]
      exact (ih schema).2
    · rw [resolveLeafRefLoop_step sampleLookup schema (typedLeaf "b" .Yleafref "/a")
        (typedLeaf "a" .Yleafref "/b")
        { Kind := .Yleafref, Length := [], Path := "/a".toList } n rfl rfl rfl]
      exact (ih schema).1

/-- C9 as stated fails on a cycle: with "/a" a leaf-ref to "/b" and "/b" a
leaf-ref to "/a", no amount of fuel lets resolveLeafRef on "/a" return or
panic. -/
theorem resolveLeafRef_cycle_counterexample :
    ¬ ∃ fuel, resolveLeafRef sampleLookup fuel (some (typedLeaf "a" .Yleafref "/b")) ≠
      .outOfFuel := by
  rintro ⟨fuel, h⟩
  apply h
  rw [resolveLeafRef_of_typed sampleLookup (typedLeaf "a" .Yleafref "/b")
    { Kind := .Yleafref, Length := [], Path := "/b".toList } fuel rfl]
  exact (resolveLeafRefLoop_cycle fuel _).1

theorem validateLengthRange_eq_none_iff (name : GoString) (r : YRange) :
    validateLengthRange name r = none ↔ LengthIntervalOk r := by
  obtain ⟨⟨mk, mv⟩, ⟨xk, xv⟩⟩ := r
  cases mk <;> cases xk <;>
    simp [validateLengthRange, LengthIntervalOk, Number.Less]

theorem validateLengthSchemaLoop_eq_none_iff (name : GoString) (rs : List YRange) :
    validateLengthSchemaLoop name rs = none ↔ ∀ r ∈ rs, LengthIntervalOk r := by
  induction rs with
  | nil => simp [validateLengthSchemaLoop]
  | cons r rest ih =>
    unfold validateLengthSchemaLoop
    cases hr : validateLengthRange name r with
    | none =>
      have hok := (validateLengthRange_eq_none_iff name r).mp hr
      simp only [List.mem_cons, forall_eq_or_imp, hok, true_and]
      exact ih
    | some err =>
      have hbad : ¬ LengthIntervalOk r := fun h => by
        rw [(validateLengthRange_eq_none_iff name r).mpr h] at hr
        cases hr
      simp [hbad]

theorem validateLengthSchemaLoop_first (name : GoString) (r : YRange) (post : List YRange) :
    ∀ (pre : List YRange), (∀ q ∈ pre, LengthIntervalOk q) →
      validateLengthSchemaLoop name (pre ++ r :: post) =
        match validateLengthRange name r with
        | some err => some err
        | none => validateLengthSchemaLoop name post := by
  intro pre
  induction pre with
  | nil =>
    intro _
    simp only [List.nil_append]
    conv => lhs; unfold validateLengthSchemaLoop
  | cons q rest ih =>
    intro h
    have hq := (validateLengthRange_eq_none_iff name q).mpr (h q (List.mem_cons_self _ _))
    simp only [List.cons_append]
    conv => lhs; unfold validateLengthSchemaLoop
    rw [hq]
    exact ih (fun x hx => h x (List.mem_cons_of_mem _ hx))

theorem validateLengthSchema_of_typed (schema : Entry) (t : YangType)
    (ht : schema.Typ = some t) :
    validateLengthSchema schema = .done (validateLengthSchemaLoop schema.Name t.Length) := by
  unfold validateLengthSchema
  simp only [ht]
  split
  · rename_i h
    rw [List.length_eq_zero.mp h]
    rfl
  · rfl

/-- C10: for a schema with a type, validateLengthSchema returns no error if and
only if every length interval has a lower bound that is the minimum sentinel or
a non-negative number, an upper bound that is the maximum sentinel or a
non-negative number, and an upper bound not less than the lower bound; a schema
with no length intervals is accepted; and the error returned is the one of the
first violating interval in list order. -/
theorem validateLengthSchema_spec (schema : Entry) (t : YangType)
    (ht : schema.Typ = some t) :
    (validateLengthSchema schema = .done none ↔ ∀ r ∈ t.Length, LengthIntervalOk r) ∧
    (t.Length = [] → validateLengthSchema schema = .done none) ∧
    (∀ pre r post, t.Length = pre ++ r :: post → (∀ q ∈ pre, LengthIntervalOk q) →
      ¬ LengthIntervalOk r →
      ∃ err, validateLengthRange schema.Name r = some err ∧
        validateLengthSchema schema = .done (some err)) := by
  rw [validateLengthSchema_of_typed schema t ht]
  refine ⟨?_, ?_, ?_⟩
  · rw [← validateLengthSchemaLoop_eq_none_iff schema.Name t.Length]
    constructor
    · intro h
      injection h
    · intro h
      rw [h]
  · intro h
    rw [h]
    rfl
  · intro pre r post hsplit hpre hbad
    rw [hsplit, validateLengthSchemaLoop_first schema.Name r post pre hpre]
    cases hr : validateLengthRange schema.Name r with
    | none => exact absurd ((validateLengthRange_eq_none_iff _ r).mp hr) hbad
    | some err => exact ⟨err, rfl, rfl⟩

/-- Witness for C10: a string leaf with the intervals [min, 10] and [20, max] is
accepted, and with [min, 10], [5, 3], [7, 1] the error is that of [5, 3]. -/
theorem validateLengthSchema_spec_witness :
    validateLengthSchema (lengthLeaf goodLengths) = .done none ∧
    ∃ err, validateLengthRange "name".toList ⟨⟨.Positive, 5⟩, ⟨.Positive, 3⟩⟩ = some err ∧
      validateLengthSchema (lengthLeaf badLengths) = .done (some err) :=
  ⟨(validateLengthSchema_spec (lengthLeaf goodLengths) (lengthType goodLengths) rfl).1.mpr
     (by decide),
   (validateLengthSchema_spec (lengthLeaf badLengths) (lengthType badLengths) rfl).2.2
     [⟨⟨.MinNumber, 0⟩, ⟨.Positive, 10⟩⟩] ⟨⟨.Positive, 5⟩, ⟨.Positive, 3⟩⟩
     [⟨⟨.Positive, 7⟩, ⟨.Positive, 1⟩⟩] rfl (by decide) (by decide)⟩

/-- The equations of forEachSchemaNodeInternal are the arms of its `switch`: on a
value that passed the nil check, struct or struct pointer, slice and map are
told apart by the classification predicates as by the shape of the value. -/
theorem switch_arms (v : Value) (h : util.IsNilOrInvalidValue v = false) :
    ((util.IsValueStruct v || util.IsValueStructPtr v) = true ↔
      ∃ fields, v = .struct fields ∨ v = .ptr (.struct fields)) ∧
    (util.IsValueSlice v = true ↔ ∃ elems, v = .slice elems) ∧
    (util.IsValueMap v = true ↔ ∃ entries, v = .map entries) ∧
    ((∃ fields, v = .ptr (.struct fields)) → derefIfStructPtr v = .struct
      (match v with
        | .ptr (.struct fields) => fields
        | _ => [])) := by
  cases v with
  | ptr w =>
    cases w <;>
      simp [util.IsValueStruct, util.IsValueStructPtr, util.IsValueSlice, util.IsValueMap,
        derefIfStructPtr]
  | nilSlice => cases h
  | nilMap => cases h
  | _ =>
    simp_all [util.IsValueStruct, util.IsValueStructPtr, util.IsValueSlice, util.IsValueMap,
      util.IsNilOrInvalidValue, util.IsValueNil]

theorem forEachSchemaNodeInternal_fst {σ : Type} (iterFunction : SchemaNodeIteratorFunc σ)
    (v : Value) (ni : SchemaNodeInfo) (st : σ) :
    (forEachSchemaNodeInternal iterFunction v ni st).1 = [] := by
  unfold forEachSchemaNodeInternal
  split <;> (split <;> rfl)

/-- C1 on the code: the walk ends in `return nil`, so ForEachSchemaNode returns
an empty error list for every schema, value, visitor and state.  At a scalar
root the failing visitor is called once and its error is not returned; at a
record whose first field has no path tag the child-schema error of that field
is not returned either, while the root and the second field are visited. -/
theorem ForEachSchemaNode_returns_nil :
    (∀ (σ : Type) (schema : Entry) (value : Value)
        (iterFunction : SchemaNodeIteratorFunc σ) (st : σ),
      (ForEachSchemaNode schema value iterFunction st).1 = []) ∧
    ForEachSchemaNode (leafEntry "a") (.int 1) failingVisitor 0 = ([], 1) ∧
    (childSchema systemSchema { Name := "A".toList, Tag := [] }).2 =
      some (.noPath "A".toList) ∧
    ForEachSchemaNode systemSchema sampleRecord countingVisitor 0 = ([], 2) := by
  refine ⟨?_, rfl, rfl, rfl⟩
  intro σ schema value iterFunction st
  unfold ForEachSchemaNode
  split
  · rfl
  · exact forEachSchemaNodeInternal_fst _ _ _ _

/-- C11: for every interval [Min, Max] and every value v, isInRange returns true
if and only if v is neither above Max nor below Min in the order of the
numbers, both ends inclusive; for bounds and a value in normal form this is
Min <= v and v <= Max in the number order of integers with the two sentinels;
over [10, 20] it accepts 10 and 20 and rejects 9 and 21. -/
theorem isInRange_spec (yr : YRange) (v : Number) :
    (isInRange yr v = true ↔ yr.Max.Less v = false ∧ v.Less yr.Min = false) ∧
    (yr.Min.Normal → yr.Max.Normal → v.Normal →
      (isInRange yr v = true ↔ NumberLE yr.Min v ∧ NumberLE v yr.Max)) ∧
    isInRange tenToTwenty (FromUint 10) = true ∧
    isInRange tenToTwenty (FromUint 20) = true ∧
    isInRange tenToTwenty (FromUint 9) = false ∧
    isInRange tenToTwenty (FromUint 21) = false := by
  refine ⟨?_, ?_, by decide, by decide, by decide, by decide⟩
  · obtain ⟨⟨mk, mv⟩, ⟨xk, xv⟩⟩ := yr
    obtain ⟨vk, vv⟩ := v
    cases mk <;> cases xk <;> cases vk <;>
      simp [isInRange, Number.Less, Number.Equal] <;> omega
  · intro hmin hmax hv
    obtain ⟨⟨mk, mv⟩, ⟨xk, xv⟩⟩ := yr
    obtain ⟨vk, vv⟩ := v
    cases mk <;> cases xk <;> cases vk <;>
      simp [isInRange, Number.Less, Number.Equal, NumberLE, Number.IsFinite, Number.toInt,
        Number.Normal] at * <;> omega

/-- Witness for C11: 15 lies in [10, 20]. -/
theorem isInRange_spec_witness : isInRange tenToTwenty (FromUint 15) = true :=
  ((isInRange_spec tenToTwenty (FromUint 15)).2.1 (by decide) (by decide) (by decide)).mpr
    (by decide)

theorem isInRangesLoop_eq_true_iff (yrs : List YRange) (v : Number) :
    isInRangesLoop yrs v = true ↔ ∃ yr ∈ yrs, isInRange yr v = true := by
  induction yrs with
  | nil => simp [isInRangesLoop]
  | cons yr rest ih =>
    unfold isInRangesLoop
    by_cases h : isInRange yr v = true
    · simp [h]
    · simp [h, ih]

/-- C12: isInRanges is true if and only if the interval list is empty or some
interval of the list contains the value under isInRange; lengthOk is isInRanges
applied to the unsigned number of the length, so an empty length restriction
accepts every length. -/
theorem isInRanges_spec (yrs : YangRange) (v : Number) (n : Nat) :
    (isInRanges yrs v = true ↔ yrs = [] ∨ ∃ yr ∈ yrs, isInRange yr v = true) ∧
    lengthOk yrs n = isInRanges yrs (FromUint n) ∧
    lengthOk [] n = true := by
  refine ⟨?_, rfl, rfl⟩
  unfold isInRanges
  cases yrs with
  | nil => simp
  | cons yr rest =>
    simp only [List.length_cons, Nat.add_one_ne_zero, if_false, isInRangesLoop_eq_true_iff]
    simp

theorem validateMinElements_append (ParseNumber : GoString → Except Error Number)
    (NumberInt : Number → Except Error Int) (name : GoString) (size : Nat)
    (errors : List Error) (bound : Option GoString) :
    validateMinElements ParseNumber NumberInt name size errors bound =
      errors ++ validateMinElements ParseNumber NumberInt name size [] bound := by
  unfold validateMinElements
  cases bound with
  | none => simp
  | some v =>
    simp only
    cases ParseNumber v with
    | error err => simp [util.AppendErr]
    | ok minN =>
      simp only
      cases NumberInt minN with
      | error err => simp [util.AppendErr]
      | ok min =>
        simp only
        split
        · simp [util.AppendErr]
        · split <;> simp [util.AppendErr]

theorem validateMaxElements_append (ParseNumber : GoString → Except Error Number)
    (NumberInt : Number → Except Error Int) (name : GoString) (size : Nat)
    (errors : List Error) (bound : Option GoString) :
    validateMaxElements ParseNumber NumberInt name size errors bound =
      errors ++ validateMaxElements ParseNumber NumberInt name size [] bound := by
  unfold validateMaxElements
  cases bound with
  | none => simp
  | some v =>
    simp only
    cases ParseNumber v with
    | error err => simp [util.AppendErr]
    | ok maxN =>
      simp only
      cases NumberInt maxN with
      | error err => simp [util.AppendErr]
      | ok max =>
        simp only
        split
        · simp [util.AppendErr]
        · split <;> simp [util.AppendErr]

/-- With list attributes and a sized value, the result of validateListAttr is
the errors of the minimum check followed by those of the maximum check, each
computed on its own. -/
theorem validateListAttr_eq (ParseNumber : GoString → Except Error Number)
    (NumberInt : Number → Except Error Int) (schema : Entry) (la : ListAttr)
    (value : Value) (n : Nat) (hla : schema.ListAttr = some la)
    (hn : listSize value = some n) :
    validateListAttr ParseNumber NumberInt (some schema) value =
      validateMinElements ParseNumber NumberInt schema.Name n [] la.MinElements ++
      validateMaxElements ParseNumber NumberInt schema.Name n [] la.MaxElements := by
  unfold validateListAttr
  simp only [hla, hn]
  exact validateMaxElements_append _ _ _ _ _ _

theorem validateMinElements_of_parsed (ParseNumber : GoString → Except Error Number)
    (NumberInt : Number → Except Error Int) (name v : GoString) (size : Nat)
    (minN : Number) (m : Int) (hp : ParseNumber v = .ok minN) (hi : NumberInt minN = .ok m) :
    validateMinElements ParseNumber NumberInt name size [] (some v) =
      if m < 0 then [.negativeMin name]
      else if (size : Int) < m then [.fewerThanMin name size m] else [] := by
  unfold validateMinElements
  simp only [hp, hi, util.AppendErr, List.nil_append]

theorem validateMaxElements_of_parsed (ParseNumber : GoString → Except Error Number)
    (NumberInt : Number → Except Error Int) (name v : GoString) (size : Nat)
    (maxN : Number) (m : Int) (hp : ParseNumber v = .ok maxN) (hi : NumberInt maxN = .ok m) :
    validateMaxElements ParseNumber NumberInt name size [] (some v) =
      if m < 0 then [.negativeMax name]
      else if (size : Int) > m then [.moreThanMax name size m] else [] := by
  unfold validateMaxElements
  simp only [hp, hi, util.AppendErr, List.nil_append]

/-- C13: for a schema with list attributes whose MinElements is declared and
parses to the integer m, and a value that is absent or a list or mapping with n
elements, the minimum check of validateListAttr contributes an error if and
only if m < 0 or n < m; when 0 <= m and n < m that error names the schema, the
observed count n and the required minimum m; the errors of the maximum check
follow.  For MinElements = 1 and an empty list the counts are 0 and 1. -/
theorem validateListAttr_min (ParseNumber : GoString → Except Error Number)
    (NumberInt : Number → Except Error Int) (schema : Entry) (la : ListAttr)
    (value : Value) (n : Nat) (v : GoString) (minN : Number) (m : Int)
    (hla : schema.ListAttr = some la) (hn : listSize value = some n)
    (hmin : la.MinElements = some v) (hp : ParseNumber v = .ok minN)
    (hi : NumberInt minN = .ok m) :
    (∃ minErrs, validateListAttr ParseNumber NumberInt (some schema) value =
        minErrs ++ validateMaxElements ParseNumber NumberInt schema.Name n [] la.MaxElements ∧
      (minErrs ≠ [] ↔ (m < 0 ∨ (n : Int) < m)) ∧
      (m < 0 → minErrs = [.negativeMin schema.Name]) ∧
      (0 ≤ m → (n : Int) < m → minErrs = [.fewerThanMin schema.Name n m])) ∧
    validateListAttr sampleParseNumber sampleNumberInt
      (some (boundedList (some "1") none)) (.slice []) =
      [.fewerThanMin "l".toList 0 1] ∧
    validateListAttr sampleParseNumber sampleNumberInt
      (some (boundedList (some "1") none)) .invalid =
      [.fewerThanMin "l".toList 0 1] := by
  refine ⟨?_, by decide, by decide⟩
  refine ⟨_, validateListAttr_eq _ _ schema la value n hla hn, ?_, ?_, ?_⟩
  · rw [hmin, validateMinElements_of_parsed _ _ _ _ _ minN m hp hi]
    by_cases h1 : m < 0
    · simp [h1]
    · by_cases h2 : (n : Int) < m
      · simp [h1, h2]
      · simp [h1, h2]
  · intro h1
    rw [hmin, validateMinElements_of_parsed _ _ _ _ _ minN m hp hi, if_pos h1]
  · intro h1 h2
    rw [hmin, validateMinElements_of_parsed _ _ _ _ _ minN m hp hi,
      if_neg (by omega), if_pos h2]

/-- Witness for C13: a list with min-elements 2 holding one element. -/
theorem validateListAttr_min_witness :
    ∃ minErrs, validateListAttr sampleParseNumber sampleNumberInt
        (some (boundedList (some "2") none)) (.slice [.int 7]) =
        minErrs ++ validateMaxElements sampleParseNumber sampleNumberInt
          (boundedList (some "2") none).Name 1 [] none ∧
      (minErrs ≠ [] ↔ ((2 : Int) < 0 ∨ ((1 : Nat) : Int) < 2)) ∧
      ((2 : Int) < 0 → minErrs = [.negativeMin (boundedList (some "2") none).Name]) ∧
      ((0 : Int) ≤ 2 → ((1 : Nat) : Int) < 2 →
        minErrs = [.fewerThanMin (boundedList (some "2") none).Name 1 2]) :=
  (validateListAttr_min sampleParseNumber sampleNumberInt (boundedList (some "2") none)
    { MinElements := some "2".toList, MaxElements := none } (.slice [.int 7]) 1
    "2".toList (FromUint 2) 2 rfl rfl rfl rfl rfl).1

theorem validateMinElements_eq_nil_iff (ParseNumber : GoString → Except Error Number)
    (NumberInt : Number → Except Error Int) (name : GoString) (n : Nat)
    (bound : Option GoString) :
    validateMinElements ParseNumber NumberInt name n [] bound = [] ↔
      ∀ v, bound = some v →
        ∃ minN m, ParseNumber v = .ok minN ∧ NumberInt minN = .ok m ∧ 0 ≤ m ∧ m ≤ (n : Int) := by
  cases bound with
  | none => simp [validateMinElements]
  | some v =>
    cases hp : ParseNumber v with
    | error err => simp [validateMinElements, hp, util.AppendErr]
    | ok minN =>
      cases hi : NumberInt minN with
      | error err => simp [validateMinElements, hp, hi, util.AppendErr]
      | ok m =>
        rw [validateMinElements_of_parsed _ _ _ _ _ minN m hp hi]
        constructor
        · intro h w hw
          cases hw
          have h1 : ¬ m < 0 := fun h1 => by simp [h1] at h
          have h2 : ¬ (n : Int) < m := fun h2 => by simp [h1, h2] at h
          exact ⟨minN, m, hp, hi, by omega, by omega⟩
        · intro h
          obtain ⟨minN2, m2, hp2, hi2, h0, hle⟩ := h v rfl
          rw [hp] at hp2
          cases hp2
          rw [hi] at hi2
          cases hi2
          rw [if_neg (by omega), if_neg (by omega)]

theorem validateMaxElements_eq_nil_iff (ParseNumber : GoString → Except Error Number)
    (NumberInt : Number → Except Error Int) (name : GoString) (n : Nat)
    (bound : Option GoString) :
    validateMaxElements ParseNumber NumberInt name n [] bound = [] ↔
      ∀ v, bound = some v →
        ∃ maxN m, ParseNumber v = .ok maxN ∧ NumberInt maxN = .ok m ∧ 0 ≤ m ∧ (n : Int) ≤ m := by
  cases bound with
  | none => simp [validateMaxElements]
  | some v =>
    cases hp : ParseNumber v with
    | error err => simp [validateMaxElements, hp, util.AppendErr]
    | ok maxN =>
      cases hi : NumberInt maxN with
      | error err => simp [validateMaxElements, hp, hi, util.AppendErr]
      | ok m =>
        rw [validateMaxElements_of_parsed _ _ _ _ _ maxN m hp hi]
        constructor
        · intro h w hw
          cases hw
          have h1 : ¬ m < 0 := fun h1 => by simp [h1] at h
          have h2 : ¬ (n : Int) > m := fun h2 => by simp [h1, h2] at h
          exact ⟨maxN, m, hp, hi, by omega, by omega⟩
        · intro h
          obtain ⟨maxN2, m2, hp2, hi2, h0, hle⟩ := h v rfl
          rw [hp] at hp2
          cases hp2
          rw [hi] at hi2
          cases hi2
          rw [if_neg (by omega), if_neg (by omega)]

/-- C14: for a schema with list attributes and an absent, list or mapping value
of size n, validateListAttr returns the errors of the minimum check followed by
those of the maximum check, each computed without regard to the other; the
result is empty if and only if every declared bound parses to a non-negative
integer and declared min <= n <= declared max; with min 5, max 2 and n 3 both
errors are returned, minimum first. -/
theorem validateListAttr_min_max (ParseNumber : GoString → Except Error Number)
    (NumberInt : Number → Except Error Int) (schema : Entry) (la : ListAttr)
    (value : Value) (n : Nat) (hla : schema.ListAttr = some la)
    (hn : listSize value = some n) :
    validateListAttr ParseNumber NumberInt (some schema) value =
      validateMinElements ParseNumber NumberInt schema.Name n [] la.MinElements ++
      validateMaxElements ParseNumber NumberInt schema.Name n [] la.MaxElements ∧
    (validateListAttr ParseNumber NumberInt (some schema) value = [] ↔
      (∀ v, la.MinElements = some v →
        ∃ minN m, ParseNumber v = .ok minN ∧ NumberInt minN = .ok m ∧ 0 ≤ m ∧ m ≤ (n : Int)) ∧
      (∀ v, la.MaxElements = some v →
        ∃ maxN m, ParseNumber v = .ok maxN ∧ NumberInt maxN = .ok m ∧ 0 ≤ m ∧ (n : Int) ≤ m)) ∧
    validateListAttr sampleParseNumber sampleNumberInt
      (some (boundedList (some "5") (some "2"))) (.slice [.int 1, .int 2, .int 3]) =
      [.fewerThanMin "l".toList 3 5, .moreThanMax "l".toList 3 2] := by
  refine ⟨validateListAttr_eq _ _ schema la value n hla hn, ?_, by decide⟩
  rw [validateListAttr_eq _ _ schema la value n hla hn, List.append_eq_nil,
    validateMinElements_eq_nil_iff, validateMaxElements_eq_nil_iff]

/-- Witness for C14: a list of two elements with min-elements 1 and max-elements
5 is accepted. -/
theorem validateListAttr_min_max_witness :
    validateListAttr sampleParseNumber sampleNumberInt
      (some (boundedList (some "1") (some "5"))) (.slice [.int 1, .int 2]) = [] :=
  (validateListAttr_min_max sampleParseNumber sampleNumberInt
    (boundedList (some "1") (some "5"))
    { MinElements := some "1".toList, MaxElements := some "5".toList }
    (.slice [.int 1, .int 2]) 2 rfl rfl).2.1.mpr
    ⟨fun v hv => ⟨FromUint 1, 1, by cases hv; rfl, rfl, by decide, by decide⟩,
     fun v hv => ⟨FromUint 5, 5, by cases hv; rfl, rfl, by decide, by decide⟩⟩

theorem listSize_eq_none (value : Value) (hpresent : value ≠ .invalid)
    (hslice : util.IsValueSlice value = false) (hmap : util.IsValueMap value = false) :
    listSize value = none := by
  cases value <;> simp_all [listSize, util.IsValueSlice, util.IsValueMap]

/-- C15: validateListAttr returns exactly one error, and no error of a min/max
check, when the schema is nil, when the schema has no list attributes, and when
the value is present but is neither an ordered list nor a keyed mapping; so an
integer against declared bounds "5" and "2" gives the single type error. -/
theorem validateListAttr_malformed (ParseNumber : GoString → Except Error Number)
    (NumberInt : Number → Except Error Int) (value : Value) :
    validateListAttr ParseNumber NumberInt none value = [.schemaNil] ∧
    (∀ schema : Entry, schema.ListAttr = none →
      validateListAttr ParseNumber NumberInt (some schema) value =
        [.listAttrNil schema.Name]) ∧
    (∀ (schema : Entry) (la : ListAttr), schema.ListAttr = some la →
      value ≠ .invalid → util.IsValueSlice value = false → util.IsValueMap value = false →
      validateListAttr ParseNumber NumberInt (some schema) value =
        [.notMapOrSlice schema.Name]) ∧
    validateListAttr sampleParseNumber sampleNumberInt
      (some (boundedList (some "5") (some "2"))) (.int 3) = [.notMapOrSlice "l".toList] := by
  refine ⟨rfl, ?_, ?_, by decide⟩
  · intro schema h
    unfold validateListAttr
    simp only [h]
    rfl
  · intro schema la h hp hs hm
    unfold validateListAttr
    simp only [h, listSize_eq_none value hp hs hm]
    rfl

/-- Witness for C15: a leaf schema (no list attributes) and a string value. -/
theorem validateListAttr_malformed_witness :
    validateListAttr sampleParseNumber sampleNumberInt (some (leafEntry "x"))
      (.string "v".toList) = [.listAttrNil "x".toList] :=
  (validateListAttr_malformed sampleParseNumber sampleNumberInt (.string "v".toList)).2.1
    (leafEntry "x") rfl

end ytypes

namespace ygot

open reflect

theorem extractInnerLoop_walk (more : List GoString) :
    ∀ (ps : List GoString) (d : JSONObject) (iface : JSONValue),
      walkSegments (ps ++ more) d iface =
        match extractInnerLoop ps d iface with
        | .returned r => r
        | .next d2 iface2 => walkSegments more d2 iface2 := by
  intro ps
  induction ps with
  | nil =>
    intro d iface
    rfl
  | cons p ps ih =>
    intro d iface
    simp only [List.cons_append, walkSegments, extractInnerLoop]
    cases mapIndex d p with
    | object d2 => exact ih d2 (.object d2)
    | null => rfl
    | bool b => rfl
    | number n => rfl
    | string s => rfl
    | array xs => rfl

theorem extractOuterLoop_eq_walk :
    ∀ (els : List GoString) (d : JSONObject) (iface : JSONValue),
      extractOuterLoop els d iface = walkSegments (pathSegments els) d iface := by
  intro els
  induction els with
  | nil =>
    intro d iface
    rfl
  | cons el els ih =>
    intro d iface
    simp only [extractOuterLoop, pathSegments]
    rw [extractInnerLoop_walk]
    cases extractInnerLoop (strings.Split el '/') d iface with
    | returned r => rfl
    | next d2 iface2 => exact ih d2 iface2

theorem walkSegments_stop (seg : GoString) (post : List GoString) :
    ∀ (pre : List GoString) (d d2 : JSONObject) (iface : JSONValue),
      descend d pre = some d2 → (mapIndex d2 seg).isObject = false →
      walkSegments (pre ++ seg :: post) d iface = mapIndex d2 seg := by
  intro pre
  induction pre with
  | nil =>
    intro d d2 iface hd hno
    simp only [descend, Option.some.injEq] at hd
    subst hd
    simp only [List.nil_append, walkSegments]
    cases h : mapIndex d seg with
    | object o => rw [h] at hno; cases hno
    | null => rfl
    | bool b => rfl
    | number n => rfl
    | string s => rfl
    | array xs => rfl
  | cons p pre ih =>
    intro d d2 iface hd hno
    simp only [descend] at hd
    simp only [List.cons_append, walkSegments]
    cases h : mapIndex d p with
    | object o =>
      rw [h] at hd
      exact ih o d2 (.object o) hd hno
    | null => rw [h] at hd; cases hd
    | bool b => rw [h] at hd; cases hd
    | number n => rw [h] at hd; cases hd
    | string s => rw [h] at hd; cases hd
    | array xs => rw [h] at hd; cases hd

theorem walkSegments_all :
    ∀ (segs : List GoString) (d dlast : JSONObject) (iface : JSONValue),
      segs ≠ [] → descend d segs = some dlast →
      walkSegments segs d iface = .object dlast := by
  intro segs
  induction segs with
  | nil =>
    intro d dlast iface hne
    exact absurd rfl hne
  | cons p ps ih =>
    intro d dlast iface _ hd
    simp only [descend] at hd
    simp only [walkSegments]
    cases h : mapIndex d p with
    | object o =>
      rw [h] at hd
      cases ps with
      | nil =>
        simp only [descend, Option.some.injEq] at hd
        subst hd
        rfl
      | cons q qs => exact ih o dlast (.object o) (List.cons_ne_nil _ _) hd
    | null => rw [h] at hd; cases hd
    | bool b => rw [h] at hd; cases hd
    | number n => rw [h] at hd; cases hd
    | string s => rw [h] at hd; cases hd
    | array xs => rw [h] at hd; cases hd

theorem pathSegments_ne_nil (els : List GoString) (h : els ≠ []) : pathSegments els ≠ [] := by
  cases els with
  | nil => exact absurd rfl h
  | cons el rest =>
    simp only [pathSegments]
    intro hnil
    exact ytypes.Split_ne_nil el '/' (List.append_eq_nil.mp hnil).1

/-- C18: extractInterfaceByPath walks the segments of the path (the
'/'-separated parts of its '|'-separated elements) in order through nested
mappings: when the segments before one lead through nested mappings and the
value looked up at that segment is not a mapping (a scalar, a list, or nil for
a missing key), that value is returned and the remaining segments are ignored;
when every segment resolves to a nested mapping, the mapping reached by the
last segment is returned. -/
theorem extractInterfaceByPath_spec (data : JSONObject) (path : GoString) :
    (∀ (pre : List GoString) (seg : GoString) (post : List GoString) (d2 : JSONObject),
      pathSegments (strings.Split path '|') = pre ++ seg :: post →
      descend data pre = some d2 → (mapIndex d2 seg).isObject = false →
      extractInterfaceByPath data path = mapIndex d2 seg) ∧
    (∀ dlast : JSONObject, descend data (pathSegments (strings.Split path '|')) = some dlast →
      extractInterfaceByPath data path = .object dlast) := by
  unfold extractInterfaceByPath
  rw [extractOuterLoop_eq_walk]
  constructor
  · intro pre seg post d2 hsplit hd hno
    rw [hsplit]
    exact walkSegments_stop seg post pre data d2 .null hd hno
  · intro dlast hd
    exact walkSegments_all _ data dlast .null
      (pathSegments_ne_nil _ (ytypes.Split_ne_nil path '|')) hd

/-- Witness for C18: in {"child": {"field-one": "x", "field-two": 7}} the path
"child/field-two/more" stops at the number 7, and "child" gives the nested
mapping. -/
theorem extractInterfaceByPath_spec_witness :
    extractInterfaceByPath (testOneDoc "x".toList 7) "child/field-two/more".toList =
      .number 7 ∧
    extractInterfaceByPath (testOneDoc "x".toList 7) "child".toList =
      .object [("field-one".toList, .string "x".toList), ("field-two".toList, .number 7)] :=
  ⟨(extractInterfaceByPath_spec (testOneDoc "x".toList 7) "child/field-two/more".toList).1
      ["child".toList] "field-two".toList ["more".toList]
      [("field-one".toList, .string "x".toList), ("field-two".toList, .number 7)]
      rfl rfl rfl,
   (extractInterfaceByPath_spec (testOneDoc "x".toList 7) "child".toList).2 _ rfl⟩

/-- The error constructGoStruct returns is always nil: the value returned by
constructGoStructValue is dropped and nothing is added to `errs`. -/
theorem constructGoStruct_err_none :
    ∀ (decl : List (StructField × GoType)) (vals : Fields) (pmod : GoString)
      (j : JSONObject) (r : Fields) (e : Option ytypes.Error),
      constructGoStruct decl vals pmod j = .done (r, e) → e = none := by
  intro decl
  induction decl with
  | nil =>
    intro vals pmod j r e h
    simp only [constructGoStruct] at h
    injection h with h
    injection h with _ h2
    exact h2.symm
  | cons d rest ih =>
    intro vals pmod j r e h
    obtain ⟨fType, t⟩ := d
    cases vals with
    | nil =>
      simp only [constructGoStruct] at h
      injection h with h
      injection h with _ h2
      exact h2.symm
    | cons nv vals =>
      obtain ⟨name, field⟩ := nv
      simp only [constructGoStruct] at h
      split at h
      · split at h
        · rename_i vals2 err hrec
          injection h with h
          injection h with _ h2
          rw [← h2]
          exact ih vals pmod j vals2 err hrec
        · cases h
        · cases h
      · cases h
      · cases h

theorem structTagToLibPaths_of_tag (fType : StructField) (path : GoString)
    (htag : fType.TagLookup "path".toList = some path) :
    ∃ ps, structTagToLibPaths fType = .ok ps := by
  unfold structTagToLibPaths
  rw [htag]
  exact ⟨_, rfl⟩

/-- C16: for the zero-value record whose optional-record field Child has the tag
"child" and whose nested optional-string field FieldOne and optional-unsigned
(32-bit) field FieldTwo have the tags "field-one" and "field-two", UnmarshalJSON
of a buffer that decodes to {"child": {"field-one": s, "field-two": n}} returns
no error and leaves Child present with FieldOne = s and FieldTwo = n, for every
string s and every n the field's kind can hold. -/
theorem UnmarshalJSON_testOne (jsonUnmarshal : GoString → Except ytypes.Error JSONObject)
    (b s : GoString) (n : Int) (f : JSONFormat)
    (hparse : jsonUnmarshal b = .ok (testOneDoc s n)) (h0 : 0 ≤ n) (h1 : n < 2 ^ 32) :
    UnmarshalJSON jsonUnmarshal b testOneDecl (ZeroFields testOneDecl) f =
      .done (testOneBound s n, none) := by
  unfold UnmarshalJSON
  rw [hparse]
  have hrun : constructGoStruct testOneDecl (ZeroFields testOneDecl) [] (testOneDoc s n) =
      .done (testOneBound s (n % 2 ^ 32), none) := rfl
  simp only [hrun, Int.emod_eq_of_lt h0 h1]

/-- Witness for C16: s = "hello" and n = 42. -/
theorem UnmarshalJSON_testOne_witness :
    UnmarshalJSON (fun _ => .ok (testOneDoc "hello".toList 42)) [] testOneDecl
      (ZeroFields testOneDecl) .Internal = .done (testOneBound "hello".toList 42, none) :=
  UnmarshalJSON_testOne (fun _ => .ok (testOneDoc "hello".toList 42)) [] "hello".toList 42
    .Internal rfl (by decide) (by decide)

/-- C17 on the code: for the text "forty two" at the path of the plain unsigned
field FieldTwo, constructGoStructValue builds the type-mismatch error and
leaves the field alone, but constructGoStruct drops what it returns, so
UnmarshalJSON returns no error, at the top level and one level down; no call of
constructGoStruct ever returns an error; and for an optional unsigned field the
assignment of the string pointer panics. -/
theorem UnmarshalJSON_text_into_numeric :
    constructGoStructValue (newGoStruct (.Uint 32)) (.Uint 32)
      (ytypes.pathField "FieldTwo" "field-two") (.int 0) [] textDoc =
      .done (.int 0, some (.unmarshalType "forty two".toList "field-two".toList
        "FieldTwo".toList)) ∧
    UnmarshalJSON (fun _ => .ok textDoc) [] plainNumericDecl (ZeroFields plainNumericDecl)
      .Internal = .done (ZeroFields plainNumericDecl, none) ∧
    UnmarshalJSON (fun _ => .ok nestedTextDoc) [] nestedNumericDecl
      (ZeroFields nestedNumericDecl) .Internal =
      .done ([(ytypes.pathField "Child" "child",
        .ptr (.struct (ZeroFields plainNumericDecl)))], none) ∧
    (∀ (decl : List (StructField × GoType)) (vals : Fields) (pmod : GoString)
      (j : JSONObject) (r : Fields) (e : Option ytypes.Error),
      constructGoStruct decl vals pmod j = .done (r, e) → e = none) ∧
    UnmarshalJSON (fun _ => .ok textDoc) [] optionalNumericDecl
      (ZeroFields optionalNumericDecl) .Internal = .panic :=
  ⟨rfl, rfl, rfl, constructGoStruct_err_none, rfl⟩

theorem constructGoStructValue_of_no_tag (recur : Option Binder) (t : GoType)
    (fType : StructField) (field : Value) (pmod : GoString) (j : JSONObject)
    (htag : fType.TagLookup "path".toList = none) :
    constructGoStructValue recur t fType field pmod j = .done (field, none) := by
  unfold constructGoStructValue
  rw [htag]

theorem constructGoStructValue_of_absent (recur : Option Binder) (t : GoType)
    (fType : StructField) (field : Value) (pmod : GoString) (j : JSONObject)
    (path : GoString) (htag : fType.TagLookup "path".toList = some path)
    (habs : extractInterfaceByPath j path = .null) :
    constructGoStructValue recur t fType field pmod j = .done (field, none) := by
  obtain ⟨ps, hps⟩ := structTagToLibPaths_of_tag fType path htag
  unfold constructGoStructValue
  rw [htag]
  simp only [hps, habs]

/-- C19: binding leaves a field exactly as it was, and reports nothing, when the
field carries no path tag and when the document value extracted at the field's
path is absent (nil), for every document, field type and prior value of the
field; in the record the field keeps its value and binding goes on with the
remaining fields. -/
theorem constructGoStructValue_untouched (t : GoType) (fType : StructField)
    (field : Value) (j : JSONObject)
    (h : fType.TagLookup "path".toList = none ∨
      ∃ path, fType.TagLookup "path".toList = some path ∧
        extractInterfaceByPath j path = .null) :
    (∀ (recur : Option Binder) (pmod : GoString),
      constructGoStructValue recur t fType field pmod j = .done (field, none)) ∧
    (∀ (rest : List (StructField × GoType)) (name : StructField) (vals : Fields)
      (parentMod : GoString),
      constructGoStruct ((fType, t) :: rest) ((name, field) :: vals) parentMod j =
        match constructGoStruct rest vals parentMod j with
        | .done (vals2, err) => .done ((name, field) :: vals2, err)
        | .panic => .panic
        | .outOfFuel => .outOfFuel) := by
  have hval : ∀ (recur : Option Binder) (pmod : GoString),
      constructGoStructValue recur t fType field pmod j = .done (field, none) := by
    intro recur pmod
    rcases h with h | ⟨path, htag, habs⟩
    · exact constructGoStructValue_of_no_tag recur t fType field pmod j h
    · exact constructGoStructValue_of_absent recur t fType field pmod j path htag habs
  refine ⟨hval, ?_⟩
  intro rest name vals parentMod
  simp only [constructGoStruct, hval]

/-- Witness for C19: the document {"field-two": "forty two"} holds nothing at
the path "field-one", and FieldOne = "old" stays as it was. -/
theorem constructGoStructValue_untouched_witness :
    constructGoStructValue none (.Ptr .String) (ytypes.pathField "FieldOne" "field-one")
      (.ptr (.string "old".toList)) [] textDoc =
      .done (.ptr (.string "old".toList), none) :=
  (constructGoStructValue_untouched (.Ptr .String) (ytypes.pathField "FieldOne" "field-one")
    (.ptr (.string "old".toList)) textDoc
    (Or.inr ⟨"field-one".toList, rfl, rfl⟩)).1 none []

theorem mapValueIndex_setMapIndex_self (k : GoString) (v : Value) :
    ∀ acc : List (Value × Value), mapValueIndex (setMapIndex acc k v) k = some v := by
  intro acc
  induction acc with
  | nil => simp [setMapIndex, mapValueIndex]
  | cons kv rest ih =>
    obtain ⟨key, val⟩ := kv
    cases key with
    | string k2 =>
      by_cases hk : k2 = k
      · simp [setMapIndex, mapValueIndex, hk]
      · simp [setMapIndex, mapValueIndex, hk, ih]
    | _ => simp [setMapIndex, mapValueIndex, ih]

theorem mapValueIndex_setMapIndex_other (k k2 : GoString) (v : Value) (hne : k2 ≠ k) :
    ∀ acc : List (Value × Value),
      mapValueIndex (setMapIndex acc k v) k2 = mapValueIndex acc k2 := by
  intro acc
  induction acc with
  | nil => simp [setMapIndex, mapValueIndex, hne.symm]
  | cons kv rest ih =>
    obtain ⟨key, val⟩ := kv
    cases key with
    | string k3 =>
      by_cases hk : k3 = k
      · subst hk
        simp [setMapIndex, mapValueIndex, hne.symm]
      · by_cases hk2 : k3 = k2
        · subst hk2
          simp [setMapIndex, mapValueIndex, hk]
        · simp [setMapIndex, mapValueIndex, hk, hk2, ih]
    | _ => simp [setMapIndex, mapValueIndex, ih]

theorem constructMapEntries_spec (bind : Binder) (pmod : GoString) (m : JSONObject) :
    ∀ (ks : List GoString) (acc : List (Value × Value)),
      (∀ k, k ∈ ks → ∃ o r, mapIndex m k = .object o ∧ bind pmod o = .done (r, none)) →
      ∃ entries, constructMapEntries (some bind) true pmod m ks acc = .done (.map entries, none) ∧
        (∀ k, k ∈ ks → ∀ o r, mapIndex m k = .object o → bind pmod o = .done (r, none) →
          mapValueIndex entries k = some (.ptr (.struct r))) ∧
        (∀ k, k ∉ ks → mapValueIndex entries k = mapValueIndex acc k) := by
  intro ks
  induction ks with
  | nil =>
    intro acc _
    exact ⟨acc, rfl, fun k hk => absurd hk (List.not_mem_nil k), fun _ _ => rfl⟩
  | cons k ks ih =>
    intro acc hall
    obtain ⟨o, r, ho, hr⟩ := hall k (List.mem_cons_self _ _)
    obtain ⟨entries, hrun, hin, hout⟩ :=
      ih (setMapIndex acc k (.ptr (.struct r))) (fun k2 hk2 => hall k2 (List.mem_cons_of_mem _ hk2))
    refine ⟨entries, ?_, ?_, ?_⟩
    · simp only [constructMapEntries, ho, hr, if_true]
      exact hrun
    · intro k2 hk2 o2 r2 ho2 hr2
      by_cases hmem : k2 ∈ ks
      · exact hin k2 hmem o2 r2 ho2 hr2
      · have hk : k2 = k := by
          rcases List.mem_cons.mp hk2 with h | h
          · exact h
          · exact absurd h hmem
        subst hk
        rw [ho] at ho2
        injection ho2 with ho2
        subst ho2
        rw [hr] at hr2
        injection hr2 with hr2
        injection hr2 with hr2 _
        subst hr2
        rw [hout k2 hmem]
        exact mapValueIndex_setMapIndex_self k2 _ acc
    · intro k2 hk2
      have hne : k2 ≠ k := fun h => hk2 (h ▸ List.mem_cons_self _ _)
      have hnot : k2 ∉ ks := fun h => hk2 (List.mem_cons_of_mem _ h)
      rw [hout k2 hnot]
      exact mapValueIndex_setMapIndex_other k k2 _ hne acc

/-- C20: when the document value at the path of a field is a nested mapping, the
field is a map from string to (pointers to) records, and each value of the
document mapping is itself a mapping whose binding onto a new zero record
returns, then binding returns no error and the field's map holds, for every key
of the document mapping, the record obtained by binding the sub-mapping at that
key onto a new zero record; the document {"n42": {"name": "n42",
"second-value": "val"}} gives the one entry "n42". -/
theorem constructGoStructValue_keyed_mapping (fs : List (StructField × GoType))
    (fType : StructField) (field : Value) (pmod path : GoString) (j m : JSONObject)
    (htag : fType.TagLookup "path".toList = some path)
    (hdoc : extractInterfaceByPath j path = .object m)
    (hsub : ∀ k v, (k, v) ∈ m → ∃ o r, mapIndex m k = .object o ∧
      constructGoStruct fs (ZeroFields fs) pmod o = .done (r, none)) :
    (∃ entries,
      constructGoStructValue (newGoStruct (.Map .String (.Ptr (.Struct fs))))
        (.Map .String (.Ptr (.Struct fs))) fType field pmod j = .done (.map entries, none) ∧
      ∀ k v, (k, v) ∈ m → ∀ o r, mapIndex m k = .object o →
        constructGoStruct fs (ZeroFields fs) pmod o = .done (r, none) →
        mapValueIndex entries k = some (.ptr (.struct r))) ∧
    constructGoStructValue (newGoStruct aclSetType) aclSetType aclSetField .nilMap []
      aclSetDoc =
      .done (.map [(.string "n42".toList, .ptr (.struct
        [(ytypes.pathField "Name" "name", .ptr (.string "n42".toList)),
         (ytypes.pathField "SecondValue" "second-value",
           .ptr (.string "val".toList))]))], none) := by
  refine ⟨?_, rfl⟩
  obtain ⟨ps, hps⟩ := structTagToLibPaths_of_tag fType path htag
  have hkeys : ∀ k, k ∈ m.map (fun kv => kv.1) → ∃ o r, mapIndex m k = .object o ∧
      (fun pmod j => constructGoStruct fs (ZeroFields fs) pmod j) pmod o = .done (r, none) := by
    intro k hk
    obtain ⟨kv, hkv, hfst⟩ := List.mem_map.mp hk
    obtain ⟨k0, v0⟩ := kv
    simp only at hfst
    subst hfst
    exact hsub k0 v0 hkv
  obtain ⟨entries, hrun, hin, _⟩ :=
    constructMapEntries_spec (fun pmod j => constructGoStruct fs (ZeroFields fs) pmod j)
      pmod m (m.map (fun kv => kv.1)) [] hkeys
  refine ⟨entries, ?_, ?_⟩
  · unfold constructGoStructValue
    rw [htag]
    simp only [hps, hdoc, newGoStruct, mapSettable]
    exact hrun
  · intro k v hkv o r ho hr
    exact hin k (List.mem_map.mpr ⟨(k, v), hkv, rfl⟩) o r ho hr

/-- Witness for C20: the field ACLSet bound from the document whose "acl-set"
holds the one entry "n42". -/
theorem constructGoStructValue_keyed_mapping_witness :
    ∃ entries,
      constructGoStructValue (newGoStruct aclSetType) aclSetType aclSetField .nilMap []
        aclSetDoc = .done (.map entries, none) ∧
      mapValueIndex entries "n42".toList = some (.ptr (.struct
        [(ytypes.pathField "Name" "name", .ptr (.string "n42".toList)),
         (ytypes.pathField "SecondValue" "second-value", .ptr (.string "val".toList))])) := by
  obtain ⟨entries, hrun, hall⟩ :=
    (constructGoStructValue_keyed_mapping aclSetDecl aclSetField .nilMap [] "acl-set".toList
      aclSetDoc
      [("n42".toList, .object
        [("name".toList, .string "n42".toList),
         ("second-value".toList, .string "val".toList)])]
      rfl rfl
      (fun k v hkv => by
        have h := List.mem_singleton.mp hkv
        injection h with hk _
        subst hk
        exact ⟨_, _, rfl, rfl⟩)).1
  exact ⟨entries, hrun, hall "n42".toList _ (List.mem_singleton.mpr rfl) _ _ rfl rfl⟩

end ygot

namespace ygot

open reflect

/-- C21 (amended): when the document value at the path of a field is an array,
binding leaves the field exactly as it was and reports no error, whatever the
kind of the field: the binding of ordered lists is not implemented. -/
theorem constructGoStructValue_array (recur : Option Binder) (t : GoType)
    (fType : StructField) (field : Value) (pmod path : GoString) (j : JSONObject)
    (elems : List JSONValue) (htag : fType.TagLookup "path".toList = some path)
    (hdoc : extractInterfaceByPath j path = .array elems) :
    constructGoStructValue recur t fType field pmod j = .done (field, none) := by
  obtain ⟨ps, hps⟩ := structTagToLibPaths_of_tag fType path htag
  unfold constructGoStructValue
  rw [htag]
  simp only [hps, hdoc]

/-- Witness for C21 (amended): a list that holds a nil element keeps it when the
document holds an array of one entry. -/
theorem constructGoStructValue_array_witness :
    constructGoStructValue (newGoStruct aclListType) aclListType aclSetField
      (.slice [.nilPtr]) [] aclListDoc = .done (.slice [.nilPtr], none) :=
  constructGoStructValue_array (newGoStruct aclListType) aclListType aclSetField
    (.slice [.nilPtr]) [] "acl-set".toList aclListDoc _ rfl rfl

/-- C21 as stated fails: the document holds an array of one entry at the path of
the ordered-list field, and after binding the field is still the nil list, not a
list of one bound record, and no error is reported. -/
theorem constructGoStructValue_array_counterexample :
    extractInterfaceByPath aclListDoc "acl-set".toList =
      .array [.object [("name".toList, .string "n42".toList),
        ("second-value".toList, .string "val".toList)]] ∧
    constructGoStructValue (newGoStruct aclListType) aclListType aclSetField .nilSlice []
      aclListDoc = .done (.nilSlice, none) ∧
    UnmarshalJSON (fun _ => .ok aclListDoc) [] [(aclSetField, aclListType)]
      [(aclSetField, .nilSlice)] .Internal = .done ([(aclSetField, .nilSlice)], none) :=
  ⟨rfl, rfl, rfl⟩

/-- C22 on the code: a document number bound to a field that is not a pointer
panics, whatever the field's type, so a plain numeric field is never set; for
a pointer field of a numeric kind storage is allocated and holds the converted
number.  The number 42 makes UnmarshalJSON panic on the plain 32-bit unsigned
field FieldTwo and sets the optional one to 42. -/
theorem constructGoStructValue_number :
    (∀ (recur : Option Binder) (t : GoType) (fType : StructField) (field : Value)
      (pmod path : GoString) (j : JSONObject) (n : Int),
      fType.TagLookup "path".toList = some path →
      extractInterfaceByPath j path = .number n → (∀ elem, t ≠ .Ptr elem) →
      constructGoStructValue recur t fType field pmod j = .panic) ∧
    (∀ (recur : Option Binder) (elem : GoType) (fType : StructField) (field : Value)
      (pmod path : GoString) (j : JSONObject) (n v : Int),
      fType.TagLookup "path".toList = some path →
      extractInterfaceByPath j path = .number n → convertNumber elem n = some v →
      constructGoStructValue recur (.Ptr elem) fType field pmod j =
        .done (.ptr (.int v), none)) ∧
    UnmarshalJSON (fun _ => .ok numberDoc) [] plainNumericDecl (ZeroFields plainNumericDecl)
      .Internal = .panic ∧
    UnmarshalJSON (fun _ => .ok numberDoc) [] optionalNumericDecl
      (ZeroFields optionalNumericDecl) .Internal =
      .done ([(ytypes.pathField "FieldTwo" "field-two", .ptr (.int 42))], none) := by
  refine ⟨?_, ?_, rfl, rfl⟩
  · intro recur t fType field pmod path j n htag hdoc hnot
    obtain ⟨ps, hps⟩ := structTagToLibPaths_of_tag fType path htag
    unfold constructGoStructValue
    rw [htag]
    cases t with
    | Ptr elem => exact absurd rfl (hnot elem)
    | _ => simp only [hps, hdoc]
  · intro recur elem fType field pmod path j n v htag hdoc hconv
    obtain ⟨ps, hps⟩ := structTagToLibPaths_of_tag fType path htag
    unfold constructGoStructValue
    rw [htag]
    simp only [hps, hdoc, hconv]

/-- C23: the format selector has no influence on binding: for every decoder,
input buffer, record type and record state, UnmarshalJSON with the format
Internal and with the format RFC7951 (indeed with any two formats) gives the
same outcome, that is the same error result and the same state of the
record. -/
theorem UnmarshalJSON_format_irrelevant
    (jsonUnmarshal : GoString → Except ytypes.Error JSONObject) (b : GoString)
    (decl : List (StructField × GoType)) (s : Fields) (f g : JSONFormat) :
    UnmarshalJSON jsonUnmarshal b decl s .Internal =
      UnmarshalJSON jsonUnmarshal b decl s .RFC7951 ∧
    UnmarshalJSON jsonUnmarshal b decl s f = UnmarshalJSON jsonUnmarshal b decl s g :=
  ⟨rfl, rfl⟩

end ygot

namespace ytypes

open yang reflect

theorem childSchemaResolve_of_walk (S stop : Entry) (p rem : List GoString)
    (hwalk : childSchemaWalk S p = (stop, rem, false)) (hlen : rem.length ≠ 1) :
    childSchemaResolve S p = (none, none) := by
  unfold childSchemaResolve
  rw [hwalk]
  simp only
  split
  · rename_i x
    exact absurd rfl hlen
  · rfl

/-- C30 on the code: the test for one segment is made on what is left of the
path where the direct walk stopped, not on the path.  The path of the tag "a/b"
has two segments, none of them the parent's name, the direct walk finds "a" and
fails at "b", and childSchema returns the leaf "b" found inside the choice "c"
of "a".  What holds is that a walk that stops with no or more than one segment
left gives no node and no error, as for the tag "zz/b". -/
theorem childSchema_fallback_after_partial_walk :
    pathToSchema (pathField "F" "a/b") = .ok ["a".toList, "b".toList] ∧
    stripParentName leafInChoiceBelowChild ["a".toList, "b".toList] =
      ["a".toList, "b".toList] ∧
    (childSchemaWalk leafInChoiceBelowChild ["a".toList, "b".toList]).2 =
      (["b".toList], false) ∧
    childSchema leafInChoiceBelowChild (pathField "F" "a/b") = (some (leafEntry "b"), none) ∧
    childSchema leafInChoiceBelowChild (pathField "F" "zz/b") = (none, none) ∧
    (∀ (S stop : Entry) (f : StructField) (p rem : List GoString),
      pathToSchema f = .ok p →
      childSchemaWalk S (stripParentName S p) = (stop, rem, false) → rem.length ≠ 1 →
      childSchema S f = (none, none)) :=
  ⟨rfl, rfl, rfl, rfl, rfl, fun S stop f p rem hp hwalk hlen => by
    rw [childSchema_of_path S f p hp]
    exact childSchemaResolve_of_walk S stop _ rem hwalk hlen⟩

end ytypes

namespace ytypes

open yang reflect

theorem forEachSliceElem_snd {σ : Type} (iterFunction : SchemaNodeIteratorFunc σ)
    (elems : List Value) (ni : SchemaNodeInfo) (errs : List Error) (st : σ) :
    (forEachSliceElem iterFunction elems ni errs st).2 =
      elems.foldl (fun s e =>
        (forEachSchemaNodeInternal iterFunction e { ni with FieldValue := e } s).2) st := by
  induction elems generalizing errs st with
  | nil => rfl
  | cons e rest ih =>
    rw [forEachSliceElem, List.foldl_cons]
    exact ih _ _

theorem forEachMapEntry_snd {σ : Type} (iterFunction : SchemaNodeIteratorFunc σ)
    (entries : List (Value × Value)) (keys : List Value) (ni : SchemaNodeInfo)
    (errs : List Error) (st : σ) :
    (forEachMapEntry iterFunction entries keys ni errs st).2 =
      entries.foldl (fun s kv =>
        (forEachSchemaNodeInternal iterFunction kv.2
          { ni with FieldValue := kv.2, FieldKey := kv.1, FieldKeys := keys } s).2) st := by
  induction entries generalizing errs st with
  | nil => rfl
  | cons kv rest ih =>
    obtain ⟨key, val⟩ := kv
    rw [forEachMapEntry, List.foldl_cons]
    exact ih _ _

theorem forEachStructField_snd {σ : Type} (iterFunction : SchemaNodeIteratorFunc σ)
    (fields : List (StructField × Value)) (ni : SchemaNodeInfo) (errs : List Error) (st : σ) :
    (forEachStructField iterFunction fields ni errs st).2 =
      fields.foldl (fun s ffv =>
        match childSchema ni.Schema ffv.1 with
        | (some cschema, none) =>
          (forEachSchemaNodeInternal iterFunction ffv.2
            { ni with Schema := cschema, Path := ni.Path ++ [cschema.Name],
                      ParentStruct := ni.FieldValue, FieldType := ffv.1,
                      FieldValue := ffv.2 } s).2
        | _ => s) st := by
  induction fields generalizing errs st with
  | nil => rfl
  | cons ffv rest ih =>
    obtain ⟨f, fv⟩ := ffv
    rw [forEachStructField, List.foldl_cons]
    split
    · rename_i c err heq
      rw [ih]
      simp only [heq]
    · rename_i heq
      rw [ih]
      simp only [heq]
    · rename_i c heq
      rw [ih]
      simp only [heq]

theorem forEachSchemaNodeInternal_of_absent {σ : Type} (iterFunction : SchemaNodeIteratorFunc σ)
    (v : Value) (ni : SchemaNodeInfo) (st : σ) (h : util.IsNilOrInvalidValue v = true) :
    forEachSchemaNodeInternal iterFunction v ni st = ([], st) := by
  unfold forEachSchemaNodeInternal
  split <;> simp only [h, if_true]

theorem forEachSchemaNodeInternal_of_present {σ : Type}
    (iterFunction : SchemaNodeIteratorFunc σ) (v : Value) (ni : SchemaNodeInfo) (st : σ)
    (h : util.IsNilOrInvalidValue v = false) :
    (forEachSchemaNodeInternal iterFunction v ni st).2 =
      forEachSchemaNodeSwitch iterFunction v { ni with FieldValue := v }
        (iterFunction { ni with FieldValue := v } st).2 := by
  cases v with
  | struct fields =>
    simp only [forEachSchemaNodeInternal, forEachSchemaNodeSwitch, h, Bool.false_eq_true,
      if_false, forEachStructField_snd]
  | slice elems =>
    simp only [forEachSchemaNodeInternal, forEachSchemaNodeSwitch, h, Bool.false_eq_true,
      if_false, forEachSliceElem_snd]
  | map entries =>
    simp only [forEachSchemaNodeInternal, forEachSchemaNodeSwitch, h, Bool.false_eq_true,
      if_false, forEachMapEntry_snd]
  | ptr w =>
    cases w <;>
      simp only [forEachSchemaNodeInternal, forEachSchemaNodeSwitch, h, Bool.false_eq_true,
        if_false, forEachStructField_snd]
  | _ =>
    simp only [forEachSchemaNodeInternal, forEachSchemaNodeSwitch, h, Bool.false_eq_true,
      if_false]

end ytypes

namespace ytypes

open yang reflect

theorem forEachStructField_errs {σ : Type} (iterFunction : SchemaNodeIteratorFunc σ)
    (fields : List (StructField × Value)) (ni : SchemaNodeInfo) (errs errs2 : List Error)
    (st : σ) :
    (forEachStructField iterFunction fields ni errs st).2 =
      (forEachStructField iterFunction fields ni errs2 st).2 := by
  rw [forEachStructField_snd, forEachStructField_snd]

theorem forEachSliceElem_errs {σ : Type} (iterFunction : SchemaNodeIteratorFunc σ)
    (elems : List Value) (ni : SchemaNodeInfo) (errs errs2 : List Error) (st : σ) :
    (forEachSliceElem iterFunction elems ni errs st).2 =
      (forEachSliceElem iterFunction elems ni errs2 st).2 := by
  rw [forEachSliceElem_snd, forEachSliceElem_snd]

theorem forEachMapEntry_errs {σ : Type} (iterFunction : SchemaNodeIteratorFunc σ)
    (entries : List (Value × Value)) (keys : List Value) (ni : SchemaNodeInfo)
    (errs errs2 : List Error) (st : σ) :
    (forEachMapEntry iterFunction entries keys ni errs st).2 =
      (forEachMapEntry iterFunction entries keys ni errs2 st).2 := by
  rw [forEachMapEntry_snd, forEachMapEntry_snd]

theorem forEachSchemaNodeInternal_logging_scalar {σ : Type}
    (iterFunction : SchemaNodeIteratorFunc σ) (v : Value) (ni : SchemaNodeInfo) (s : σ)
    (tr : List Visit)
    (hstruct : ∀ fields, v ≠ .struct fields) (hptr : ∀ fields, v ≠ .ptr (.struct fields))
    (hslice : ∀ elems, v ≠ .slice elems) (hmap : ∀ entries, v ≠ .map entries) :
    (forEachSchemaNodeInternal (loggingVisitor iterFunction) v ni (s, tr)).2 =
      ((forEachSchemaNodeInternal iterFunction v ni s).2,
        tr ++ specVisits v ni.Path ni.Schema) := by
  cases v with
  | struct fields => exact absurd rfl (hstruct fields)
  | slice elems => exact absurd rfl (hslice elems)
  | map entries => exact absurd rfl (hmap entries)
  | ptr w =>
    cases w with
    | struct fields => exact absurd rfl (hptr fields)
    | _ =>
      simp [forEachSchemaNodeInternal, specVisits, util.IsNilOrInvalidValue, util.IsValueNil,
        loggingVisitor]
  | _ =>
    simp [forEachSchemaNodeInternal, specVisits, util.IsNilOrInvalidValue, util.IsValueNil,
      loggingVisitor]

mutual
theorem forEachSchemaNodeInternal_logging {σ : Type} (iterFunction : SchemaNodeIteratorFunc σ) :
    ∀ (v : Value) (ni : SchemaNodeInfo) (s : σ) (tr : List Visit),
      (forEachSchemaNodeInternal (loggingVisitor iterFunction) v ni (s, tr)).2 =
        ((forEachSchemaNodeInternal iterFunction v ni s).2,
          tr ++ specVisits v ni.Path ni.Schema)
  | .struct fields, ni, s, tr => by
    have ih := forEachStructField_logging iterFunction fields
    rw [forEachSchemaNodeInternal, forEachSchemaNodeInternal, specVisits]
    simp only [util.IsNilOrInvalidValue, util.IsValueNil, Bool.false_eq_true, if_false,
      loggingVisitor]
    rw [ih, forEachStructField_errs iterFunction fields _ _ []]
    simp
  | .ptr (.struct fields), ni, s, tr => by
    have ih := forEachStructField_logging iterFunction fields
    rw [forEachSchemaNodeInternal, forEachSchemaNodeInternal, specVisits]
    simp only [util.IsNilOrInvalidValue, util.IsValueNil, Bool.false_eq_true, if_false,
      loggingVisitor]
    rw [ih, forEachStructField_errs iterFunction fields _ _ []]
    simp
  | .slice elems, ni, s, tr => by
    have ih := forEachSliceElem_logging iterFunction elems
    rw [forEachSchemaNodeInternal, forEachSchemaNodeInternal, specVisits]
    simp only [util.IsNilOrInvalidValue, util.IsValueNil, Bool.false_eq_true, if_false,
      loggingVisitor]
    rw [ih, forEachSliceElem_errs iterFunction elems _ _ []]
    simp
  | .map entries, ni, s, tr => by
    have ih := forEachMapEntry_logging iterFunction entries
    rw [forEachSchemaNodeInternal, forEachSchemaNodeInternal, specVisits]
    simp only [util.IsNilOrInvalidValue, util.IsValueNil, Bool.false_eq_true, if_false,
      loggingVisitor]
    rw [ih, forEachMapEntry_errs iterFunction entries _ _ _ []]
    simp
  | .invalid, ni, s, tr => forEachSchemaNodeInternal_logging_scalar iterFunction _ ni s tr
      (by intros; simp) (by intros; simp) (by intros; simp) (by intros; simp)
  | .bool _, ni, s, tr => forEachSchemaNodeInternal_logging_scalar iterFunction _ ni s tr
      (by intros; simp) (by intros; simp) (by intros; simp) (by intros; simp)
  | .int _, ni, s, tr => forEachSchemaNodeInternal_logging_scalar iterFunction _ ni s tr
      (by intros; simp) (by intros; simp) (by intros; simp) (by intros; simp)
  | .string _, ni, s, tr => forEachSchemaNodeInternal_logging_scalar iterFunction _ ni s tr
      (by intros; simp) (by intros; simp) (by intros; simp) (by intros; simp)
  | .nilPtr, ni, s, tr => forEachSchemaNodeInternal_logging_scalar iterFunction _ ni s tr
      (by intros; simp) (by intros; simp) (by intros; simp) (by intros; simp)
  | .nilSlice, ni, s, tr => forEachSchemaNodeInternal_logging_scalar iterFunction _ ni s tr
      (by intros; simp) (by intros; simp) (by intros; simp) (by intros; simp)
  | .nilMap, ni, s, tr => forEachSchemaNodeInternal_logging_scalar iterFunction _ ni s tr
      (by intros; simp) (by intros; simp) (by intros; simp) (by intros; simp)
  | .ptr .invalid, ni, s, tr => forEachSchemaNodeInternal_logging_scalar iterFunction _ ni s tr
      (by intros; simp) (by intros; simp) (by intros; simp) (by intros; simp)
  | .ptr (.bool _), ni, s, tr => forEachSchemaNodeInternal_logging_scalar iterFunction _ ni s tr
      (by intros; simp) (by intros; simp) (by intros; simp) (by intros; simp)
  | .ptr (.int _), ni, s, tr => forEachSchemaNodeInternal_logging_scalar iterFunction _ ni s tr
      (by intros; simp) (by intros; simp) (by intros; simp) (by intros; simp)
  | .ptr (.string _), ni, s, tr => forEachSchemaNodeInternal_logging_scalar iterFunction _ ni s tr
      (by intros; simp) (by intros; simp) (by intros; simp) (by intros; simp)
  | .ptr .nilPtr, ni, s, tr => forEachSchemaNodeInternal_logging_scalar iterFunction _ ni s tr
      (by intros; simp) (by intros; simp) (by intros; simp) (by intros; simp)
  | .ptr (.ptr _), ni, s, tr => forEachSchemaNodeInternal_logging_scalar iterFunction _ ni s tr
      (by intros; simp) (by intros; simp) (by intros; simp) (by intros; simp)
  | .ptr .nilSlice, ni, s, tr => forEachSchemaNodeInternal_logging_scalar iterFunction _ ni s tr
      (by intros; simp) (by intros; simp) (by intros; simp) (by intros; simp)
  | .ptr (.slice _), ni, s, tr => forEachSchemaNodeInternal_logging_scalar iterFunction _ ni s tr
      (by intros; simp) (by intros; simp) (by intros; simp) (by intros; simp)
  | .ptr .nilMap, ni, s, tr => forEachSchemaNodeInternal_logging_scalar iterFunction _ ni s tr
      (by intros; simp) (by intros; simp) (by intros; simp) (by intros; simp)
  | .ptr (.map _), ni, s, tr => forEachSchemaNodeInternal_logging_scalar iterFunction _ ni s tr
      (by intros; simp) (by intros; simp) (by intros; simp) (by intros; simp)
theorem forEachStructField_logging {σ : Type} (iterFunction : SchemaNodeIteratorFunc σ) :
    ∀ (fields : List (StructField × Value)) (ni : SchemaNodeInfo) (errs : List Error)
      (s : σ) (tr : List Visit),
      (forEachStructField (loggingVisitor iterFunction) fields ni errs (s, tr)).2 =
        ((forEachStructField iterFunction fields ni errs s).2,
          tr ++ specFieldVisits fields ni.Path ni.Schema)
  | [], ni, errs, s, tr => by
    simp [forEachStructField, specFieldVisits]
  | (f, fv) :: rest, ni, errs, s, tr => by
    have ih1 := forEachSchemaNodeInternal_logging iterFunction fv
    have ih2 := forEachStructField_logging iterFunction rest
    rw [forEachStructField, forEachStructField, specFieldVisits]
    rcases hcs : childSchema ni.Schema f with ⟨_ | c, _ | err⟩
    · simp only []
      rw [ih2]
      simp
    · simp only []
      rw [ih2]
      simp
    · simp only []
      rw [ih1, ih2]
      exact Prod.ext (forEachStructField_errs _ _ _ _ _ _) (by simp)
    · simp only []
      rw [ih2]
      simp
theorem forEachSliceElem_logging {σ : Type} (iterFunction : SchemaNodeIteratorFunc σ) :
    ∀ (elems : List Value) (ni : SchemaNodeInfo) (errs : List Error)
      (s : σ) (tr : List Visit),
      (forEachSliceElem (loggingVisitor iterFunction) elems ni errs (s, tr)).2 =
        ((forEachSliceElem iterFunction elems ni errs s).2,
          tr ++ specElemVisits elems ni.Path ni.Schema)
  | [], ni, errs, s, tr => by
    simp [forEachSliceElem, specElemVisits]
  | e :: rest, ni, errs, s, tr => by
    have ih1 := forEachSchemaNodeInternal_logging iterFunction e
    have ih2 := forEachSliceElem_logging iterFunction rest
    rw [forEachSliceElem, forEachSliceElem, specElemVisits]
    rw [ih1, ih2]
    exact Prod.ext (forEachSliceElem_errs _ _ _ _ _ _) (by simp)
theorem forEachMapEntry_logging {σ : Type} (iterFunction : SchemaNodeIteratorFunc σ) :
    ∀ (entries : List (Value × Value)) (keys : List Value) (ni : SchemaNodeInfo)
      (errs : List Error) (s : σ) (tr : List Visit),
      (forEachMapEntry (loggingVisitor iterFunction) entries keys ni errs (s, tr)).2 =
        ((forEachMapEntry iterFunction entries keys ni errs s).2,
          tr ++ specEntryVisits entries ni.Path ni.Schema)
  | [], keys, ni, errs, s, tr => by
    simp [forEachMapEntry, specEntryVisits]
  | (key, val) :: rest, keys, ni, errs, s, tr => by
    have ih1 := forEachSchemaNodeInternal_logging iterFunction val
    have ih2 := forEachMapEntry_logging iterFunction rest
    rw [forEachMapEntry, forEachMapEntry, specEntryVisits]
    rw [ih1, ih2]
    exact Prod.ext (forEachMapEntry_errs _ _ _ _ _ _ _) (by simp)
end

theorem specVisits_of_absent (v : Value) (path : List GoString) (schema : Entry)
    (h : util.IsValueNil v = true) : specVisits v path schema = [] := by
  cases v <;> simp_all [specVisits, util.IsValueNil]

/-- C25: a walk over a record visits the record and then walks, in declared order,
exactly the fields whose path tag childSchema resolves to a schema node with no
error, each under the resolved node and the path of the record extended by the
name of that node; a field whose tag gives an error or no node is passed over
and the fields after it are still walked; an absent value is not visited.  The
visits of a walk are those of the specification, whatever the visitor does and
whatever state it starts from, so two runs over the same tree visit the same
fields: with the visitor that does nothing the walk of the sample record visits
the record, the entry in Acl, its name, the list Tags and its element. -/
theorem ForEachSchemaNode_visits :
    (∀ (σ : Type) (iterFunction : SchemaNodeIteratorFunc σ)
        (fields : List (StructField × Value)) (ni : SchemaNodeInfo) (st : σ),
      (forEachSchemaNodeInternal iterFunction (.struct fields) ni st).2 =
        fields.foldl (fun s ffv =>
          match childSchema ni.Schema ffv.1 with
          | (some cschema, none) =>
            (forEachSchemaNodeInternal iterFunction ffv.2
              { ni with Schema := cschema, Path := ni.Path ++ [cschema.Name],
                        ParentStruct := .struct fields, FieldType := ffv.1,
                        FieldValue := ffv.2 } s).2
          | _ => s) (iterFunction { ni with FieldValue := .struct fields } st).2) ∧
    (∀ (σ : Type) (iterFunction : SchemaNodeIteratorFunc σ)
        (fields : List (StructField × Value)) (ni : SchemaNodeInfo) (st : σ),
      (forEachSchemaNodeInternal iterFunction (.ptr (.struct fields)) ni st).2 =
        fields.foldl (fun s ffv =>
          match childSchema ni.Schema ffv.1 with
          | (some cschema, none) =>
            (forEachSchemaNodeInternal iterFunction ffv.2
              { ni with Schema := cschema, Path := ni.Path ++ [cschema.Name],
                        ParentStruct := .ptr (.struct fields), FieldType := ffv.1,
                        FieldValue := ffv.2 } s).2
          | _ => s) (iterFunction { ni with FieldValue := .ptr (.struct fields) } st).2) ∧
    (∀ (σ : Type) (iterFunction : SchemaNodeIteratorFunc σ) (v : Value)
        (ni : SchemaNodeInfo) (st : σ),
      util.IsNilOrInvalidValue v = true →
      forEachSchemaNodeInternal iterFunction v ni st = ([], st)) ∧
    (∀ (σ : Type) (iterFunction : SchemaNodeIteratorFunc σ) (schema : Entry) (value : Value)
        (st : σ) (log : List Visit),
      (ForEachSchemaNode schema value (loggingVisitor iterFunction) (st, log)).2 =
        ((ForEachSchemaNode schema value iterFunction st).2,
          log ++ specVisits value [] schema)) ∧
    ((ForEachSchemaNode deviceSchema patchyRecord (loggingVisitor noopVisitor)
        ((), [])).2.2.map (fun visit => (visit.Path, visit.Schema.Name, visit.FieldValue))) =
      [([], "device".toList, patchyRecord),
       (["acl".toList], "acl".toList, aclEntry "k1"),
       (["acl".toList, "name".toList], "name".toList, .ptr (.string "k1".toList)),
       (["tags".toList], "tags".toList, .slice [.string "x".toList]),
       (["tags".toList], "tags".toList, .string "x".toList)] := by
  refine ⟨?_, ?_, fun σ => forEachSchemaNodeInternal_of_absent, ?_, rfl⟩
  · intro σ iterFunction fields ni st
    rw [forEachSchemaNodeInternal_of_present iterFunction (.struct fields) ni st rfl]
    exact forEachStructField_snd _ _ _ _ _
  · intro σ iterFunction fields ni st
    rw [forEachSchemaNodeInternal_of_present iterFunction (.ptr (.struct fields)) ni st rfl]
    exact forEachStructField_snd _ _ _ _ _
  · intro σ iterFunction schema value st log
    unfold ForEachSchemaNode
    by_cases h : util.IsValueNil value = true
    · simp only [h, if_true, specVisits_of_absent value [] schema h, List.append_nil]
    · simp only [h, if_false]
      exact forEachSchemaNodeInternal_logging iterFunction value _ st log

end ytypes

namespace ytypes

open yang reflect

/-- C24: the walk of a list visits the list and then walks its elements in order,
and the walk of a mapping visits the mapping and then walks its entries, each
element or entry under the schema node and the path of the field itself; the
context of an entry carries in addition the key of the entry and all the keys of
the mapping.  An absent element or entry is not visited; at any other one the
visitor is called once, at the context walked, before the descent below it.
In the sample device the entry "k1" and the tags "x" and "y" are visited under
the schema node and path of their field, the nil entry "k2" is not. -/
theorem forEachSchemaNodeInternal_elements :
    (∀ (σ : Type) (iterFunction : SchemaNodeIteratorFunc σ) (elems : List Value)
        (ni : SchemaNodeInfo) (st : σ),
      (forEachSchemaNodeInternal iterFunction (.slice elems) ni st).2 =
        elems.foldl (fun s e =>
          (forEachSchemaNodeInternal iterFunction e { ni with FieldValue := e } s).2)
          (iterFunction { ni with FieldValue := .slice elems } st).2) ∧
    (∀ (σ : Type) (iterFunction : SchemaNodeIteratorFunc σ) (entries : List (Value × Value))
        (ni : SchemaNodeInfo) (st : σ),
      (forEachSchemaNodeInternal iterFunction (.map entries) ni st).2 =
        entries.foldl (fun s kv =>
          (forEachSchemaNodeInternal iterFunction kv.2
            { ni with FieldValue := kv.2, FieldKey := kv.1,
                      FieldKeys := entries.map (fun e => e.1) } s).2)
          (iterFunction { ni with FieldValue := .map entries } st).2) ∧
    (∀ (σ : Type) (iterFunction : SchemaNodeIteratorFunc σ) (e : Value)
        (ni : SchemaNodeInfo) (st : σ),
      util.IsNilOrInvalidValue e = true →
      forEachSchemaNodeInternal iterFunction e ni st = ([], st)) ∧
    (∀ (σ : Type) (iterFunction : SchemaNodeIteratorFunc σ) (e : Value)
        (ni : SchemaNodeInfo) (st : σ),
      util.IsNilOrInvalidValue e = false →
      (forEachSchemaNodeInternal iterFunction e ni st).2 =
        forEachSchemaNodeSwitch iterFunction e { ni with FieldValue := e }
          (iterFunction { ni with FieldValue := e } st).2) ∧
    (ForEachSchemaNode deviceSchema deviceRecord keyVisitor []).2 =
      [([], "device".toList, .invalid, []),
       (["acl".toList], "acl".toList, .invalid, []),
       (["acl".toList], "acl".toList, .string "k1".toList,
         [.string "k1".toList, .string "k2".toList]),
       (["acl".toList, "name".toList], "name".toList, .string "k1".toList,
         [.string "k1".toList, .string "k2".toList]),
       (["tags".toList], "tags".toList, .invalid, []),
       (["tags".toList], "tags".toList, .invalid, []),
       (["tags".toList], "tags".toList, .invalid, [])] := by
  refine ⟨?_, ?_, fun σ => forEachSchemaNodeInternal_of_absent,
    fun σ => forEachSchemaNodeInternal_of_present, rfl⟩
  · intro σ iterFunction elems ni st
    rw [forEachSchemaNodeInternal_of_present iterFunction (.slice elems) ni st rfl]
    exact forEachSliceElem_snd _ _ _ _ _
  · intro σ iterFunction entries ni st
    rw [forEachSchemaNodeInternal_of_present iterFunction (.map entries) ni st rfl]
    exact forEachMapEntry_snd _ _ _ _ _ _

end ytypes

namespace reflect

mutual
theorem Value.beq_refl : ∀ a : Value, Value.beq a a = true
  | .invalid => by simp [Value.beq]
  | .bool _ => by simp [Value.beq]
  | .int _ => by simp [Value.beq]
  | .string _ => by simp [Value.beq]
  | .nilPtr => by simp [Value.beq]
  | .ptr a => by
    have ih := Value.beq_refl a
    simp [Value.beq, ih]
  | .struct a => by
    have ih := Value.beqFields_refl a
    simp [Value.beq, ih]
  | .nilSlice => by simp [Value.beq]
  | .slice a => by
    have ih := Value.beqList_refl a
    simp [Value.beq, ih]
  | .nilMap => by simp [Value.beq]
  | .map a => by
    have ih := Value.beqEntries_refl a
    simp [Value.beq, ih]
theorem Value.beqFields_refl : ∀ a : List (StructField × Value), Value.beqFields a a = true
  | [] => by simp [Value.beqFields]
  | (f, a) :: rest => by
    have ih1 := Value.beq_refl a
    have ih2 := Value.beqFields_refl rest
    simp [Value.beqFields, ih1, ih2]
theorem Value.beqList_refl : ∀ a : List Value, Value.beqList a a = true
  | [] => by simp [Value.beqList]
  | a :: rest => by
    have ih1 := Value.beq_refl a
    have ih2 := Value.beqList_refl rest
    simp [Value.beqList, ih1, ih2]
theorem Value.beqEntries_refl : ∀ a : List (Value × Value), Value.beqEntries a a = true
  | [] => by simp [Value.beqEntries]
  | (k, a) :: rest => by
    have ih0 := Value.beq_refl k
    have ih1 := Value.beq_refl a
    have ih2 := Value.beqEntries_refl rest
    simp [Value.beqEntries, ih0, ih1, ih2]
end

mutual
theorem Value.eq_of_beq : ∀ a b : Value, Value.beq a b = true → a = b
  | .invalid, b => by cases b <;> simp [Value.beq]
  | .bool _, b => by cases b <;> simp [Value.beq]
  | .int _, b => by cases b <;> simp [Value.beq]
  | .string _, b => by cases b <;> simp [Value.beq]
  | .nilPtr, b => by cases b <;> simp [Value.beq]
  | .ptr a, b => by
    have ih := Value.eq_of_beq a
    cases b <;> simp [Value.beq]
    exact ih _
  | .struct a, b => by
    have ih := Value.fields_eq_of_beq a
    cases b <;> simp [Value.beq]
    exact ih _
  | .nilSlice, b => by cases b <;> simp [Value.beq]
  | .slice a, b => by
    have ih := Value.list_eq_of_beq a
    cases b <;> simp [Value.beq]
    exact ih _
  | .nilMap, b => by cases b <;> simp [Value.beq]
  | .map a, b => by
    have ih := Value.entries_eq_of_beq a
    cases b <;> simp [Value.beq]
    exact ih _
theorem Value.fields_eq_of_beq : ∀ a b : List (StructField × Value),
    Value.beqFields a b = true → a = b
  | [], b => by cases b <;> simp [Value.beqFields]
  | (f, a) :: rest, b => by
    have ih1 := Value.eq_of_beq a
    have ih2 := Value.fields_eq_of_beq rest
    cases b with
    | nil => simp [Value.beqFields]
    | cons gb rest2 =>
      obtain ⟨g, b⟩ := gb
      simp only [Value.beqFields, Bool.and_eq_true, decide_eq_true_eq]
      rintro ⟨⟨hf, hab⟩, hrest⟩
      rw [hf, ih1 b hab, ih2 rest2 hrest]
theorem Value.list_eq_of_beq : ∀ a b : List Value, Value.beqList a b = true → a = b
  | [], b => by cases b <;> simp [Value.beqList]
  | a :: rest, b => by
    have ih1 := Value.eq_of_beq a
    have ih2 := Value.list_eq_of_beq rest
    cases b with
    | nil => simp [Value.beqList]
    | cons b rest2 =>
      simp only [Value.beqList, Bool.and_eq_true]
      rintro ⟨hab, hrest⟩
      rw [ih1 b hab, ih2 rest2 hrest]
theorem Value.entries_eq_of_beq : ∀ a b : List (Value × Value),
    Value.beqEntries a b = true → a = b
  | [], b => by cases b <;> simp [Value.beqEntries]
  | (k, a) :: rest, b => by
    have ih0 := Value.eq_of_beq k
    have ih1 := Value.eq_of_beq a
    have ih2 := Value.entries_eq_of_beq rest
    cases b with
    | nil => simp [Value.beqEntries]
    | cons kb rest2 =>
      obtain ⟨k2, b⟩ := kb
      simp only [Value.beqEntries, Bool.and_eq_true]
      rintro ⟨⟨hk, hab⟩, hrest⟩
      rw [ih0 k2 hk, ih1 b hab, ih2 rest2 hrest]
end

theorem Value.beq_eq_true_iff (a b : Value) : Value.beq a b = true ↔ a = b :=
  ⟨Value.eq_of_beq a b, fun h => h ▸ Value.beq_refl a⟩

theorem MapIndex_SetMapIndex_self (entries : List (Value × Value)) (key value : Value) :
    MapIndex (SetMapIndex entries key value) key = some value := by
  induction entries with
  | nil => simp [SetMapIndex, MapIndex, Value.beq_refl]
  | cons kv rest ih =>
    obtain ⟨k, v⟩ := kv
    by_cases h : Value.beq k key = true
    · simp [SetMapIndex, MapIndex, h]
    · simp [SetMapIndex, MapIndex, h, ih]

theorem MapIndex_SetMapIndex_other (entries : List (Value × Value)) (key value other : Value)
    (hne : other ≠ key) :
    MapIndex (SetMapIndex entries key value) other = MapIndex entries other := by
  have hkey : Value.beq key other = false := by
    cases hb : Value.beq key other with
    | false => rfl
    | true => exact absurd (Value.eq_of_beq key other hb).symm hne
  induction entries with
  | nil => simp [SetMapIndex, MapIndex, hkey]
  | cons kv rest ih =>
    obtain ⟨k, v⟩ := kv
    by_cases h : Value.beq k key = true
    · have hk : k = key := Value.eq_of_beq k key h
      subst hk
      simp [SetMapIndex, MapIndex, h, hkey]
    · simp [SetMapIndex, MapIndex, h, ih]

theorem SetMapIndex_twice (entries : List (Value × Value)) (key value value2 : Value) :
    SetMapIndex (SetMapIndex entries key value) key value2 = SetMapIndex entries key value2 := by
  induction entries with
  | nil => simp [SetMapIndex, Value.beq_refl]
  | cons kv rest ih =>
    obtain ⟨k, v⟩ := kv
    by_cases h : Value.beq k key = true
    · simp [SetMapIndex, h]
    · simp [SetMapIndex, h, ih]

end reflect

namespace util

open reflect

theorem getField_setField_self (fields : List (StructField × Value)) (name : GoString)
    (old value : Value) (h : getField fields name = some old) :
    getField (setField fields name value) name = some value := by
  induction fields with
  | nil => cases h
  | cons fv rest ih =>
    obtain ⟨f, v⟩ := fv
    by_cases hf : f.Name = name
    · simp [setField, getField, hf]
    · simp only [getField, hf, if_false] at h
      simp [setField, getField, hf, ih h]

theorem getField_setField_other (fields : List (StructField × Value)) (name other : GoString)
    (value : Value) (hne : other ≠ name) :
    getField (setField fields name value) other = getField fields other := by
  induction fields with
  | nil => rfl
  | cons fv rest ih =>
    obtain ⟨f, v⟩ := fv
    by_cases hf : f.Name = name
    · subst hf
      have ho : f.Name ≠ other := fun h => hne h.symm
      simp [setField, getField, ho]
    · by_cases ho : f.Name = other
      · subst ho
        simp [setField, getField, hf]
      · simp [setField, getField, hf, ho, ih]

theorem setField_setField (fields : List (StructField × Value)) (name : GoString)
    (value value2 : Value) :
    setField (setField fields name value) name value2 = setField fields name value2 := by
  induction fields with
  | nil => rfl
  | cons fv rest ih =>
    obtain ⟨f, v⟩ := fv
    by_cases hf : f.Name = name
    · simp [setField, hf]
    · simp [setField, hf, ih]

theorem assignValue_of_kindMatches (declared : GoType) (value : Value)
    (h : kindMatches declared value = true) : assignValue declared value = some value := by
  cases value <;> first
    | (simp [kindMatches] at h; done)
    | simp [assignValue, h]

theorem editField_of_ok (decl : List (StructField × GoType)) (fields : List (StructField × Value))
    (fieldName : GoString) (edit : GoType → Value → Except EditError Value)
    (ft : GoType) (cur value : Value) (hft : fieldType decl fieldName = some ft)
    (hcur : getField fields fieldName = some cur) (hedit : edit ft cur = .ok value) :
    editField (.Ptr (.Struct decl)) (.ptr (.struct fields)) fieldName edit =
      (.ptr (.struct (setField fields fieldName value)), none) := by
  simp [editField, IsValueNil, hft, hcur, hedit]

theorem editField_fst_or_snd (parentType : GoType) (parentStruct : Value)
    (fieldName : GoString) (edit : GoType → Value → Except EditError Value) :
    (editField parentType parentStruct fieldName edit).1 = parentStruct ∨
      (editField parentType parentStruct fieldName edit).2 = none := by
  unfold editField
  split
  · exact Or.inl rfl
  · split
    · split
      · split
        · exact Or.inr rfl
        · exact Or.inl rfl
      · exact Or.inl rfl
    · exact Or.inl rfl

theorem editField_of_error (parentType : GoType) (parentStruct : Value) (fieldName : GoString)
    (edit : GoType → Value → Except EditError Value) (h : (editField parentType parentStruct
      fieldName edit).2 ≠ none) :
    (editField parentType parentStruct fieldName edit).1 = parentStruct :=
  (editField_fst_or_snd parentType parentStruct fieldName edit).resolve_right h

end util

namespace util

open reflect

/-- C26: for every record passed by reference, field name that exists on it and
value whose kind matches the declared kind of the field, UpdateField returns no
error, the field then holds the value, every other field is unchanged and the
fields keep their names and order; a pointer field assigned the absent value
becomes absent. -/
theorem UpdateField_sets_field (decl : List (StructField × GoType))
    (fields : List (StructField × Value)) (fieldName : GoString) (ft : GoType)
    (old value : Value) (hft : fieldType decl fieldName = some ft)
    (hold : getField fields fieldName = some old) (hkind : kindMatches ft value = true) :
    UpdateField (.Ptr (.Struct decl)) (.ptr (.struct fields)) fieldName value =
      (.ptr (.struct (setField fields fieldName value)), none) ∧
    getField (setField fields fieldName value) fieldName = some value ∧
    (∀ other, other ≠ fieldName →
      getField (setField fields fieldName value) other = getField fields other) ∧
    (∀ elem, ft = .Ptr elem →
      UpdateField (.Ptr (.Struct decl)) (.ptr (.struct fields)) fieldName .invalid =
        (.ptr (.struct (setField fields fieldName .nilPtr)), none) ∧
      getField (setField fields fieldName .nilPtr) fieldName = some .nilPtr) := by
  refine ⟨?_, getField_setField_self fields fieldName old value hold,
    fun other hne => getField_setField_other fields fieldName other value hne, ?_⟩
  · exact editField_of_ok decl fields fieldName _ ft old value hft hold
      (by simp only [assignValue_of_kindMatches ft value hkind])
  · intro elem helem
    subst helem
    exact ⟨editField_of_ok decl fields fieldName _ (.Ptr elem) old .nilPtr hft hold rfl,
      getField_setField_self fields fieldName old .nilPtr hold⟩

/-- Witness for C26: IntField 0 becomes 42, and IntPtrField holding 42 becomes
absent when it is assigned the absent value. -/
theorem UpdateField_sets_field_witness :
    UpdateField (.Ptr (.Struct basicStructDecl)) (basicStruct .nilPtr) "IntField".toList
      (.int 42) =
      (.ptr (.struct
        [(plainField "IntField", .int 42), (plainField "StringField", .string []),
         (plainField "IntPtrField", .nilPtr), (plainField "StringPtrField", .nilPtr)]),
        none) ∧
    UpdateField (.Ptr (.Struct basicStructDecl)) (basicStruct (.ptr (.int 42)))
      "IntPtrField".toList .invalid = (basicStruct .nilPtr, none) :=
  ⟨(UpdateField_sets_field basicStructDecl (basicFields .nilPtr) "IntField".toList (.Int 64)
      (.int 0) (.int 42) rfl rfl rfl).1,
    rfl⟩

/-- C27: UpdateField is atomic on failure: whenever it returns an error, the
parent is left exactly as it was. -/
theorem UpdateField_atomic (parentType : GoType) (parentStruct : Value)
    (fieldName : GoString) (fieldValue : Value)
    (herr : (UpdateField parentType parentStruct fieldName fieldValue).2 ≠ none) :
    (UpdateField parentType parentStruct fieldName fieldValue).1 = parentStruct :=
  editField_of_error parentType parentStruct fieldName _ herr

/-- Witness for C27: a string into the field IntField is refused and the record
is as before; so are the absent value into IntField, an integer into the
pointer field, a pointer into IntField, a field name the type does not have, an
absent parent and a parent that is a record and not a reference to one. -/
theorem UpdateField_atomic_witness :
    (UpdateField (.Ptr (.Struct basicStructDecl)) (basicStruct .nilPtr) "IntField".toList
      (.string "forty two".toList)).1 = basicStruct .nilPtr ∧
    UpdateField (.Ptr (.Struct basicStructDecl)) (basicStruct .nilPtr) "IntField".toList
      (.string "forty two".toList) =
      (basicStruct .nilPtr, some (.typeMismatch "IntField".toList)) ∧
    UpdateField (.Ptr (.Struct basicStructDecl)) (basicStruct .nilPtr) "IntField".toList
      .invalid = (basicStruct .nilPtr, some (.typeMismatch "IntField".toList)) ∧
    UpdateField (.Ptr (.Struct basicStructDecl)) (basicStruct .nilPtr) "IntPtrField".toList
      (.int 42) = (basicStruct .nilPtr, some (.typeMismatch "IntPtrField".toList)) ∧
    UpdateField (.Ptr (.Struct basicStructDecl)) (basicStruct .nilPtr) "IntField".toList
      (.ptr (.int 42)) = (basicStruct .nilPtr, some (.typeMismatch "IntField".toList)) ∧
    UpdateField (.Ptr (.Struct basicStructDecl)) (basicStruct .nilPtr) "BadField".toList
      (.int 42) = (basicStruct .nilPtr, some (.notFound "BadField".toList)) ∧
    UpdateField (.Ptr (.Struct basicStructDecl)) .invalid "IntField".toList (.int 42) =
      (.invalid, some (.nilParent "IntField".toList)) ∧
    UpdateField (.Struct []) (.struct []) [] .invalid = (.struct [], some .notStructPtr) :=
  ⟨UpdateField_atomic (.Ptr (.Struct basicStructDecl)) (basicStruct .nilPtr)
      "IntField".toList (.string "forty two".toList) (by decide),
    rfl, rfl, rfl, rfl, rfl, rfl, rfl⟩

/-- C28: for every record with an ordered-list field holding the list L, an absent
list counting as empty, and every value of the element kind of the list,
InsertIntoSliceStructField returns no error and leaves the field equal to L
followed by the value and the other fields as they were; a second insertion of
the value leaves L followed by the value twice; and InsertIntoSlice on a
reference to the list appends in the same way. -/
theorem InsertIntoSliceStructField_appends (decl : List (StructField × GoType))
    (fields : List (StructField × Value)) (fieldName : GoString) (elem : GoType)
    (cur value : Value) (L : List Value)
    (hft : fieldType decl fieldName = some (.Slice elem))
    (hcur : getField fields fieldName = some cur) (hL : sliceElems cur = some L)
    (hkind : kindMatches elem value = true) :
    InsertIntoSliceStructField (.Ptr (.Struct decl)) (.ptr (.struct fields)) fieldName value =
      (.ptr (.struct (setField fields fieldName (.slice (L ++ [value])))), none) ∧
    getField (setField fields fieldName (.slice (L ++ [value]))) fieldName =
      some (.slice (L ++ [value])) ∧
    (∀ other, other ≠ fieldName →
      getField (setField fields fieldName (.slice (L ++ [value]))) other =
        getField fields other) ∧
    InsertIntoSliceStructField (.Ptr (.Struct decl))
      (InsertIntoSliceStructField (.Ptr (.Struct decl)) (.ptr (.struct fields)) fieldName
        value).1 fieldName value =
      (.ptr (.struct (setField fields fieldName (.slice (L ++ [value, value])))), none) ∧
    InsertIntoSlice (.Ptr (.Slice elem)) (.ptr cur) value =
      (.ptr (.slice (L ++ [value])), none) := by
  have hassign := assignValue_of_kindMatches elem value hkind
  have hfirst : InsertIntoSliceStructField (.Ptr (.Struct decl)) (.ptr (.struct fields))
      fieldName value =
      (.ptr (.struct (setField fields fieldName (.slice (L ++ [value])))), none) :=
    editField_of_ok decl fields fieldName _ (.Slice elem) cur _ hft hcur
      (by simp only [appendValue, hL, hassign])
  have hget := getField_setField_self fields fieldName cur (.slice (L ++ [value])) hcur
  refine ⟨hfirst, hget, fun other hne => getField_setField_other fields fieldName other _ hne,
    ?_, ?_⟩
  · rw [hfirst]
    have hsecond := editField_of_ok decl (setField fields fieldName (.slice (L ++ [value])))
      fieldName (fun ft cur =>
        match ft with
        | .Slice elem => appendValue elem cur value fieldName
        | _ => .error (.typeMismatch fieldName)) (.Slice elem) (.slice (L ++ [value]))
      (.slice (L ++ [value] ++ [value])) hft hget
      (by simp only [appendValue, sliceElems, hassign])
    rw [setField_setField, List.append_assoc] at hsecond
    exact hsecond
  · simp only [InsertIntoSlice, appendValue, hL, hassign]

/-- Witness for C28: 44 inserted twice into the empty field IntSliceField gives
the list of 44 and 44, and InsertIntoSlice appends 44 to the list of 42 and
43. -/
theorem InsertIntoSliceStructField_appends_witness :
    InsertIntoSliceStructField (.Ptr (.Struct collectionsDecl))
      (InsertIntoSliceStructField (.Ptr (.Struct collectionsDecl)) collections
        "IntSliceField".toList (.int 44)).1 "IntSliceField".toList (.int 44) =
      (.ptr (.struct
        [(plainField "IntSliceField", .slice [.int 44, .int 44]),
         (plainField "IntPtrSliceField", .nilSlice),
         (plainField "StringToIntMapField", .nilMap),
         (plainField "StructToIntMapField", .nilMap),
         (plainField "NonSliceField", .int 0)]), none) ∧
    InsertIntoSlice (.Ptr (.Slice (.Int 64))) (.ptr (.slice [.int 42, .int 43])) (.int 44) =
      (.ptr (.slice [.int 42, .int 43, .int 44]), none) :=
  ⟨(InsertIntoSliceStructField_appends collectionsDecl (ZeroFields collectionsDecl)
      "IntSliceField".toList (.Int 64) .nilSlice (.int 44) [] rfl rfl rfl rfl).2.2.2.1,
    rfl⟩

/-- C29: for every record with a keyed-mapping field, an absent mapping counting
as empty, and every key and value of the key and element kinds of the mapping,
InsertIntoMapStructField returns no error; afterwards the field maps the key to
the value and agrees with the mapping before on every other key; the other
fields are as they were; and a second insertion at the key replaces the value,
the last write winning. -/
theorem InsertIntoMapStructField_upserts (decl : List (StructField × GoType))
    (fields : List (StructField × Value)) (fieldName : GoString) (keyType elem : GoType)
    (cur key value : Value) (entries : List (Value × Value))
    (hft : fieldType decl fieldName = some (.Map keyType elem))
    (hcur : getField fields fieldName = some cur) (hentries : mapEntries cur = some entries)
    (hkey : kindMatches keyType key = true) (hkind : kindMatches elem value = true) :
    InsertIntoMapStructField (.Ptr (.Struct decl)) (.ptr (.struct fields)) fieldName key
      value =
      (.ptr (.struct (setField fields fieldName (.map (SetMapIndex entries key value)))),
        none) ∧
    getField (setField fields fieldName (.map (SetMapIndex entries key value))) fieldName =
      some (.map (SetMapIndex entries key value)) ∧
    MapIndex (SetMapIndex entries key value) key = some value ∧
    (∀ other, other ≠ key →
      MapIndex (SetMapIndex entries key value) other = MapIndex entries other) ∧
    (∀ other, other ≠ fieldName →
      getField (setField fields fieldName (.map (SetMapIndex entries key value))) other =
        getField fields other) ∧
    (∀ value2, kindMatches elem value2 = true →
      InsertIntoMapStructField (.Ptr (.Struct decl))
        (InsertIntoMapStructField (.Ptr (.Struct decl)) (.ptr (.struct fields)) fieldName key
          value).1 fieldName key value2 =
        (.ptr (.struct (setField fields fieldName (.map (SetMapIndex entries key value2)))),
          none)) := by
  have hassign := assignValue_of_kindMatches elem value hkind
  have hfirst : InsertIntoMapStructField (.Ptr (.Struct decl)) (.ptr (.struct fields))
      fieldName key value =
      (.ptr (.struct (setField fields fieldName (.map (SetMapIndex entries key value)))),
        none) :=
    editField_of_ok decl fields fieldName _ (.Map keyType elem) cur _ hft hcur
      (by simp only [hentries, hkey, hassign])
  have hget := getField_setField_self fields fieldName cur
    (.map (SetMapIndex entries key value)) hcur
  refine ⟨hfirst, hget, MapIndex_SetMapIndex_self entries key value,
    fun other hne => MapIndex_SetMapIndex_other entries key value other hne,
    fun other hne => getField_setField_other fields fieldName other _ hne, ?_⟩
  intro value2 hkind2
  have hassign2 := assignValue_of_kindMatches elem value2 hkind2
  rw [hfirst]
  have hsecond := editField_of_ok decl
    (setField fields fieldName (.map (SetMapIndex entries key value))) fieldName
    (fun ft cur =>
      match ft with
      | .Map keyType elem =>
        match mapEntries cur, kindMatches keyType key, assignValue elem value2 with
        | some entries, true, some value => .ok (.map (SetMapIndex entries key value))
        | _, _, _ => .error (.typeMismatch fieldName)
      | _ => .error (.typeMismatch fieldName)) (.Map keyType elem)
    (.map (SetMapIndex entries key value))
    (.map (SetMapIndex (SetMapIndex entries key value) key value2)) hft hget
    (by simp only [mapEntries, hkey, hassign2])
  rw [setField_setField, SetMapIndex_twice] at hsecond
  exact hsecond

/-- Witness for C29: inserting 42 and then 43 at the key "k" into the absent field
StringToIntMapField leaves the mapping of "k" to 43 alone, and a record is a
key as well. -/
theorem InsertIntoMapStructField_upserts_witness :
    InsertIntoMapStructField (.Ptr (.Struct collectionsDecl))
      (InsertIntoMapStructField (.Ptr (.Struct collectionsDecl)) collections
        "StringToIntMapField".toList (.string "k".toList) (.int 42)).1
      "StringToIntMapField".toList (.string "k".toList) (.int 43) =
      (.ptr (.struct
        [(plainField "IntSliceField", .nilSlice),
         (plainField "IntPtrSliceField", .nilSlice),
         (plainField "StringToIntMapField", .map [(.string "k".toList, .int 43)]),
         (plainField "StructToIntMapField", .nilMap),
         (plainField "NonSliceField", .int 0)]), none) ∧
    (InsertIntoMapStructField (.Ptr (.Struct collectionsDecl)) collections
      "StructToIntMapField".toList (.struct [(plainField "IntField", .int 42)]) (.int 42)).2 =
      none :=
  ⟨(InsertIntoMapStructField_upserts collectionsDecl (ZeroFields collectionsDecl)
      "StringToIntMapField".toList .String (.Int 64) .nilMap (.string "k".toList) (.int 42) []
      rfl rfl rfl rfl rfl).2.2.2.2.2 (.int 43) rfl,
    rfl⟩

end util

namespace ytypes

open yang reflect

theorem Split_getLastD_decomp (sep : Char) :
    ∀ s : GoString,
      (sep ∉ s ∧ (strings.Split s sep).getLastD [] = s) ∨
      ∃ pre, s = pre ++ sep :: (strings.Split s sep).getLastD [] := by
  intro s
  induction s with
  | nil => exact Or.inl ⟨by simp, rfl⟩
  | cons c cs ih =>
    obtain ⟨h, t, hsplit⟩ : ∃ h t, strings.Split cs sep = h :: t := by
      cases hs : strings.Split cs sep with
      | nil => exact absurd hs (Split_ne_nil cs sep)
      | cons h t => exact ⟨h, t, rfl⟩
    by_cases hc : c = sep
    · subst hc
      have hlast : (strings.Split (c :: cs) c).getLastD [] = (strings.Split cs c).getLastD [] := by
        simp [strings.Split, hsplit]
      rw [hlast]
      rcases ih with ⟨_, hl⟩ | ⟨pre, hpre⟩
      · exact Or.inr ⟨[], by rw [hl]; rfl⟩
      · exact Or.inr ⟨c :: pre, by rw [List.cons_append, ← hpre]⟩
    · rcases ih with ⟨hno, hl⟩ | ⟨pre, hpre⟩
      · left
        refine ⟨by simp [hno, Ne.symm hc], ?_⟩
        rw [Split_of_not_mem (c :: cs) sep (by simp [hno, Ne.symm hc])]
        rfl
      · right
        have hmem : sep ∈ cs := by
          rw [hpre]
          simp
        have hlen : (strings.Split cs sep).length ≠ 1 :=
          fun h1 => ((Split_length_eq_one cs sep).mp h1) hmem
        have ht : t ≠ [] := by
          intro ht
          rw [hsplit, ht] at hlen
          exact hlen rfl
        have hlast : (strings.Split (c :: cs) sep).getLastD [] =
            (strings.Split cs sep).getLastD [] := by
          obtain ⟨t1, t2, rfl⟩ := List.exists_cons_of_ne_nil ht
          simp [strings.Split, hc, hsplit]
        rw [hlast]
        exact ⟨c :: pre, by rw [List.cons_append, ← hpre]⟩

theorem stripModulePrefix_suffix (s : GoString) : stripModulePrefix s <:+ s := by
  unfold stripModulePrefix
  rcases Split_getLastD_decomp ':' s with ⟨_, hl⟩ | ⟨pre, hpre⟩
  · rw [hl]
  · exact ⟨pre ++ [':'], by rw [List.append_assoc]; exact hpre.symm⟩

theorem Split_append_sep (sep : Char) (post : GoString) :
    ∀ pre : GoString, strings.Split (pre ++ sep :: post) sep =
      strings.Split pre sep ++ strings.Split post sep := by
  intro pre
  induction pre with
  | nil => simp [strings.Split]
  | cons c cs ih =>
    by_cases hc : c = sep
    · simp [strings.Split, hc, ← ih]
    · cases hs : strings.Split cs sep with
      | nil => exact absurd hs (Split_ne_nil cs sep)
      | cons h t =>
        rw [hs] at ih
        simp [strings.Split, hc, hs, ih]

theorem stripModulePrefix_after_last (pre post : GoString) (h : ':' ∉ post) :
    stripModulePrefix (pre ++ ':' :: post) = post := by
  unfold stripModulePrefix
  rw [Split_append_sep, Split_of_not_mem post ':' h]
  simp

/-- C31: for every string s, stripModulePrefix gives the part of s after its last
':' and s itself when s has no ':': the result has no ':', is a suffix of s,
and either s has no ':' or s is some prefix, a ':' and the result;
stripModulePrefix is idempotent; stripModulePrefixes applies it to each element
and keeps the number and the order of the elements. -/
theorem stripModulePrefix_spec (s : GoString) :
    (':' ∉ s → stripModulePrefix s = s) ∧
    (∀ pre post, s = pre ++ ':' :: post → ':' ∉ post → stripModulePrefix s = post) ∧
    ((':' ∉ s ∧ stripModulePrefix s = s) ∨ ∃ pre, s = pre ++ ':' :: stripModulePrefix s) ∧
    ':' ∉ stripModulePrefix s ∧
    stripModulePrefix s <:+ s ∧
    stripModulePrefix (stripModulePrefix s) = stripModulePrefix s ∧
    (∀ xs : List GoString,
      (stripModulePrefixes xs).length = xs.length ∧
      ∀ i : Nat, (stripModulePrefixes xs)[i]? = (xs[i]?).map stripModulePrefix) ∧
    stripModulePrefix "oc:system".toList = "system".toList ∧
    stripModulePrefix "a:b:c".toList = "c".toList ∧
    stripModulePrefixes ["m:a".toList, "b".toList, "x:y:".toList] =
      ["a".toList, "b".toList, []] := by
  refine ⟨stripModulePrefix_of_not_mem s, ?_, Split_getLastD_decomp ':' s,
    stripModulePrefix_no_colon s, stripModulePrefix_suffix s, stripModulePrefix_idem s, ?_,
    by decide, by decide, by decide⟩
  · intro pre post hs hpost
    rw [hs]
    exact stripModulePrefix_after_last pre post hpost
  · intro xs
    exact ⟨by simp [stripModulePrefixes], fun i => by simp [stripModulePrefixes]⟩

end ytypes

namespace ytypes

open yang reflect

theorem childSchemaWalk_of_findSchemaAtPath :
    ∀ (p : List GoString) (S n : Entry), findSchemaAtPath S p = some n →
      childSchemaWalk S p = (n, [], true) := by
  intro p
  induction p with
  | nil =>
    intro S n h
    simp only [findSchemaAtPath, Option.some.injEq] at h
    subst h
    rfl
  | cons seg rest ih =>
    intro S n h
    simp only [findSchemaAtPath] at h
    simp only [childSchemaWalk]
    cases hl : mapLookup S.Dir (stripModulePrefix seg) with
    | none => rw [hl] at h; cases h
    | some ns =>
      rw [hl] at h
      exact ih ns n h

theorem findSchemaAtPath_of_childSchemaWalk :
    ∀ (p : List GoString) (S n : Entry) (rem : List GoString),
      childSchemaWalk S p = (n, rem, true) → findSchemaAtPath S p = some n := by
  intro p
  induction p with
  | nil =>
    intro S n rem h
    simp only [childSchemaWalk, Prod.mk.injEq] at h
    rw [h.1]
    rfl
  | cons seg rest ih =>
    intro S n rem h
    simp only [childSchemaWalk] at h
    simp only [findSchemaAtPath]
    cases hl : mapLookup S.Dir (stripModulePrefix seg) with
    | none =>
      rw [hl] at h
      simp at h
    | some ns =>
      rw [hl] at h
      exact ih ns n rem h

theorem findSchemaAtPath_stripModulePrefixes :
    ∀ (p : List GoString) (S : Entry),
      findSchemaAtPath S (stripModulePrefixes p) = findSchemaAtPath S p := by
  intro p
  induction p with
  | nil => intro S; rfl
  | cons seg rest ih =>
    intro S
    simp only [stripModulePrefixes, List.map_cons, findSchemaAtPath, stripModulePrefix_idem]
    cases mapLookup S.Dir (stripModulePrefix seg) with
    | none => rfl
    | some ns => exact ih ns

/-- C35: the direct walk of childSchema agrees with findSchemaAtPath: for every
schema and every field with a valid path tag, if findSchemaAtPath finds a node
for the path of the field, taken after the removal of the leading container
name, childSchema returns exactly that node and no error; the direct walk
succeeds at a node exactly when findSchemaAtPath finds it; findSchemaAtPath
gives the same for a path and for the path with its module prefixes stripped;
and for the empty path it gives the schema itself. -/
theorem childSchema_agrees_with_findSchemaAtPath (S n : Entry) (f : StructField)
    (p : List GoString) (hp : pathToSchema f = .ok p)
    (hfind : findSchemaAtPath S (stripParentName S p) = some n) :
    childSchema S f = (some n, none) ∧
    (∀ (T m : Entry) (q : List GoString),
      findSchemaAtPath T q = some m ↔ childSchemaWalk T q = (m, [], true)) ∧
    (∀ (T : Entry) (q : List GoString),
      findSchemaAtPath T q = findSchemaAtPath T (stripModulePrefixes q)) ∧
    (∀ T : Entry, findSchemaAtPath T [] = some T) := by
  refine ⟨?_, fun T m q => ⟨childSchemaWalk_of_findSchemaAtPath q T m,
    findSchemaAtPath_of_childSchemaWalk q T m []⟩,
    fun T q => (findSchemaAtPath_stripModulePrefixes q T).symm, fun _ => rfl⟩
  rw [childSchema_of_path S f p hp]
  unfold childSchemaResolve
  rw [childSchemaWalk_of_findSchemaAtPath _ S n hfind]

/-- Witness for C35: in the container "system" the tag "oc:system/oc:dns" leads
findSchemaAtPath and childSchema to the leaf "dns". -/
theorem childSchema_agrees_with_findSchemaAtPath_witness :
    childSchema systemSchema (pathField "Dns" "system/oc:dns") = (some (leafEntry "dns"), none) :=
  (childSchema_agrees_with_findSchemaAtPath systemSchema (leafEntry "dns")
    (pathField "Dns" "system/oc:dns") ["system".toList, "oc:dns".toList] rfl rfl).1

end ytypes

namespace ygot

open reflect

theorem splitSegments_ne_nil : ∀ s : GoString, splitSegments s ≠ [] := by
  intro s
  cases s with
  | nil => simp [splitSegments]
  | cons c cs =>
    unfold splitSegments
    split
    · simp
    · split <;> simp

theorem pathSegments_Split_eq : ∀ s : GoString,
    pathSegments (strings.Split s '|') = splitSegments s := by
  intro s
  induction s with
  | nil => rfl
  | cons c cs ih =>
    obtain ⟨h, t, hs⟩ : ∃ h t, strings.Split cs '|' = h :: t := by
      cases hs : strings.Split cs '|' with
      | nil => exact absurd hs (ytypes.Split_ne_nil cs '|')
      | cons h t => exact ⟨h, t, rfl⟩
    rw [hs] at ih
    simp only [pathSegments] at ih
    by_cases hbar : c = '|'
    · subst hbar
      simp [strings.Split, splitSegments, pathSegments, hs, ← ih]
    · obtain ⟨h2, t2, hs2⟩ : ∃ h2 t2, strings.Split h '/' = h2 :: t2 := by
        cases hs2 : strings.Split h '/' with
        | nil => exact absurd hs2 (ytypes.Split_ne_nil h '/')
        | cons h2 t2 => exact ⟨h2, t2, rfl⟩
      rw [hs2] at ih
      by_cases hslash : c = '/'
      · subst hslash
        simp [strings.Split, splitSegments, pathSegments, hs, hs2, ← ih]
      · simp [strings.Split, splitSegments, pathSegments, hs, hs2, ← ih, hbar, hslash]

theorem splitSegments_append (c : Char) (hc : c = '|' ∨ c = '/') (q : GoString) :
    ∀ p : GoString, splitSegments (p ++ c :: q) = splitSegments p ++ splitSegments q := by
  intro p
  induction p with
  | nil => simp [splitSegments, hc]
  | cons x xs ih =>
    by_cases hx : x = '|' ∨ x = '/'
    · simp [splitSegments, hx, ih]
    · cases hs : splitSegments xs with
      | nil => exact absurd hs (splitSegments_ne_nil xs)
      | cons h t =>
        rw [hs] at ih
        simp [splitSegments, hx, hs, ih]

theorem extractInterfaceByPath_eq_walk (data : JSONObject) (path : GoString) :
    extractInterfaceByPath data path = walkSegments (splitSegments path) data .null := by
  unfold extractInterfaceByPath
  rw [extractOuterLoop_eq_walk, pathSegments_Split_eq]

theorem walkSegments_iface (post : List GoString) (d : JSONObject) (i1 i2 : JSONValue)
    (h : post ≠ []) : walkSegments post d i1 = walkSegments post d i2 := by
  cases post with
  | nil => exact absurd rfl h
  | cons p ps => rfl

theorem walkSegments_append (post : List GoString) (hpost : post ≠ []) :
    ∀ (pre : List GoString) (d m : JSONObject) (iface : JSONValue),
      pre ≠ [] → walkSegments pre d iface = .object m →
      walkSegments (pre ++ post) d iface = walkSegments post m .null := by
  intro pre
  induction pre with
  | nil =>
    intro d m iface hne
    exact absurd rfl hne
  | cons p ps ih =>
    intro d m iface _ hwalk
    simp only [walkSegments] at hwalk
    simp only [List.cons_append, walkSegments]
    cases hm : mapIndex d p with
    | object d2 =>
      rw [hm] at hwalk
      cases ps with
      | nil =>
        simp only [walkSegments, JSONValue.object.injEq] at hwalk
        subst hwalk
        exact walkSegments_iface post d2 _ _ hpost
      | cons x xs => exact ih d2 m (.object d2) (List.cons_ne_nil _ _) hwalk
    | null => rw [hm] at hwalk; cases hwalk
    | bool b => rw [hm] at hwalk; cases hwalk
    | number n => rw [hm] at hwalk; cases hwalk
    | string s => rw [hm] at hwalk; cases hwalk
    | array xs => rw [hm] at hwalk; cases hwalk

/-- C36: extractInterfaceByPath does not treat '|' as a choice between
alternatives: for every document and all p and q the result for the path "p|q"
is the result for the path "p/q"; when p resolves to a nested mapping m the
result is the extraction of q inside m; and when the first segment of p is
missing from the document the result is absent.  In the document {"b": 1} the
path "a|b" gives nothing although "b" alone gives 1, and in
{"child": {"field-one": "x", "field-two": 7}} the path "child|field-two" gives
7, as "child/field-two" does. -/
theorem extractInterfaceByPath_bar (data : JSONObject) (p q : GoString) :
    extractInterfaceByPath data (p ++ '|' :: q) = extractInterfaceByPath data (p ++ '/' :: q) ∧
    (∀ m, extractInterfaceByPath data p = .object m →
      extractInterfaceByPath data (p ++ '|' :: q) = extractInterfaceByPath m q) ∧
    (∀ seg rest, pathSegments (strings.Split p '|') = seg :: rest →
      mapIndex data seg = .null → extractInterfaceByPath data (p ++ '|' :: q) = .null) ∧
    extractInterfaceByPath [("b".toList, .number 1)] "a|b".toList = .null ∧
    extractInterfaceByPath [("b".toList, .number 1)] "b".toList = .number 1 ∧
    extractInterfaceByPath (testOneDoc "x".toList 7) "child|field-two".toList = .number 7 ∧
    extractInterfaceByPath (testOneDoc "x".toList 7) "child/field-two".toList = .number 7 := by
  refine ⟨?_, ?_, ?_, rfl, rfl, rfl, rfl⟩
  · rw [extractInterfaceByPath_eq_walk, extractInterfaceByPath_eq_walk,
      splitSegments_append '|' (Or.inl rfl), splitSegments_append '/' (Or.inr rfl)]
  · intro m hm
    rw [extractInterfaceByPath_eq_walk] at hm
    rw [extractInterfaceByPath_eq_walk, extractInterfaceByPath_eq_walk,
      splitSegments_append '|' (Or.inl rfl)]
    exact walkSegments_append _ (splitSegments_ne_nil q) _ data m .null
      (splitSegments_ne_nil p) hm
  · intro seg rest hseg hnull
    rw [pathSegments_Split_eq] at hseg
    rw [extractInterfaceByPath_eq_walk, splitSegments_append '|' (Or.inl rfl), hseg]
    simp only [List.cons_append, walkSegments, hnull]

end ygot

namespace ytypes

open yang reflect

theorem removeNonDataLoop_of_nodes (path : List GoString) :
    ∀ (rest : List GoString) (s : Entry) (nodes : List Entry) (po : List GoString),
      schemaNodesAlong s rest = some nodes →
      removeNonDataLoop path s rest po = po ++ dataElements rest nodes := by
  intro rest
  induction rest with
  | nil =>
    intro s nodes po h
    simp only [schemaNodesAlong, Option.some.injEq] at h
    subst h
    simp [removeNonDataLoop, dataElements]
  | cons pe rest ih =>
    intro s nodes po h
    cases hl : mapLookup s.Dir pe with
    | none => simp [schemaNodesAlong, hl] at h
    | some ns =>
      cases hn : schemaNodesAlong ns rest with
      | none => simp [schemaNodesAlong, hl, hn] at h
      | some nodes2 =>
        simp only [schemaNodesAlong, hl, hn, Option.map_some', Option.some.injEq] at h
        subst h
        simp only [removeNonDataLoop, hl]
        rw [ih ns nodes2 _ hn]
        by_cases hc : isChoiceOrCase ns = true
        · simp [dataElements, hc]
        · simp [dataElements, hc]

theorem removeNonDataLoop_of_missing (path : List GoString) :
    ∀ (rest : List GoString) (s : Entry) (po : List GoString),
      schemaNodesAlong s rest = none → removeNonDataLoop path s rest po = path := by
  intro rest
  induction rest with
  | nil =>
    intro s po h
    cases h
  | cons pe rest ih =>
    intro s po h
    cases hl : mapLookup s.Dir pe with
    | none => simp only [removeNonDataLoop, hl]
    | some ns =>
      cases hn : schemaNodesAlong ns rest with
      | none =>
        simp only [removeNonDataLoop, hl]
        exact ih ns _ hn
      | some nodes2 => simp [schemaNodesAlong, hl, hn] at h

theorem removeNonDataPath_of_ne_nil (parentSchema : Entry) (path : List GoString)
    (h : path ≠ []) : ∃ po, removeNonDataPath parentSchema path = .done po := by
  cases path with
  | nil => exact absurd rfl h
  | cons p0 rest =>
    by_cases hp : p0 = parentSchema.Name
    · exact ⟨removeNonDataLoop rest parentSchema rest [p0],
        by simp only [removeNonDataPath, hp, if_true]⟩
    · exact ⟨removeNonDataLoop (p0 :: rest) parentSchema (p0 :: rest) [],
        by simp only [removeNonDataPath, hp, if_false]⟩

theorem removeNonDataPathElements_of_ne_nil (parentSchema schema : Entry) :
    ∀ paths : List (List GoString), (∀ path, path ∈ paths → path ≠ []) →
      ∃ out, removeNonDataPathElements parentSchema schema paths = .done (out, none) ∧
        List.Forall₂ (fun path po => removeNonDataPath parentSchema path = .done po)
          paths out := by
  intro paths
  induction paths with
  | nil =>
    intro _
    exact ⟨[], rfl, List.Forall₂.nil⟩
  | cons path paths ih =>
    intro hne
    obtain ⟨po, hpo⟩ := removeNonDataPath_of_ne_nil parentSchema path
      (hne path (List.mem_cons_self _ _))
    obtain ⟨out, hout, hall⟩ := ih (fun p hp => hne p (List.mem_cons_of_mem _ hp))
    refine ⟨po :: out, ?_, List.Forall₂.cons hpo hall⟩
    simp only [removeNonDataPathElements, hpo, hout]

theorem removeNonDataPathElements_of_nil_mem (parentSchema schema : Entry) :
    ∀ paths : List (List GoString), [] ∈ paths →
      removeNonDataPathElements parentSchema schema paths = .panic := by
  intro paths
  induction paths with
  | nil =>
    intro h
    cases h
  | cons path paths ih =>
    intro h
    cases path with
    | nil => simp [removeNonDataPathElements, removeNonDataPath]
    | cons p0 rest =>
      have hmem : [] ∈ paths := by
        rcases List.mem_cons.mp h with h1 | h1
        · cases h1
        · exact h1
      obtain ⟨po, hpo⟩ := removeNonDataPath_of_ne_nil parentSchema (p0 :: rest)
        (List.cons_ne_nil _ _)
      simp only [removeNonDataPathElements, hpo, ih hmem]

/-- C32 (amended): for input paths that are all non-empty,
removeNonDataPathElements returns one output path per input path, in order, and
no error.  For a path whose elements, after a leading element equal to the name
of the parent schema, which is kept, lead successively through the children of
the schema, the output path is the input path with exactly the elements whose
schema node is a choice or a case removed and the others kept in order. -/
theorem removeNonDataPathElements_spec (parentSchema schema : Entry)
    (paths : List (List GoString)) (hne : ∀ path, path ∈ paths → path ≠ []) :
    (∃ out, removeNonDataPathElements parentSchema schema paths = .done (out, none) ∧
      out.length = paths.length ∧
      List.Forall₂ (fun path po => removeNonDataPath parentSchema path = .done po)
        paths out) ∧
    (∀ p0 rest nodes, p0 = parentSchema.Name →
      schemaNodesAlong parentSchema rest = some nodes →
      removeNonDataPath parentSchema (p0 :: rest) = .done (p0 :: dataElements rest nodes)) ∧
    (∀ p0 rest nodes, p0 ≠ parentSchema.Name →
      schemaNodesAlong parentSchema (p0 :: rest) = some nodes →
      removeNonDataPath parentSchema (p0 :: rest) =
        .done (dataElements (p0 :: rest) nodes)) := by
  refine ⟨?_, ?_, ?_⟩
  · obtain ⟨out, hout, hall⟩ := removeNonDataPathElements_of_ne_nil parentSchema schema paths hne
    exact ⟨out, hout, hall.length_eq.symm, hall⟩
  · intro p0 rest nodes hp0 hnodes
    simp only [removeNonDataPath, hp0, if_true]
    rw [removeNonDataLoop_of_nodes rest rest parentSchema nodes _ hnodes]
    rfl
  · intro p0 rest nodes hp0 hnodes
    simp only [removeNonDataPath, hp0, if_false]
    rw [removeNonDataLoop_of_nodes (p0 :: rest) (p0 :: rest) parentSchema nodes _ hnodes]
    rfl

/-- Witness for C32 (amended): below the container "top" the path top/x is kept
and the path pick/one/y loses the choice "pick" and the case "one". -/
theorem removeNonDataPathElements_spec_witness :
    ∃ out, removeNonDataPathElements choiceSchema choiceSchema
        [["top".toList, "x".toList], ["pick".toList, "one".toList, "y".toList]] =
        .done (out, none) ∧
      out.length = 2 ∧
      List.Forall₂ (fun path po => removeNonDataPath choiceSchema path = .done po)
        [["top".toList, "x".toList], ["pick".toList, "one".toList, "y".toList]] out :=
  (removeNonDataPathElements_spec choiceSchema choiceSchema
    [["top".toList, "x".toList], ["pick".toList, "one".toList, "y".toList]]
    (by decide)).1

/-- C32 as stated fails: an empty path among the input paths makes the access
`path[0]` panic, so nothing is returned; without it the two paths are
returned. -/
theorem removeNonDataPathElements_counterexample :
    removeNonDataPathElements choiceSchema choiceSchema [["top".toList, "x".toList], []] =
      .panic ∧
    removeNonDataPathElements choiceSchema choiceSchema
      [["top".toList, "x".toList], ["pick".toList, "one".toList, "y".toList]] =
      .done ([["top".toList, "x".toList], ["y".toList]], none) :=
  ⟨rfl, rfl⟩

/-- C33 on the code: a path with an element that is not found is kept as it is
only when its first element is not the name of the parent schema.  When it is,
the output is the path without that first element: below the container "system"
the path system/nosuch gives nosuch, while nosuch/dns is kept; in general, when
the elements after a leading parent name do not all lead through the schema,
the output is those elements alone. -/
theorem removeNonDataPathElements_retains :
    removeNonDataPathElements systemSchema systemSchema
      [["system".toList, "nosuch".toList]] = .done ([["nosuch".toList]], none) ∧
    removeNonDataPathElements systemSchema systemSchema
      [["nosuch".toList, "dns".toList]] = .done ([["nosuch".toList, "dns".toList]], none) ∧
    removeNonDataPathElements systemSchema systemSchema
      [["system".toList, "dns".toList]] = .done ([["system".toList, "dns".toList]], none) ∧
    (∀ (parentSchema : Entry) (p0 : GoString) (rest : List GoString),
      p0 = parentSchema.Name → schemaNodesAlong parentSchema rest = none →
      removeNonDataPath parentSchema (p0 :: rest) = .done rest) ∧
    (∀ (parentSchema : Entry) (p0 : GoString) (rest : List GoString),
      p0 ≠ parentSchema.Name → schemaNodesAlong parentSchema (p0 :: rest) = none →
      removeNonDataPath parentSchema (p0 :: rest) = .done (p0 :: rest)) := by
  refine ⟨rfl, rfl, rfl, ?_, ?_⟩
  · intro parentSchema p0 rest hp0 hnone
    simp only [removeNonDataPath, hp0, if_true]
    rw [removeNonDataLoop_of_missing rest rest parentSchema _ hnone]
  · intro parentSchema p0 rest hp0 hnone
    simp only [removeNonDataPath, hp0, if_false]
    rw [removeNonDataLoop_of_missing (p0 :: rest) (p0 :: rest) parentSchema _ hnone]

end ytypes

namespace ytypes

open yang reflect

theorem dataPathHeads_of_ne_nil :
    ∀ dataPaths : List (List GoString), (∀ sp, sp ∈ dataPaths → sp ≠ []) →
      ∃ pm, dataPathHeads dataPaths = .done pm ∧
        ∀ x, x ∈ pm ↔ ∃ sp, sp ∈ dataPaths ∧ sp.head?.map stripModulePrefix = some x := by
  intro dataPaths
  induction dataPaths with
  | nil =>
    intro _
    exact ⟨[], rfl, fun x => by simp⟩
  | cons sp rest ih =>
    intro hne
    obtain ⟨pm, hpm, hmem⟩ := ih (fun p hp => hne p (List.mem_cons_of_mem _ hp))
    cases sp with
    | nil => exact absurd rfl (hne [] (List.mem_cons_self _ _))
    | cons sp0 tl =>
      refine ⟨stripModulePrefix sp0 :: pm, by simp only [dataPathHeads, hpm], ?_⟩
      intro x
      simp only [List.mem_cons, hmem]
      constructor
      · rintro (h | ⟨sp, hsp, hx⟩)
        · exact ⟨sp0 :: tl, Or.inl rfl, by simp [h]⟩
        · exact ⟨sp, Or.inr hsp, hx⟩
      · rintro ⟨sp, hsp | hsp, hx⟩
        · subst hsp
          left
          simpa using hx.symm
        · exact Or.inr ⟨sp, hsp, hx⟩

theorem dataPathHeads_of_nil_mem :
    ∀ dataPaths : List (List GoString), [] ∈ dataPaths → dataPathHeads dataPaths = .panic := by
  intro dataPaths
  induction dataPaths with
  | nil =>
    intro h
    cases h
  | cons sp rest ih =>
    intro h
    cases sp with
    | nil => rfl
    | cons sp0 tl =>
      have hmem : [] ∈ rest := by
        rcases List.mem_cons.mp h with h1 | h1
        · cases h1
        · exact h1
      simp only [dataPathHeads, ih hmem]

theorem checkDataTreeKeys_eq_none_iff (pm : List GoString) :
    ∀ keys : List GoString,
      checkDataTreeKeys pm keys = none ↔ ∀ jf, jf ∈ keys → stripModulePrefix jf ∈ pm := by
  intro keys
  induction keys with
  | nil => simp [checkDataTreeKeys]
  | cons jf rest ih =>
    by_cases h : stripModulePrefix jf ∈ pm
    · simp [checkDataTreeKeys, h, ih]
    · simp [checkDataTreeKeys, h]

theorem checkDataTreeKeys_eq_some (pm : List GoString) :
    ∀ (keys : List GoString) (err : Error), checkDataTreeKeys pm keys = some err →
      ∃ jf, err = .unexpectedField jf ∧ jf ∈ keys ∧ stripModulePrefix jf ∉ pm := by
  intro keys
  induction keys with
  | nil =>
    intro err h
    cases h
  | cons jf rest ih =>
    intro err h
    by_cases hjf : stripModulePrefix jf ∈ pm
    · simp only [checkDataTreeKeys, hjf, decide_True, if_true] at h
      obtain ⟨jf2, he, hmem, hno⟩ := ih err h
      exact ⟨jf2, he, List.mem_cons_of_mem _ hmem, hno⟩
    · simp only [checkDataTreeKeys, hjf, decide_False, Bool.false_eq_true, if_false,
        Option.some.injEq] at h
      exact ⟨jf, h.symm, List.mem_cons_self _ _, hjf⟩

/-- C34 (amended): for data paths that are all non-empty,
checkDataTreeAgainstPaths returns, and it returns no error if and only if every
first-level key of the document, with its module prefix stripped, equals the
prefix-stripped first element of at least one of the data paths; otherwise it
returns an error naming a first-level key that matches no data path; an empty
document is accepted. -/
theorem checkDataTreeAgainstPaths_spec (jsonTree : JSONObject)
    (dataPaths : List (List GoString)) (hne : ∀ sp, sp ∈ dataPaths → sp ≠ []) :
    ∃ result, checkDataTreeAgainstPaths jsonTree dataPaths = .done result ∧
      (result = none ↔ ∀ kv, kv ∈ jsonTree → ∃ sp, sp ∈ dataPaths ∧
        sp.head?.map stripModulePrefix = some (stripModulePrefix kv.1)) ∧
      (∀ err, result = some err → ∃ kv, kv ∈ jsonTree ∧ err = .unexpectedField kv.1 ∧
        ¬ ∃ sp, sp ∈ dataPaths ∧
          sp.head?.map stripModulePrefix = some (stripModulePrefix kv.1)) ∧
      (jsonTree = [] → result = none) := by
  obtain ⟨pm, hpm, hmem⟩ := dataPathHeads_of_ne_nil dataPaths hne
  refine ⟨checkDataTreeKeys pm (jsonTree.map (fun kv => kv.1)),
    by simp only [checkDataTreeAgainstPaths, hpm], ?_, ?_, ?_⟩
  · rw [checkDataTreeKeys_eq_none_iff]
    constructor
    · intro h kv hkv
      exact (hmem _).mp (h kv.1 (List.mem_map_of_mem _ hkv))
    · intro h jf hjf
      obtain ⟨kv, hkv, rfl⟩ := List.mem_map.mp hjf
      exact (hmem _).mpr (h kv hkv)
  · intro err herr
    obtain ⟨jf, he, hjf, hno⟩ := checkDataTreeKeys_eq_some pm _ err herr
    obtain ⟨kv, hkv, rfl⟩ := List.mem_map.mp hjf
    exact ⟨kv, hkv, he, fun hex => hno ((hmem _).mpr hex)⟩
  · intro hempty
    subst hempty
    rfl

/-- Witness for C34 (amended): the document {"oc:dns": 1} is accepted against the
data path m:dns/server, and the key "ntp" is reported against it. -/
theorem checkDataTreeAgainstPaths_spec_witness :
    (∃ result, checkDataTreeAgainstPaths [("oc:dns".toList, .number 1)]
        [["m:dns".toList, "server".toList]] = .done result ∧
      (result = none ↔ ∀ kv, kv ∈ [("oc:dns".toList, JSONValue.number 1)] → ∃ sp,
        sp ∈ [["m:dns".toList, "server".toList]] ∧
        sp.head?.map stripModulePrefix = some (stripModulePrefix kv.1)) ∧
      (∀ err, result = some err → ∃ kv, kv ∈ [("oc:dns".toList, JSONValue.number 1)] ∧
        err = .unexpectedField kv.1 ∧
        ¬ ∃ sp, sp ∈ [["m:dns".toList, "server".toList]] ∧
          sp.head?.map stripModulePrefix = some (stripModulePrefix kv.1)) ∧
      ([("oc:dns".toList, JSONValue.number 1)] = [] → result = none)) ∧
    checkDataTreeAgainstPaths [("oc:dns".toList, .number 1)]
      [["m:dns".toList, "server".toList]] = .done none ∧
    checkDataTreeAgainstPaths [("oc:dns".toList, .number 1), ("ntp".toList, .null)]
      [["m:dns".toList, "server".toList]] = .done (some (.unexpectedField "ntp".toList)) :=
  ⟨checkDataTreeAgainstPaths_spec [("oc:dns".toList, .number 1)]
    [["m:dns".toList, "server".toList]] (by decide), rfl, rfl⟩

/-- C34 as stated fails: with an empty path among the data paths the access
`sp[0]` panics and the empty document is not accepted. -/
theorem checkDataTreeAgainstPaths_counterexample :
    checkDataTreeAgainstPaths [] [[]] = .panic ∧
    checkDataTreeAgainstPaths [] [["dns".toList], []] = .panic :=
  ⟨rfl, rfl⟩

theorem schemaPaths_root_child (schema : Entry) (name x : GoString)
    (hslash : '/' ∉ x) (hbar : '|' ∉ x) :
    schemaPaths schema { Name := name, Tag := [("path".toList, '/' :: x)] } = .ok [[]] := by
  have hbar2 : '|' ∉ '/' :: x := by
    intro h
    rcases List.mem_cons.mp h with h1 | h1
    · cases h1
    · exact hbar h1
  have htag : ({ Name := name, Tag := [("path".toList, '/' :: x)] } : StructField).TagLookup
      "path".toList = some ('/' :: x) := by
    simp [StructField.TagLookup]
  unfold schemaPaths
  rw [htag]
  simp only [Split_of_not_mem _ '|' hbar2, List.map_cons, List.map_nil]
  have hsplit : strings.Split ('/' :: x) '/' = [[], x] := by
    simp [strings.Split, Split_of_not_mem x '/' hslash]
  rw [hsplit]
  simp [removeRootPrefix, stripModulePrefixes]

/-- C37 on the code: a path produced by schemaPaths can be empty.  For the tag
"/a", and for every tag made of '/' and a name without '/' and '|',
removeRootPrefix removes both elements of the split tag, schemaPaths gives the
one empty path, and the access `path[0]` in removeNonDataPathElements panics, so
dataTreePaths does not return.  An empty data path, which
removeNonDataPathElements also gives for a path of choice and case nodes only,
makes the access `sp[0]` in checkDataTreeAgainstPaths panic.  The tag
"/top/x" does give the one path x. -/
theorem dataTreePaths_root_child_panics :
    strings.Split "/a".toList '/' = [[], "a".toList] ∧
    removeRootPrefix [[], "a".toList] = [] ∧
    schemaPaths choiceSchema (pathField "F" "/a") = .ok [[]] ∧
    dataTreePaths choiceSchema choiceSchema (pathField "F" "/a") = .panic ∧
    (∀ (parentSchema schema : Entry) (name x : GoString), '/' ∉ x → '|' ∉ x →
      dataTreePaths parentSchema schema { Name := name, Tag := [("path".toList, '/' :: x)] } =
        .panic) ∧
    (∀ (parentSchema schema : Entry) (paths : List (List GoString)), [] ∈ paths →
      removeNonDataPathElements parentSchema schema paths = .panic) ∧
    dataTreePaths choiceSchema choiceSchema (pathField "F" "pick/one") = .done ([[]], none) ∧
    checkDataTreeAgainstPaths [("y".toList, .number 1)] [[]] = .panic ∧
    (∀ (jsonTree : JSONObject) (dataPaths : List (List GoString)), [] ∈ dataPaths →
      checkDataTreeAgainstPaths jsonTree dataPaths = .panic) ∧
    dataTreePaths choiceSchema choiceSchema (pathField "F" "/top/x") =
      .done ([["x".toList]], none) := by
  refine ⟨rfl, rfl, rfl, rfl, ?_, ?_, rfl, rfl, ?_, rfl⟩
  · intro parentSchema schema name x hslash hbar
    unfold dataTreePaths
    rw [schemaPaths_root_child schema name x hslash hbar]
    rfl
  · intro parentSchema schema paths hmem
    exact removeNonDataPathElements_of_nil_mem parentSchema schema paths hmem
  · intro jsonTree dataPaths hmem
    simp only [checkDataTreeAgainstPaths, dataPathHeads_of_nil_mem dataPaths hmem]

end ytypes

namespace ygot

open reflect

/-- C39: a document value that is a boolean is dropped: for every field with a
path tag, of any type, whose document value is true or false, binding leaves the
field as it was and reports no error. -/
theorem constructGoStructValue_bool (recur : Option Binder) (t : GoType)
    (fType : StructField) (field : Value) (pmod path : GoString) (j : JSONObject) (b : Bool)
    (htag : fType.TagLookup "path".toList = some path)
    (hdoc : extractInterfaceByPath j path = .bool b) :
    constructGoStructValue recur t fType field pmod j = .done (field, none) := by
  obtain ⟨ps, hps⟩ := structTagToLibPaths_of_tag fType path htag
  unfold constructGoStructValue
  rw [htag]
  simp only [hps, hdoc]

/-- Witness for C39: the boolean field Enabled stays false when the document
holds true for it, and the record with Enabled and the optional Flag comes back
as it was. -/
theorem constructGoStructValue_bool_witness :
    constructGoStructValue none .Bool (ytypes.pathField "Enabled" "enabled") (.bool false) []
      boolDoc = .done (.bool false, none) ∧
    UnmarshalJSON (fun _ => .ok boolDoc) [] boolDecl (ZeroFields boolDecl) .Internal =
      .done (ZeroFields boolDecl, none) :=
  ⟨constructGoStructValue_bool none .Bool (ytypes.pathField "Enabled" "enabled") (.bool false)
      [] "enabled".toList boolDoc true rfl rfl,
    rfl⟩

theorem mem_keys_setMapIndex (x : Value) (k : GoString) (v : Value) :
    ∀ acc : List (Value × Value),
      x ∈ (setMapIndex acc k v).map (fun kv => kv.1) ↔
        x ∈ acc.map (fun kv => kv.1) ∨ x = .string k := by
  intro acc
  induction acc with
  | nil => simp [setMapIndex]
  | cons kv rest ih =>
    obtain ⟨key, val⟩ := kv
    cases key with
    | string k2 =>
      by_cases hk : k2 = k
      · subst hk
        simp only [setMapIndex, if_true, List.map_cons, List.mem_cons]
        tauto
      · simp only [setMapIndex, hk, if_false, List.map_cons, List.mem_cons, ih]
        tauto
    | _ =>
      simp only [setMapIndex, List.map_cons, List.mem_cons, ih]
      tauto

theorem constructMapEntries_keys (recur : Option Binder) (settable : Bool)
    (pmod : GoString) (m : JSONObject)
    (hrecur : ∀ bind, recur = some bind → ∀ o r e, bind pmod o = .done (r, e) → e = none) :
    ∀ (ks : List GoString) (acc : List (Value × Value)) (v : Value)
      (err : Option ytypes.Error),
      constructMapEntries recur settable pmod m ks acc = .done (v, err) →
      err = none ∧ ∃ entries, v = .map entries ∧
        ∀ x, x ∈ entries.map (fun kv => kv.1) ↔
          x ∈ acc.map (fun kv => kv.1) ∨ ∃ k, k ∈ ks ∧ x = .string k := by
  intro ks
  induction ks with
  | nil =>
    intro acc v err h
    simp only [constructMapEntries, ytypes.Exec.done.injEq, Prod.mk.injEq] at h
    exact ⟨h.2.symm, acc, h.1.symm, fun x => by simp⟩
  | cons k ks ih =>
    intro acc v err h
    cases hrec : recur with
    | none =>
      rw [hrec] at h
      simp [constructMapEntries] at h
    | some bind =>
      rw [hrec] at h
      cases hm : mapIndex m k with
      | object o =>
        cases hb : bind pmod o with
        | done r =>
          obtain ⟨vals, e⟩ := r
          have he : e = none := hrecur bind hrec o vals e hb
          subst he
          cases settable with
          | false => simp [constructMapEntries, hm, hb] at h
          | true =>
            simp only [constructMapEntries, hm, hb, if_true] at h
            rw [← hrec] at h
            obtain ⟨herr, entries, hv, hkeys⟩ := ih _ v err h
            refine ⟨herr, entries, hv, fun x => ?_⟩
            rw [hkeys x, mem_keys_setMapIndex]
            simp only [List.mem_cons]
            constructor
            · rintro ((h1 | h1) | ⟨k2, hk2, hx⟩)
              · exact Or.inl h1
              · exact Or.inr ⟨k, Or.inl rfl, h1⟩
              · exact Or.inr ⟨k2, Or.inr hk2, hx⟩
            · rintro (h1 | ⟨k2, hk2 | hk2, hx⟩)
              · exact Or.inl (Or.inl h1)
              · subst hk2
                exact Or.inl (Or.inr hx)
              · exact Or.inr ⟨k2, hk2, hx⟩
        | panic => simp [constructMapEntries, hm, hb] at h
        | outOfFuel => simp [constructMapEntries, hm, hb] at h
      | null => simp [constructMapEntries, hm] at h
      | bool b => simp [constructMapEntries, hm] at h
      | number n => simp [constructMapEntries, hm] at h
      | string s => simp [constructMapEntries, hm] at h
      | array xs => simp [constructMapEntries, hm] at h

theorem ZeroFields_getElem? :
    ∀ (fs : List (StructField × GoType)) (i : Nat) (f : StructField) (t : GoType),
      fs[i]? = some (f, t) → (ZeroFields fs)[i]? = some (f, Zero t) := by
  intro fs
  induction fs with
  | nil =>
    intro i f t h
    simp at h
  | cons d rest ih =>
    intro i f t h
    obtain ⟨f0, t0⟩ := d
    cases i with
    | zero =>
      simp only [List.getElem?_cons_zero, Option.some.injEq, Prod.mk.injEq] at h
      simp [ZeroFields, h.1, h.2]
    | succ n =>
      simp only [List.getElem?_cons_succ] at h
      simp only [ZeroFields, List.getElem?_cons_succ]
      exact ih n f t h

theorem constructGoStruct_untouched_at :
    ∀ (decl : List (StructField × GoType)) (vals vals2 : Fields) (pmod : GoString)
      (j : JSONObject) (err : Option ytypes.Error),
      constructGoStruct decl vals pmod j = .done (vals2, err) →
      ∀ (i : Nat) (f : StructField) (t : GoType), decl[i]? = some (f, t) →
        (f.TagLookup "path".toList = none ∨
          ∃ path, f.TagLookup "path".toList = some path ∧
            extractInterfaceByPath j path = .null) →
        vals2[i]? = vals[i]? := by
  intro decl
  induction decl with
  | nil =>
    intro vals vals2 pmod j err _ i f t hi
    simp at hi
  | cons d rest ih =>
    intro vals vals2 pmod j err h i f t hi hun
    obtain ⟨fType, ty⟩ := d
    cases vals with
    | nil =>
      simp only [constructGoStruct, ytypes.Exec.done.injEq, Prod.mk.injEq] at h
      rw [← h.1]
    | cons nv vals =>
      obtain ⟨name, field⟩ := nv
      simp only [constructGoStruct] at h
      split at h
      · rename_i field2 e2 hval
        split at h
        · rename_i vals3 err3 hrec
          simp only [ytypes.Exec.done.injEq, Prod.mk.injEq] at h
          rw [← h.1]
          cases i with
          | zero =>
            simp only [List.getElem?_cons_zero, Option.some.injEq, Prod.mk.injEq] at hi
            obtain ⟨hf, ht⟩ := hi
            subst hf
            subst ht
            have hsame : constructGoStructValue (newGoStruct ty) ty fType field
                (match fType.TagLookup "module".toList with
                  | some chMod => chMod
                  | none => pmod) j = .done (field, none) := by
              rcases hun with h1 | ⟨path, htag, habs⟩
              · exact constructGoStructValue_of_no_tag _ ty fType field _ j h1
              · exact constructGoStructValue_of_absent _ ty fType field _ j path htag habs
            have heq := hval.symm.trans hsame
            simp only [ytypes.Exec.done.injEq, Prod.mk.injEq] at heq
            simp [heq.1]
          | succ n =>
            simp only [List.getElem?_cons_succ] at hi ⊢
            exact ih vals vals3 pmod j err3 hrec n f t hi hun
        · cases h
        · cases h
      · cases h
      · cases h

theorem newGoStruct_err_none (t : GoType) (bind : Binder) (h : newGoStruct t = some bind)
    (pmod : GoString) (o : JSONObject) (r : Fields) (e : Option ytypes.Error)
    (hb : bind pmod o = .done (r, e)) : e = none := by
  unfold newGoStruct at h
  split at h
  · simp only [Option.some.injEq] at h
    subst h
    exact constructGoStruct_err_none _ _ _ _ _ _ hb
  · simp only [Option.some.injEq] at h
    subst h
    exact constructGoStruct_err_none _ _ _ _ _ _ hb
  · simp only [Option.some.injEq] at h
    subst h
    exact constructGoStruct_err_none _ _ _ _ _ _ hb
  · cases h

/-- C38: binding a nested-mapping document value replaces and does not merge.
For a keyed-mapping field and for a pointer field the outcome does not depend on
what the field held before.  When binding a keyed-mapping field returns, it
returns no error and the keys of the field are exactly the keys of the document
mapping, so an entry held before under another key is gone.  When binding an
optional record field returns, the field points to the record obtained by
binding the document mapping onto a newly allocated zero record, in which every
field without path tag or without a value in the document mapping is absent or
zero. -/
theorem constructGoStructValue_replaces (fType : StructField) (field : Value)
    (pmod path : GoString) (j m : JSONObject)
    (htag : fType.TagLookup "path".toList = some path)
    (hdoc : extractInterfaceByPath j path = .object m) :
    (∀ (recur : Option Binder) (key elem : GoType) (field2 : Value),
      constructGoStructValue recur (.Map key elem) fType field pmod j =
        constructGoStructValue recur (.Map key elem) fType field2 pmod j) ∧
    (∀ (recur : Option Binder) (elem : GoType) (field2 : Value),
      constructGoStructValue recur (.Ptr elem) fType field pmod j =
        constructGoStructValue recur (.Ptr elem) fType field2 pmod j) ∧
    (∀ (key elem : GoType) (v : Value) (err : Option ytypes.Error),
      constructGoStructValue (newGoStruct (.Map key elem)) (.Map key elem) fType field pmod
        j = .done (v, err) →
      err = none ∧ ∃ entries, v = .map entries ∧
        ∀ x, x ∈ entries.map (fun kv => kv.1) ↔
          ∃ k, k ∈ m.map (fun kv => kv.1) ∧ x = .string k) ∧
    (∀ (fs : List (StructField × GoType)) (v : Value) (err : Option ytypes.Error),
      constructGoStructValue (newGoStruct (.Ptr (.Struct fs))) (.Ptr (.Struct fs)) fType field
        pmod j = .done (v, err) →
      ∃ vals, v = .ptr (.struct vals) ∧
        constructGoStruct fs (ZeroFields fs) pmod m = .done (vals, err) ∧
        ∀ (i : Nat) (f : StructField) (t : GoType), fs[i]? = some (f, t) →
          (f.TagLookup "path".toList = none ∨
            ∃ p, f.TagLookup "path".toList = some p ∧
              extractInterfaceByPath m p = .null) →
          vals[i]? = some (f, Zero t)) := by
  obtain ⟨ps, hps⟩ := structTagToLibPaths_of_tag fType path htag
  have hrun : ∀ (recur : Option Binder) (t : GoType) (fld : Value),
      constructGoStructValue recur t fType fld pmod j =
        match t with
        | .Ptr _ =>
          match recur with
          | none => .panic
          | some bind =>
            match bind pmod m with
            | .done (vals, err) => .done (.ptr (.struct vals), err)
            | .panic => .panic
            | .outOfFuel => .outOfFuel
        | .Map key elem =>
          constructMapEntries recur (mapSettable key elem) pmod m (m.map (fun kv => kv.1)) []
        | _ => .done (fld, none) := by
    intro recur t fld
    unfold constructGoStructValue
    rw [htag]
    simp only [hps, hdoc]
  refine ⟨?_, ?_, ?_, ?_⟩
  · intro recur key elem field2
    rw [hrun, hrun]
  · intro recur elem field2
    rw [hrun, hrun]
  · intro key elem v err h
    rw [hrun] at h
    obtain ⟨herr, entries, hv, hkeys⟩ := constructMapEntries_keys _ _ pmod m
      (fun bind hb o r e => newGoStruct_err_none _ bind hb pmod o r e) _ [] v err h
    refine ⟨herr, entries, hv, fun x => ?_⟩
    rw [hkeys x]
    simp only [List.map_nil, List.not_mem_nil, false_or]
  · intro fs v err h
    rw [hrun] at h
    simp only [newGoStruct] at h
    cases hb : constructGoStruct fs (ZeroFields fs) pmod m with
    | done r =>
      obtain ⟨vals, e⟩ := r
      rw [hb] at h
      simp only [ytypes.Exec.done.injEq, Prod.mk.injEq] at h
      refine ⟨vals, h.1.symm, by rw [h.2], ?_⟩
      intro i f t hi hun
      rw [constructGoStruct_untouched_at fs (ZeroFields fs) vals pmod m e hb i f t hi hun]
      exact ZeroFields_getElem? fs i f t hi
    | panic => rw [hb] at h; cases h
    | outOfFuel => rw [hb] at h; cases h

/-- Witness for C38: the field ACLSet holding an entry under "old" is bound from
the document with the one key "n42" as the empty field is, and holds the entry
"n42" alone; the field Child holding a record with FieldOne "old" is bound from
{"child": {"field-two": 5}} to a new record whose FieldOne is absent. -/
theorem constructGoStructValue_replaces_witness :
    constructGoStructValue (newGoStruct aclSetType) aclSetType aclSetField
      (.map [(.string "old".toList, .nilPtr)]) [] aclSetDoc =
      constructGoStructValue (newGoStruct aclSetType) aclSetType aclSetField .nilMap []
        aclSetDoc ∧
    constructGoStructValue (newGoStruct aclSetType) aclSetType aclSetField
      (.map [(.string "old".toList, .nilPtr)]) [] aclSetDoc =
      .done (.map [(.string "n42".toList, .ptr (.struct
        [(ytypes.pathField "Name" "name", .ptr (.string "n42".toList)),
         (ytypes.pathField "SecondValue" "second-value", .ptr (.string "val".toList))]))],
        none) ∧
    constructGoStructValue (newGoStruct (.Ptr (.Struct testOneChildDecl)))
      (.Ptr (.Struct testOneChildDecl)) (ytypes.pathField "Child" "child")
      (.ptr (.struct
        [(ytypes.pathField "FieldOne" "field-one", .ptr (.string "old".toList)),
         (ytypes.pathField "FieldTwo" "field-two", .nilPtr)])) []
      [("child".toList, .object [("field-two".toList, .number 5)])] =
      .done (.ptr (.struct
        [(ytypes.pathField "FieldOne" "field-one", .nilPtr),
         (ytypes.pathField "FieldTwo" "field-two", .ptr (.int 5))]), none) :=
  ⟨(constructGoStructValue_replaces aclSetField (.map [(.string "old".toList, .nilPtr)]) []
      "acl-set".toList aclSetDoc
      [("n42".toList, .object
        [("name".toList, .string "n42".toList),
         ("second-value".toList, .string "val".toList)])] rfl rfl).1
      (newGoStruct aclSetType) .String (.Ptr (.Struct aclSetDecl)) .nilMap,
    rfl, rfl⟩

end ygot
